import Mathlib

/-!
Shallow embedding of the SINY_texts SMS campaign/scheduling engine
(`scheduler.py`, `campaign_service.py`, `database.py`, `leads_service.py`)
and proofs about the testable properties of its specification.

Modelling conventions:
* Timestamps are natural numbers counting whole minutes since the epoch
  2001-01-01 00:00 UTC (2001-01-01 was a Monday, so `day % 7` matches
  Python's `datetime.weekday()` with Monday = 0).
* `datetime.utcnow()` is passed in explicitly as a `now : Nat` parameter.
* The code's `ZoneInfo('America/New_York')` wall clock is modelled as the
  fixed offset UTC-5:00 (Eastern Standard Time); daylight-saving shifts are
  outside the model.
* Python strings are Lean `String`s, but all operations are implemented
  over `List Char` so that every definition evaluates inside the kernel.
* Database rows are structures, tables are lists, and each service
  function is a pure state transformer on a `DB` value.  SQLAlchemy
  sessions always commit in the modelled fragment; an exception path that
  rolls back with no prior writes is modelled as returning the input state.
* External collaborators (Twilio, the leads store, `random.choice`) are
  parameters: a send oracle `Phone → Body → SendResult`, explicit contact
  lists, and an explicit variant chooser.
-/

namespace SINY

/-! ## Time utilities -/

/-- Minutes in a day. -/
def minutesPerDay : Nat := 1440

/-- Fixed Eastern offset (UTC-5:00) in minutes, modelling
`ZoneInfo('America/New_York')` without daylight saving. -/
def easternOffset : Nat := 300

/-- Eastern wall-clock minutes corresponding to a UTC timestamp
(`datetime.now(eastern)` in `scheduler.py:_get_eastern_time`). -/
def easternOf (t : Nat) : Nat := t - easternOffset

/-- Calendar day index of a timestamp. -/
def dayOf (t : Nat) : Nat := t / minutesPerDay

/-- Minute of the day of a timestamp. -/
def todOf (t : Nat) : Nat := t % minutesPerDay

/-- Weekday of a day index; day 0 = 2001-01-01 = Monday, so this matches
Python's `datetime.weekday()` (Monday = 0 .. Sunday = 6). -/
def weekdayOf (d : Nat) : Nat := d % 7

/-- Start of the current UTC day: `datetime.utcnow().replace(hour=0,
minute=0, second=0, microsecond=0)` in `_send_campaign_message`. -/
def dayStartUtc (t : Nat) : Nat := (t / minutesPerDay) * minutesPerDay

/-- Gregorian leap-year test. -/
def isLeapYear (y : Nat) : Bool := y % 4 == 0 && (y % 100 != 0 || y % 400 == 0)

/-- Days in a Gregorian year. -/
def daysInYear (y : Nat) : Nat := if isLeapYear y then 366 else 365

/-- Month lengths of a Gregorian year. -/
def monthLengths (y : Nat) : List Nat :=
  [31, if isLeapYear y then 29 else 28, 31, 30, 31, 30, 31, 31, 30, 31, 30, 31]

/-- Fuelled scan that peels whole years off a day count. -/
def yearOfDayAux : Nat → Nat → Nat → Nat × Nat
  | 0, y, d => (y, d)
  | fuel + 1, y, d =>
    if d < daysInYear y then (y, d) else yearOfDayAux fuel (y + 1) (d - daysInYear y)

/-- Year and day-of-year (0-based) of a day index counted from 2001-01-01. -/
def yearAndDoy (d : Nat) : Nat × Nat := yearOfDayAux (d / 365 + 1) 2001 d

/-- Fuelled scan that peels whole months off a day-of-year count. -/
def monthOfDoyAux : List Nat → Nat → Nat → Nat × Nat
  | [], m, d => (m, d)
  | len :: rest, m, d =>
    if d < len then (m, d) else monthOfDoyAux rest (m + 1) (d - len)

/-- Civil date (year, month 1-12, day-of-month 1-31) of a day index. -/
def civilOfDay (d : Nat) : Nat × Nat × Nat :=
  let yd := yearAndDoy d
  let md := monthOfDoyAux (monthLengths yd.1) 1 yd.2
  (yd.1, md.1, md.2 + 1)

/-- Day-of-month (1-31) of a day index, used by the monthly recurrence rule
(`rrule(MONTHLY, bymonthday=base_time.day)`). -/
def dayOfMonthOf (d : Nat) : Nat := (civilOfDay d).2.2

/-- Zero-padded two-digit decimal rendering (strftime's `%m`, `%d`, `%I`, `%M`). -/
def pad2 (n : Nat) : String := if n < 10 then "0" ++ toString n else toString n

/-- `now_eastern.strftime('%m/%d/%Y')` on an Eastern wall-clock timestamp. -/
def fmtDate (tEastern : Nat) : String :=
  let c := civilOfDay (dayOf tEastern)
  pad2 c.2.1 ++ "/" ++ pad2 c.2.2 ++ "/" ++ toString c.1

/-- `now_eastern.strftime('%I:%M %p')` on an Eastern wall-clock timestamp. -/
def fmtTime12 (tEastern : Nat) : String :=
  let tod := todOf tEastern
  let h24 := tod / 60
  let h12 := (h24 + 11) % 12 + 1
  pad2 h12 ++ ":" ++ pad2 (tod % 60) ++ " " ++ (if h24 < 12 then "AM" else "PM")

/-- First `n ≥ start` with `p n`, searching at most `fuel` values. -/
def findFirst (p : Nat → Bool) : Nat → Nat → Option Nat
  | _, 0 => none
  | s, fuel + 1 => if p s then some s else findFirst p (s + 1) fuel

/-! ## Character-list string primitives

Python string operations, implemented over `List Char` so that they reduce
in the kernel (core `String.toLower`/`trim`/`splitOn` do not). -/

/-- The whitespace characters stripped by Python's `str.strip()`. -/
def isPySpace (c : Char) : Bool :=
  c = ' ' || c = '\t' || c = '\n' || c = '\r' || c = '\x0b' || c = '\x0c'

/-- Python `str.strip()`. -/
def pyStripCh (l : List Char) : List Char :=
  ((l.dropWhile isPySpace).reverse.dropWhile isPySpace).reverse

/-- Python `str.lower()` (ASCII fragment). -/
def pyLower (s : String) : String := String.mk (s.data.map Char.toLower)

/-- Python `str.strip()` on strings. -/
def pyStrip (s : String) : String := String.mk (pyStripCh s.data)

/-- Python `str.split(sep)` for a single-character separator. -/
def splitCh (sep : Char) : List Char → List (List Char)
  | [] => [[]]
  | c :: rest =>
    match splitCh sep rest with
    | [] => [[c]]
    | cur :: more => if c = sep then [] :: cur :: more else (c :: cur) :: more

/-- Python `str.split(sep)` on strings, single-character separator. -/
def pySplit (sep : Char) (s : String) : List String :=
  (splitCh sep s.data).map String.mk

/-- Python `str.replace(pat, rep)`: replace every occurrence, scanning left
to right without overlap.  (All call sites pass a non-empty `pat`.) -/
def replaceAllCh (pat rep : List Char) : List Char → List Char
  | [] => []
  | c :: rest =>
    if List.isPrefixOf pat (c :: rest) then
      rep ++ replaceAllCh pat rep (List.drop (pat.length - 1) rest)
    else
      c :: replaceAllCh pat rep rest
termination_by s => s.length
decreasing_by
  · simp only [List.length_drop, List.length_cons]
    omega
  · simp only [List.length_cons]
    omega

/-- Python `str.replace` on strings. -/
def pyReplace (s pat rep : String) : String :=
  String.mk (replaceAllCh pat.data rep.data s.data)

/-- `re.sub(r' +', ' ', s)`: collapse every run of space characters to one. -/
def collapseSpaces : List Char → List Char
  | [] => []
  | [c] => [c]
  | a :: b :: rest =>
    if a = ' ' && b = ' ' then collapseSpaces (b :: rest)
    else a :: collapseSpaces (b :: rest)

/-- Numeric value of a digit string. -/
def natOfDigits (l : List Char) : Nat :=
  l.foldl (fun acc c => acc * 10 + (c.toNat - '0'.toNat)) 0

/-- Python `int(s)`: strip whitespace, optional sign, then decimal digits;
anything else raises, modelled as `none`. -/
def pyToInt (s : String) : Option Int :=
  let core : List Char → Option Int := fun ds =>
    if ds.isEmpty then none
    else if ds.all Char.isDigit then some (natOfDigits ds : Nat) else none
  match pyStripCh s.data with
  | '-' :: ds => (core ds).map (fun n => -n)
  | '+' :: ds => core ds
  | ds => core ds

/-! ## Python truthiness helpers -/

/-- Python `a or b` for optional strings (`None` and `''` are falsy). -/
def pyOrO (a b : Option String) : Option String :=
  match a with
  | none => b
  | some s => if s = "" then b else some s

/-- Python `a or default` yielding a string. -/
def pyOrS (a : Option String) (dflt : String) : String :=
  match pyOrO a none with
  | some s => s
  | none => dflt

/-- Python truthiness of an optional string. -/
def optTruthy (a : Option String) : Bool :=
  match a with
  | none => false
  | some s => s ≠ ""

/-- Value of an optional string with `''` for missing
(`contact.get(k) or ''`). -/
def getOrEmpty (a : Option String) : String := pyOrS a ""

/-! ## Contacts and phone normalization -/

/-- A duck-typed contact dictionary: every key any call site reads, each
possibly absent (`dict.get` returns `None`). -/
structure Contact where
  name : Option String := none
  company : Option String := none
  role : Option String := none
  phone : Option String := none
  phoneNumber : Option String := none
  phoneNormalized : Option String := none
  contactName : Option String := none
  contactCompany : Option String := none
  deriving DecidableEq, Repr

/-- `leads_service.normalize_phone`: keep the digits and render
`+1XXXXXXXXXX`; other digit counts give `None`. -/
def normalizePhone (s : String) : Option String :=
  if s = "" then none
  else
    let ds := s.data.filter Char.isDigit
    if ds.length = 10 then some ("+1" ++ String.mk ds)
    else if ds.length = 11 then some ("+" ++ String.mk ds)
    else none

/-- `normalize_phone` applied to a possibly-missing value
(`normalize_phone(None)` is `None`). -/
def normalizePhoneOpt (o : Option String) : Option String :=
  match o with
  | none => none
  | some s => normalizePhone s

/-! ## Template renderer -/

/-- `MessageScheduler._fill_campaign_template`, with the wall clock passed
explicitly as a UTC timestamp. -/
def fillCampaignTemplate (template : String) (c : Contact) (nowUtc : Nat) : String :=
  let r1 := pyReplace template "{name}" (getOrEmpty (pyOrO c.contactName c.name))
  let r2 := pyReplace r1 "{company}" (getOrEmpty (pyOrO c.contactCompany c.company))
  let r3 := pyReplace r2 "{role}" (getOrEmpty c.role)
  let r4 := pyReplace r3 "{phone}" (getOrEmpty (pyOrO c.phoneNumber c.phone))
  let e := easternOf nowUtc
  let r5 := pyReplace r4 "{date}" (fmtDate e)
  let r6 := pyReplace r5 "{time}" (fmtTime12 e)
  String.mk (pyStripCh (collapseSpaces r6.data))

/-- `MessageScheduler._fill_template_variables` (the bulk-send renderer),
with the wall clock passed explicitly as a UTC timestamp. -/
def fillTemplateVariables (template : String) (c : Contact) (nowUtc : Nat) : String :=
  let r1 := pyReplace template "{name}" (getOrEmpty c.name)
  let r2 := pyReplace r1 "{company}" (getOrEmpty c.company)
  let r3 := pyReplace r2 "{role}" (getOrEmpty c.role)
  let r4 := pyReplace r3 "{phone}" (getOrEmpty (pyOrO c.phoneNormalized c.phone))
  let e := easternOf nowUtc
  let r5 := pyReplace r4 "{date}" (fmtDate e)
  let r6 := pyReplace r5 "{time}" (fmtTime12 e)
  String.mk (pyStripCh (collapseSpaces r6.data))

/-! ## Send-time parsing -/

/-- The `try` body of `MessageScheduler._parse_send_time`: split on `':'`
and parse the first two parts as Python ints. -/
def parseSendTimeOpt (s : String) : Option (Int × Int) :=
  match pySplit ':' s with
  | a :: b :: _ =>
    match pyToInt a, pyToInt b with
    | some h, some m => some (h, m)
    | _, _ => none
  | _ => none

/-- `MessageScheduler._parse_send_time`: any parse failure falls back to
11:00 AM. -/
def parseSendTime (s : String) : Int × Int :=
  (parseSendTimeOpt s).getD (11, 0)

/-- `MessageScheduler._is_send_time_due`: has the HH:MM Eastern send time
passed today?  `none` models the `ValueError` that
`now.replace(hour=hour, minute=minute)` raises when the parsed values are
out of range (the caller's `except` then rolls back, leaving state
unchanged). -/
def sendTimeDue (s : String) (nowUtc : Nat) : Option Bool :=
  let hm := parseSendTime s
  if 0 ≤ hm.1 && hm.1 < 24 && 0 ≤ hm.2 && hm.2 < 60 then
    some (decide (hm.1.toNat * 60 + hm.2.toNat ≤ todOf (easternOf nowUtc)))
  else none

/-! ## Data model (`database.py`) -/

/-- Result of `twilio_service.send_sms`. -/
structure SendResult where
  success : Bool
  sid : Option String := none
  error : Option String := none
  deriving DecidableEq, Repr

/-- The external Message Sender: phone and rendered body in, result out. -/
abbrev SendOracle := String → String → SendResult

/-- A `campaigns` row. -/
structure Campaign where
  id : Nat
  name : String := ""
  status : String := "draft"
  enrollmentType : String := "snapshot"
  filterCriteria : Option String := none
  defaultSendTime : Option String := some "11:00"
  startedAt : Option Nat := none
  pausedAt : Option Nat := none
  completedAt : Option Nat := none
  responseTrackingEndsAt : Option Nat := none
  deriving DecidableEq, Repr

/-- A `campaign_messages` row. -/
structure CampaignMessage where
  id : Nat
  campaignId : Nat
  sequenceOrder : Nat
  messageBody : String
  daysAfterPrevious : Nat := 0
  sendTime : Option String := none
  enableFollowup : Bool := false
  followupDays : Nat := 3
  followupBody : Option String := none
  hasAbTest : Bool := false
  deriving DecidableEq, Repr

/-- A `campaign_ab_tests` row. -/
structure CampaignABTest where
  id : Nat
  campaignId : Nat
  campaignMessageId : Nat
  variantBBody : String
  variantASent : Nat := 0
  variantBSent : Nat := 0
  variantAResponses : Nat := 0
  variantBResponses : Nat := 0
  deriving DecidableEq, Repr

/-- A `campaign_enrollments` row. -/
structure CampaignEnrollment where
  id : Nat
  campaignId : Nat
  phoneNumber : String
  contactName : Option String := none
  contactCompany : Option String := none
  abVariant : Option String := none
  currentStep : Nat := 0
  status : String := "active"
  lastMessageAt : Option Nat := none
  lastMessageId : Option Nat := none
  firstResponseAt : Option Nat := none
  firstResponseMessageId : Option Nat := none
  responseCount : Nat := 0
  optedOutAt : Option Nat := none
  optedOutKeyword : Option String := none
  deriving DecidableEq, Repr

/-- A `campaign_sends` row. -/
structure CampaignSend where
  id : Nat
  campaignId : Nat
  campaignMessageId : Nat
  enrollmentId : Nat
  phoneNumber : String
  messageType : String
  messageBody : String
  abVariant : Option String := none
  twilioSid : Option String := none
  status : String := "pending"
  errorMessage : Option String := none
  scheduledFor : Option Nat := none
  sentAt : Option Nat := none
  responseReceived : Bool := false
  responseAt : Option Nat := none
  createdAt : Nat
  deriving DecidableEq, Repr

/-- A `scheduled_bulk_messages` row (`recipient_phones` kept JSON-decoded). -/
structure ScheduledBulkMessage where
  id : Nat
  name : String
  body : String
  recipientPhones : List String
  scheduledAt : Nat
  status : String := "pending"
  totalRecipients : Nat := 0
  sentCount : Nat := 0
  failedCount : Nat := 0
  isRecurring : Bool := false
  recurrenceType : Option String := none
  recurrenceDays : Option String := none
  recurrenceEndDate : Option Nat := none
  lastSentAt : Option Nat := none
  sendCount : Nat := 0
  deriving DecidableEq, Repr

/-- The relational store: one list per table, plus id counters. -/
structure DB where
  campaigns : List Campaign := []
  messages : List CampaignMessage := []
  abTests : List CampaignABTest := []
  enrollments : List CampaignEnrollment := []
  sends : List CampaignSend := []
  bulkMessages : List ScheduledBulkMessage := []
  nextEnrollmentId : Nat := 1
  nextSendId : Nat := 1
  nextBulkId : Nat := 1
  deriving DecidableEq, Repr

/-! ## Recurrence calculator (`MessageScheduler._calculate_next_occurrence`) -/

/-- `DAY_MAP` lookup on an already stripped and lower-cased token. -/
def dayToNum (s : String) : Option Nat :=
  if s = "mon" then some 0
  else if s = "tue" then some 1
  else if s = "wed" then some 2
  else if s = "thu" then some 3
  else if s = "fri" then some 4
  else if s = "sat" then some 5
  else if s = "sun" then some 6
  else none

/-- Parsing of the weekly `recurrence_days` string, e.g. `"mon,wed,fri"`:
split on commas, strip and lower-case, keep the tokens in `DAY_MAP`. -/
def parseRecurrenceDays (daysStr : String) : List Nat :=
  ((pySplit ',' daysStr).map (fun d => pyLower (pyStrip d))).filterMap dayToNum

/-- Index of the first day whose occurrence candidate
(`d * 1440 + todOf base`) is both strictly after `now` and at or after the
rule's `dtstart`. -/
def firstCandidateDay (base now : Nat) : Nat :=
  (max base (now + 1) - todOf base + (minutesPerDay - 1)) / minutesPerDay

/-- `rrule(DAILY, dtstart=base).after(now)`. -/
def dailyAfter (base now : Nat) : Option Nat :=
  some (firstCandidateDay base now * minutesPerDay + todOf base)

/-- `rrule(WEEKLY, byweekday=days, dtstart=base).after(now)`: first
occurrence strictly after `now`, at the anchor's time of day, on an allowed
weekday, no earlier than the anchor.  Eight candidate days cover every
weekday, so the search never exhausts its fuel for a non-empty day set. -/
def weeklyAfter (base now : Nat) (days : List Nat) : Option Nat :=
  (findFirst (fun d => days.contains (weekdayOf d)) (firstCandidateDay base now) 8).map
    (fun d => d * minutesPerDay + todOf base)

/-- `rrule(MONTHLY, bymonthday=base_time.day, dtstart=base).after(now)`:
first later day with the anchor's day-of-month (1000 days of fuel; any
day-of-month up to 31 recurs within 92 days). -/
def monthlyAfter (base now : Nat) : Option Nat :=
  (findFirst (fun d => dayOfMonthOf d == dayOfMonthOf (dayOf base))
      (firstCandidateDay base now) 1000).map
    (fun d => d * minutesPerDay + todOf base)

/-- The weekly day set actually used: the parsed `recurrence_days`, or the
anchor's own weekday when no valid day was given. -/
def effectiveWeeklyDays (msg : ScheduledBulkMessage) : List Nat :=
  let days0 := parseRecurrenceDays (pyOrS msg.recurrenceDays "")
  if days0.isEmpty then [weekdayOf (dayOf msg.scheduledAt)] else days0

/-- `MessageScheduler._calculate_next_occurrence`. -/
def calculateNextOccurrence (msg : ScheduledBulkMessage) (now : Nat) : Option Nat :=
  if !msg.isRecurring || !optTruthy msg.recurrenceType then none
  else
    let endPassed : Bool :=
      match msg.recurrenceEndDate with
      | some e => decide (e ≤ now)
      | none => false
    if endPassed then none
    else
      let base := msg.scheduledAt
      let rt := msg.recurrenceType.getD ""
      let raw :=
        if rt = "daily" then dailyAfter base now
        else if rt = "weekly" then weeklyAfter base now (effectiveWeeklyDays msg)
        else if rt = "monthly" then monthlyAfter base now
        else none
      match raw with
      | none => none
      | some t =>
        match msg.recurrenceEndDate with
        | some e => if e < t then none else some t
        | none => some t

/-! ## Row lookup and update helpers -/

/-- `session.query(Campaign).filter(Campaign.id == cid).first()`. -/
def findCampaign (db : DB) (cid : Nat) : Option Campaign :=
  db.campaigns.find? (fun c => c.id == cid)

/-- Lookup of an enrollment row by primary key. -/
def findEnrollment (db : DB) (eid : Nat) : Option CampaignEnrollment :=
  db.enrollments.find? (fun e => e.id == eid)

/-- Mutate the campaign row with the given id. -/
def updateCampaign (db : DB) (cid : Nat) (f : Campaign → Campaign) : DB :=
  { db with campaigns := db.campaigns.map (fun c => if c.id == cid then f c else c) }

/-- Mutate the enrollment row with the given id. -/
def updateEnrollment (db : DB) (eid : Nat) (f : CampaignEnrollment → CampaignEnrollment) : DB :=
  { db with enrollments := db.enrollments.map (fun e => if e.id == eid then f e else e) }

/-- Mutate the send row with the given id. -/
def updateSend (db : DB) (sid : Nat) (f : CampaignSend → CampaignSend) : DB :=
  { db with sends := db.sends.map (fun s => if s.id == sid then f s else s) }

/-- Mutate the A/B-test row of a campaign message (the
`campaign_message_id` column is unique). -/
def updateABTestByMessage (db : DB) (mid : Nat) (f : CampaignABTest → CampaignABTest) : DB :=
  { db with abTests := db.abTests.map (fun t => if t.campaignMessageId == mid then f t else t) }

/-- All send rows of one enrollment, in creation order. -/
def sendsFor (db : DB) (eid : Nat) : List CampaignSend :=
  db.sends.filter (fun s => s.enrollmentId == eid)

/-- Insert a message into a list sorted by `sequence_order`. -/
def insertBySeq (m : CampaignMessage) : List CampaignMessage → List CampaignMessage
  | [] => [m]
  | x :: xs =>
    if m.sequenceOrder ≤ x.sequenceOrder then m :: x :: xs else x :: insertBySeq m xs

/-- `ORDER BY sequence_order` (insertion sort). -/
def sortBySeq (l : List CampaignMessage) : List CampaignMessage :=
  l.foldr insertBySeq []

/-- The campaign's message sequence,
`query(CampaignMessage).filter(campaign_id == cid).order_by(sequence_order)`. -/
def campaignMessagesSorted (db : DB) (cid : Nat) : List CampaignMessage :=
  sortBySeq (db.messages.filter (fun m => m.campaignId == cid))

/-! ## Campaign lifecycle (`campaign_service.py`) -/

/-- `CampaignService.delete_campaign`: only drafts may be deleted; deletion
cascades over sends, enrollments, A/B tests and messages. -/
def deleteCampaign (db : DB) (cid : Nat) : Except String (DB × Bool) :=
  match findCampaign db cid with
  | none => .ok (db, false)
  | some c =>
    if c.status ≠ "draft" then .error "Can only delete campaigns in draft status"
    else
      .ok ({ db with
        campaigns := db.campaigns.filter (fun x => x.id != cid),
        messages := db.messages.filter (fun x => x.campaignId != cid),
        abTests := db.abTests.filter (fun x => x.campaignId != cid),
        enrollments := db.enrollments.filter (fun x => x.campaignId != cid),
        sends := db.sends.filter (fun x => x.campaignId != cid) }, true)

/-- `CampaignService.start_campaign`. -/
def startCampaign (db : DB) (cid : Nat) (now : Nat) : Except String DB :=
  match findCampaign db cid with
  | none => .error "Campaign not found"
  | some c =>
    if c.status ≠ "draft" ∧ c.status ≠ "paused" then
      .error ("Cannot start campaign in " ++ c.status ++ " status")
    else if (db.messages.filter (fun m => m.campaignId == cid)).isEmpty then
      .error "Campaign has no messages"
    else if (db.enrollments.filter (fun e => e.campaignId == cid)).isEmpty then
      .error "Campaign has no enrolled contacts"
    else
      .ok (updateCampaign db cid (fun x =>
        { x with status := "active", startedAt := some now, pausedAt := none }))

/-- `CampaignService.pause_campaign`. -/
def pauseCampaign (db : DB) (cid : Nat) (now : Nat) : Except String DB :=
  match findCampaign db cid with
  | none => .error "Campaign not found"
  | some c =>
    if c.status ≠ "active" then .error "Can only pause active campaigns"
    else
      .ok (updateCampaign db cid (fun x =>
        { x with status := "paused", pausedAt := some now }))

/-- `CampaignService.resume_campaign`. -/
def resumeCampaign (db : DB) (cid : Nat) : Except String DB :=
  match findCampaign db cid with
  | none => .error "Campaign not found"
  | some c =>
    if c.status ≠ "paused" then .error "Can only resume paused campaigns"
    else
      .ok (updateCampaign db cid (fun x => { x with status := "active", pausedAt := none }))

/-- `CampaignService.complete_campaign`: note the source has no status
guard; it also opens the 30-day response-tracking window and marks every
`active` enrollment `completed`. -/
def completeCampaign (db : DB) (cid : Nat) (now : Nat) : Except String DB :=
  match findCampaign db cid with
  | none => .error "Campaign not found"
  | some _ =>
    let db' := updateCampaign db cid (fun x =>
      { x with status := "completed", completedAt := some now,
               responseTrackingEndsAt := some (now + 30 * minutesPerDay) })
    .ok { db' with
      enrollments := db'.enrollments.map (fun e =>
        if e.campaignId == cid && e.status == "active" then
          { e with status := "completed" }
        else e) }

/-! ## Enrollment (`CampaignService.enroll_contacts`) -/

/-- Phone key of a contact record:
`contact.get('phone') or contact.get('phone_number') or
contact.get('phone_normalized')`, then `normalize_phone`. -/
def enrollPhoneOf (c : Contact) : Option String :=
  normalizePhoneOpt (pyOrO (pyOrO c.phone c.phoneNumber) c.phoneNormalized)

/-- One iteration of `enroll_contacts`'s loop.  The accumulator carries
the store, `enrolled_count` and the `enrolled_phones` batch set; `choose`
models `random.choice(['A', 'B'])`, indexed by the running count. -/
def enrollStep (cid : Nat) (hasAb : Bool) (excludePhones : List String)
    (choose : Nat → String) (acc : DB × Nat × List String) (c : Contact) :
    DB × Nat × List String :=
  match enrollPhoneOf c with
  | none => acc
  | some p =>
    if excludePhones.contains p || acc.2.2.contains p then acc
    else if acc.1.enrollments.any (fun e => e.campaignId == cid && e.phoneNumber == p) then acc
    else
      ({ acc.1 with
          enrollments := acc.1.enrollments ++
            [{ id := acc.1.nextEnrollmentId, campaignId := cid, phoneNumber := p,
               contactName := c.name, contactCompany := c.company,
               abVariant := if hasAb then some (choose acc.2.1) else none,
               currentStep := 0, status := "active" }],
          nextEnrollmentId := acc.1.nextEnrollmentId + 1 },
       acc.2.1 + 1, p :: acc.2.2)

/-- `CampaignService.enroll_contacts`.  `allContacts` is the concatenation
the source builds from the filter/list contacts plus `manual_contacts`. -/
def enrollContacts (db : DB) (cid : Nat) (allContacts : List Contact)
    (excludePhones : List String) (choose : Nat → String) :
    Except String (DB × Nat) :=
  match findCampaign db cid with
  | none => .error "Campaign not found"
  | some _ =>
    if allContacts.isEmpty then .ok (db, 0)
    else
      let hasAb := db.messages.any (fun m => m.campaignId == cid && m.hasAbTest)
      let res := allContacts.foldl (enrollStep cid hasAb excludePhones choose) (db, 0, [])
      .ok (res.1, res.2.1)

/-! ## Response and opt-out handling (`CampaignService.record_response`) -/

/-- `OPT_OUT_KEYWORDS` from `campaign_service.py`. -/
def OPT_OUT_KEYWORDS : List String := ["stop", "unsubscribe", "cancel", "quit", "end"]

/-- Case-insensitive substring scan:
`any(keyword in message_body.lower() for keyword in OPT_OUT_KEYWORDS)`. -/
def isOptOutBody (body : String) : Bool :=
  OPT_OUT_KEYWORDS.any (fun k => decide (k.data <:+: (pyLower body).data))

/-- The join condition of `record_response`: the enrollment's campaign is
active/paused, or completed but still inside its response-tracking window. -/
def campaignEligibleForResponse (db : DB) (e : CampaignEnrollment) (now : Nat) : Bool :=
  db.campaigns.any (fun c => c.id == e.campaignId &&
    (c.status == "active" || c.status == "paused" ||
      (c.status == "completed" &&
        match c.responseTrackingEndsAt with
        | some r => decide (now < r)
        | none => false)))

/-- `ORDER BY sent_at DESC` comparison, `NULL`s first (PostgreSQL default). -/
def laterBySentAt (a b : CampaignSend) : Bool :=
  match a.sentAt, b.sentAt with
  | none, some _ => true
  | none, none => false
  | some _, none => false
  | some x, some y => decide (y < x)

/-- First row of an `ORDER BY sent_at DESC` query over the given rows. -/
def pickLatestUnanswered (sends : List CampaignSend) : Option CampaignSend :=
  sends.foldl (fun best s =>
    match best with
    | none => some s
    | some b => if laterBySentAt s b then some s else some b) none

/-- The per-enrollment body of `record_response`'s loop. -/
def recordResponseStep (now : Nat) (isOpt : Bool) (body : String)
    (db : DB) (e : CampaignEnrollment) : DB :=
  let db' :=
    if isOpt then
      updateEnrollment db e.id (fun x =>
        { x with status := "opted_out", optedOutAt := some now,
                 optedOutKeyword := some (String.mk (body.data.take 50)) })
    else
      updateEnrollment db e.id (fun x =>
        let x' :=
          if x.firstResponseAt.isNone then
            { x with firstResponseAt := some now,
                     firstResponseMessageId := x.lastMessageId }
          else x
        { x' with status := "engaged", responseCount := x'.responseCount + 1 })
  match e.lastMessageId with
  | none => db'
  | some lmid =>
    match pickLatestUnanswered (db'.sends.filter (fun s =>
        s.enrollmentId == e.id && s.campaignMessageId == lmid && !s.responseReceived)) with
    | none => db'
    | some s => updateSend db' s.id (fun x =>
        { x with responseReceived := true, responseAt := some now })

/-- `CampaignService.record_response` (return value dropped; the model
keeps only the state effect). -/
def recordResponse (db : DB) (rawPhone body : String) (now : Nat) : DB :=
  let phoneOpt := normalizePhone rawPhone
  let isOpt := isOptOutBody body
  let targets := db.enrollments.filter (fun e =>
    (match phoneOpt with | some p => e.phoneNumber == p | none => false) &&
    (e.status == "active" || e.status == "engaged") &&
    campaignEligibleForResponse db e now)
  targets.foldl (recordResponseStep now isOpt body) db

/-! ## Bulk scheduling (`MessageScheduler.schedule_bulk_message`) -/

/-- `MAX_RECIPIENTS_PER_SCHEDULE` from `scheduler.py`. -/
def MAX_RECIPIENTS_PER_SCHEDULE : Nat := 50

/-- Validation of a weekly `recurrence_days` string: every comma-separated
token, stripped and lower-cased, must be a known day name. -/
def validRecurrenceDaysStr (daysStr : String) : Bool :=
  ((pySplit ',' daysStr).map (fun d => pyLower (pyStrip d))).all (fun d => (dayToNum d).isSome)

/-- `MessageScheduler.schedule_bulk_message`: `raise ValueError` is the
`.error` case, in the source's validation order; on success the new row is
persisted with the exact recipient list. -/
def scheduleBulkMessage (db : DB) (name body : String) (scheduledAt : Nat)
    (phones : List String) (isRecurring : Bool) (recurrenceType : Option String)
    (recurrenceDays : Option String) (recurrenceEndDate : Option Nat) :
    Except String (DB × ScheduledBulkMessage) :=
  if phones.isEmpty then
    .error "SAFETY: phone_numbers is REQUIRED - cannot schedule without explicit recipients"
  else if MAX_RECIPIENTS_PER_SCHEDULE < phones.length then
    .error "SAFETY: Too many recipients"
  else if phones.any (fun p => p.length < 10) then
    .error "SAFETY: Invalid phone number"
  else if isRecurring &&
      !(recurrenceType == some "daily" || recurrenceType == some "weekly" ||
        recurrenceType == some "monthly") then
    .error "Invalid recurrence_type"
  else if isRecurring && recurrenceType == some "weekly" && optTruthy recurrenceDays &&
      !validRecurrenceDaysStr (recurrenceDays.getD "") then
    .error "Invalid days"
  else
    let m : ScheduledBulkMessage := {
      id := db.nextBulkId, name := name, body := body,
      recipientPhones := phones, scheduledAt := scheduledAt,
      totalRecipients := phones.length, status := "pending",
      isRecurring := isRecurring,
      recurrenceType := if isRecurring then recurrenceType else none,
      recurrenceDays :=
        if isRecurring && recurrenceType == some "weekly" then recurrenceDays else none,
      recurrenceEndDate := if isRecurring then recurrenceEndDate else none }
    .ok ({ db with bulkMessages := db.bulkMessages ++ [m], nextBulkId := db.nextBulkId + 1 }, m)

/-! ## Campaign tick (`MessageScheduler._process_campaign`) -/

/-- `MessageScheduler._should_send_message` (its `campaign_started`
parameter is unused in the source and dropped here). -/
def shouldSendMessage (e : CampaignEnrollment) (m : CampaignMessage) (now : Nat) : Bool :=
  if m.sequenceOrder == 1 then e.currentStep == 0
  else
    match e.lastMessageAt with
    | none => false
    | some lm => decide (m.daysAfterPrevious ≤ (now - lm) / minutesPerDay)

/-- `MessageScheduler._send_campaign_message`: same-UTC-day idempotence
check, A/B body selection, template fill, provider call, audit row, and
progress update on success. -/
def sendCampaignMessage (db : DB) (camp : Campaign) (m : CampaignMessage)
    (e : CampaignEnrollment) (now : Nat) (sms : SendOracle) : DB :=
  let todayStart := dayStartUtc now
  if db.sends.any (fun s => s.enrollmentId == e.id && s.campaignMessageId == m.id &&
      s.messageType == "scheduled" && decide (todayStart ≤ s.createdAt)) then db
  else
    let abActive := m.hasAbTest && optTruthy e.abVariant
    let abTest := db.abTests.find? (fun t => t.campaignMessageId == m.id)
    let body0 :=
      if abActive then
        match abTest with
        | some t => if e.abVariant == some "B" then t.variantBBody else m.messageBody
        | none => m.messageBody
      else m.messageBody
    let abv := if abActive then e.abVariant else none
    let contact : Contact := { contactName := e.contactName,
                               contactCompany := e.contactCompany,
                               phoneNumber := some e.phoneNumber }
    let body := fillCampaignTemplate body0 contact now
    let res := sms e.phoneNumber body
    let send : CampaignSend := {
      id := db.nextSendId, campaignId := camp.id, campaignMessageId := m.id,
      enrollmentId := e.id, phoneNumber := e.phoneNumber,
      messageType := "scheduled", messageBody := body, abVariant := abv,
      twilioSid := if res.success then res.sid else none,
      status := if res.success then "sent" else "failed",
      errorMessage := if res.success then none else some (res.error.getD "Unknown error"),
      scheduledFor := some now,
      sentAt := if res.success then some now else none,
      responseReceived := false, responseAt := none, createdAt := now }
    let db1 := { db with sends := db.sends ++ [send], nextSendId := db.nextSendId + 1 }
    if res.success then
      let db2 := updateEnrollment db1 e.id (fun x =>
        { x with currentStep := m.sequenceOrder, lastMessageAt := some now,
                 lastMessageId := some m.id })
      if optTruthy abv && m.hasAbTest then
        updateABTestByMessage db2 m.id (fun t =>
          if abv == some "A" then { t with variantASent := t.variantASent + 1 }
          else { t with variantBSent := t.variantBSent + 1 })
      else db2
    else db1

/-- One iteration of `_process_campaign`'s enrollment loop; the `Bool`
component is the running `all_complete` flag. -/
def processCampaignStep (camp : Campaign) (msgs : List CampaignMessage) (now : Nat)
    (sms : SendOracle) (acc : DB × Bool) (e : CampaignEnrollment) : DB × Bool :=
  let nextStep := e.currentStep + 1
  if msgs.length < nextStep then
    (updateEnrollment acc.1 e.id (fun x => { x with status := "completed" }), acc.2)
  else
    match msgs.get? (nextStep - 1) with
    | none => (acc.1, false)
    | some m =>
      if shouldSendMessage e m now then (sendCampaignMessage acc.1 camp m e now sms, false)
      else (acc.1, false)

/-- The in-tick campaign completion (no enrollment sweep, unlike the admin
`complete_campaign`). -/
def completeCampaignInTick (db : DB) (cid : Nat) (now : Nat) : DB :=
  updateCampaign db cid (fun c =>
    { c with status := "completed", completedAt := some now,
             responseTrackingEndsAt := some (now + 30 * minutesPerDay) })

/-- The part of `_process_campaign` past the status/messages/send-time
guards. -/
def processCampaignCore (db : DB) (camp : Campaign) (msgs : List CampaignMessage)
    (now : Nat) (sms : SendOracle) : DB :=
  let enrolls := db.enrollments.filter (fun e =>
    e.campaignId == camp.id && (e.status == "active" || e.status == "engaged"))
  if enrolls.isEmpty then completeCampaignInTick db camp.id now
  else
    let r := enrolls.foldl (processCampaignStep camp msgs now sms) (db, true)
    if r.2 then completeCampaignInTick r.1 camp.id now else r.1

/-- `MessageScheduler._process_campaign`: one tick's pass over one
campaign.  A `sendTimeDue` of `none` is the out-of-range `replace()`
exception — caught by the source's `except`, which rolls back before any
write, leaving the state unchanged. -/
def processCampaign (db : DB) (cid : Nat) (now : Nat) (sms : SendOracle) : DB :=
  match findCampaign db cid with
  | none => db
  | some camp =>
    if camp.status ≠ "active" then db
    else
      let msgs := campaignMessagesSorted db cid
      if msgs.isEmpty then db
      else
        match sendTimeDue (pyOrS camp.defaultSendTime "11:00") now with
        | some true => processCampaignCore db camp msgs now sms
        | _ => db

/-! ## Follow-up tick (`MessageScheduler._process_followups`) -/

/-- `MessageScheduler._send_followup`. -/
def sendFollowup (db : DB) (camp : Campaign) (m : CampaignMessage)
    (e : CampaignEnrollment) (now : Nat) (sms : SendOracle) : DB :=
  let body0 := pyOrS m.followupBody
    "Just following up on my last message. Let me know if you have any questions!"
  let contact : Contact := { contactName := e.contactName,
                             contactCompany := e.contactCompany,
                             phoneNumber := some e.phoneNumber }
  let body := fillCampaignTemplate body0 contact now
  let res := sms e.phoneNumber body
  let send : CampaignSend := {
    id := db.nextSendId, campaignId := camp.id, campaignMessageId := m.id,
    enrollmentId := e.id, phoneNumber := e.phoneNumber,
    messageType := "followup", messageBody := body, abVariant := e.abVariant,
    twilioSid := if res.success then res.sid else none,
    status := if res.success then "sent" else "failed",
    errorMessage := if res.success then none else some (res.error.getD "Unknown error"),
    scheduledFor := some now,
    sentAt := if res.success then some now else none,
    responseReceived := false, responseAt := none, createdAt := now }
  { db with sends := db.sends ++ [send], nextSendId := db.nextSendId + 1 }

/-- The per-enrollment body of `_process_followups`'s loop: follow-up due
by whole-day count, not already sent, and the original scheduled send
unanswered. -/
def processFollowupStep (camp : Campaign) (now : Nat) (sms : SendOracle)
    (db : DB) (e : CampaignEnrollment) : DB :=
  match e.lastMessageId with
  | none => db
  | some lmid =>
    match db.messages.find? (fun m => m.id == lmid) with
    | none => db
    | some m =>
      if !m.enableFollowup then db
      else
        let daysSince :=
          match e.lastMessageAt with
          | some lm => (now - lm) / minutesPerDay
          | none => 0
        if daysSince < m.followupDays then db
        else if db.sends.any (fun s => s.enrollmentId == e.id &&
            s.campaignMessageId == m.id && s.messageType == "followup") then db
        else
          match db.sends.find? (fun s => s.enrollmentId == e.id &&
              s.campaignMessageId == m.id && s.messageType == "scheduled") with
          | some os => if os.responseReceived then db else sendFollowup db camp m e now sms
          | none => sendFollowup db camp m e now sms

/-- The part of `_process_followups` past the status/send-time guards. -/
def processFollowupsCore (db : DB) (camp : Campaign) (now : Nat) (sms : SendOracle) : DB :=
  let enrolls := db.enrollments.filter (fun e =>
    e.campaignId == camp.id && e.status == "active" && e.lastMessageId.isSome)
  enrolls.foldl (processFollowupStep camp now sms) db

/-- `MessageScheduler._process_followups`: one tick's follow-up pass over
one campaign. -/
def processFollowups (db : DB) (cid : Nat) (now : Nat) (sms : SendOracle) : DB :=
  match findCampaign db cid with
  | none => db
  | some camp =>
    if camp.status ≠ "active" then db
    else
      match sendTimeDue (pyOrS camp.defaultSendTime "11:00") now with
      | some true => processFollowupsCore db camp now sms
      | _ => db

/-! ## Operation sequences -/

/-- The automated operations the temporal claims quantify over: one
campaign-processing pass, one follow-up pass, or one inbound message. -/
inductive Op where
  | tick (cid : Nat) (now : Nat) (sms : SendOracle)
  | followupTick (cid : Nat) (now : Nat) (sms : SendOracle)
  | inbound (phone body : String) (now : Nat)

/-- Interpretation of one operation. -/
def applyOp (db : DB) : Op → DB
  | .tick cid now sms => processCampaign db cid now sms
  | .followupTick cid now sms => processFollowups db cid now sms
  | .inbound phone body now => recordResponse db phone body now

/-- Interpretation of a sequence of operations. -/
def runOps (db : DB) (ops : List Op) : DB := ops.foldl applyOp db

/-! ## Derived observations used by the theorems -/

/-- Number of `scheduled`-type send rows for an (enrollment, message) pair
in a list of send rows. -/
def countScheduledIn (l : List CampaignSend) (eid mid : Nat) : Nat :=
  (l.filter (fun s => s.enrollmentId == eid && s.campaignMessageId == mid &&
    s.messageType == "scheduled")).length

/-- Number of `scheduled`-type send rows for a pair in the store. -/
def countScheduled (db : DB) (eid mid : Nat) : Nat :=
  countScheduledIn db.sends eid mid

/-- Number of `followup`-type send rows for a pair in a list of send rows. -/
def countFollowupIn (l : List CampaignSend) (eid mid : Nat) : Nat :=
  (l.filter (fun s => s.enrollmentId == eid && s.campaignMessageId == mid &&
    s.messageType == "followup")).length

/-- Number of `followup`-type send rows for a pair in the store. -/
def countFollowup (db : DB) (eid mid : Nat) : Nat :=
  countFollowupIn db.sends eid mid

/-- The first `scheduled`-type send row for a pair in creation order — the
row `_process_followups` consults as "the original send"
(`.first()` on an unordered query returns the oldest row here). -/
def firstScheduledIn (l : List CampaignSend) (eid mid : Nat) : Option CampaignSend :=
  l.find? (fun s => s.enrollmentId == eid && s.campaignMessageId == mid &&
    s.messageType == "scheduled")

/-- Count of enrollment rows of one campaign holding one phone number. -/
def countEnrolled (db : DB) (cid : Nat) (p : String) : Nat :=
  (db.enrollments.filter (fun e => e.campaignId == cid && e.phoneNumber == p)).length

/-- The pair's first `scheduled` send exists and carries a recorded
response. -/
def RespondedFirst (l : List CampaignSend) (eid mid : Nat) : Prop :=
  ∃ os, firstScheduledIn l eid mid = some os ∧ os.responseReceived = true

/-- Shape of `record_response`'s effect on the send table: a per-row
rewrite that keeps the row's enrollment, message and type keys and never
clears `response_received`. -/
def SendRowBenign (g : CampaignSend → CampaignSend) : Prop :=
  ∀ s : CampaignSend, (g s).enrollmentId = s.enrollmentId ∧
    (g s).campaignMessageId = s.campaignMessageId ∧
    (g s).messageType = s.messageType ∧
    (g s).status = s.status ∧
    ((g s).responseReceived = s.responseReceived ∨ (g s).responseReceived = true)

/-- Relation between enrollment tables: a per-row rewrite that keeps every
row's id and leaves any row bearing the protected id unchanged — the shape
of every enrollment-table write the automated operations make while the
protected enrollment is excluded from their selections. -/
def EnrollAway (eid : Nat) (l l' : List CampaignEnrollment) : Prop :=
  ∃ g, (∀ x, (g x).id = x.id) ∧ (∀ x, x.id = eid → g x = x) ∧ l' = l.map g

/-! ## Specification-side property definitions -/

/-- No two adjacent space characters (the post-condition of the renderer's
`re.sub(r' +', ' ', ...)`). -/
def noDoubleSpace : List Char → Bool
  | [] => true
  | [_] => true
  | a :: b :: rest => !(a = ' ' && b = ' ') && noDoubleSpace (b :: rest)

/-- Membership in the weekly recurrence set of `rrule(WEEKLY,
byweekday=days, dtstart=base)`: anchor's time of day, allowed weekday, not
before the anchor. -/
def weeklyOccurs (base : Nat) (days : List Nat) (t : Nat) : Prop :=
  todOf t = todOf base ∧ days.contains (weekdayOf (dayOf t)) = true ∧ base ≤ t

/-- Position (1-based) of the message with the given id in a campaign's
sequence. -/
def stepOfAux (mid : Nat) : List CampaignMessage → Nat → Option Nat
  | [], _ => none
  | m :: rest, k => if m.id == mid then some k else stepOfAux mid rest (k + 1)

/-- Sequence step denoted by a `campaign_message_id`, relative to the
campaign's ordered message list. -/
def stepOf (msgs : List CampaignMessage) (mid : Nat) : Option Nat :=
  stepOfAux mid msgs 1

/-- Well-formedness of a campaign's ordered message list: distinct ids and
contiguous 1-based `sequence_order` (the invariant `add_message` /
`delete_message` maintain). -/
def msgsWellFormed (msgs : List CampaignMessage) : Prop :=
  (msgs.map (fun m => m.id)).Nodup ∧
  ∀ i : Nat, ∀ h : i < msgs.length, (msgs.get ⟨i, h⟩).sequenceOrder = i + 1

/-- Distinctness of enrollment primary keys. -/
def enrollmentIdsNodup (db : DB) : Prop :=
  (db.enrollments.map (fun e => e.id)).Nodup

/-- A successfully sent `scheduled` row of the enrollment at the given
sequence step. -/
def SentStepIn (msgs : List CampaignMessage) (l : List CampaignSend)
    (eid k : Nat) : Prop :=
  ∃ s ∈ l, s.enrollmentId = eid ∧ s.messageType = "scheduled" ∧
    s.status = "sent" ∧ stepOf msgs s.campaignMessageId = some k

/-- Consistency of an enrollment's `current_step` with the send table: it
never exceeds the sequence length, and when positive, the step it denotes
has a successfully sent `scheduled` row. -/
def CurOk (msgs : List CampaignMessage) (l : List CampaignSend)
    (eid cur : Nat) : Prop :=
  cur ≤ msgs.length ∧ (1 ≤ cur → SentStepIn msgs l eid cur)

/-- Creation-order sequentiality of the enrollment's `scheduled` sends:
any row at step `k ≥ 2` is strictly preceded, in table order, by a `sent`
row at step `k - 1`. -/
def StepOrd (msgs : List CampaignMessage) (l : List CampaignSend) (eid : Nat) : Prop :=
  ∀ (i : Nat) (hi : i < l.length) (k : Nat),
    l[i].enrollmentId = eid → l[i].messageType = "scheduled" →
    stepOf msgs l[i].campaignMessageId = some k → 2 ≤ k →
    ∃ (j : Nat) (hj : j < l.length), j < i ∧
      l[j].enrollmentId = eid ∧ l[j].messageType = "scheduled" ∧
      l[j].status = "sent" ∧ stepOf msgs l[j].campaignMessageId = some (k - 1)

/-! ## Concrete example data -/

/-- A provider stub whose sends always fail. -/
def smsAlwaysFail : SendOracle := fun _ _ => { success := false, error := some "unavailable" }

/-- A provider stub whose sends always succeed. -/
def smsAlwaysOk : SendOracle := fun _ _ => { success := true, sid := some "SM1" }

/-- One active campaign with a one-message sequence and one active
enrollment. -/
def dbOneCampaign : DB := {
  campaigns := [{ id := 1, name := "camp", status := "active", defaultSendTime := none }],
  messages := [{ id := 1, campaignId := 1, sequenceOrder := 1, messageBody := "Hi {name}" }],
  enrollments := [{ id := 1, campaignId := 1, phoneNumber := "+15551234567",
                    contactName := some "Ann", currentStep := 0, status := "active" }] }

/-- `dbOneCampaign` after its one message went out (send row 1) and the
contact answered: the pair's first `scheduled` send carries
`response_received`. -/
def dbRespondedSend : DB := { dbOneCampaign with
  enrollments := [{ id := 1, campaignId := 1, phoneNumber := "+15551234567",
                    contactName := some "Ann", currentStep := 1, status := "engaged",
                    lastMessageAt := some 0, lastMessageId := some 1,
                    responseCount := 1 }],
  sends := [{ id := 1, campaignId := 1, campaignMessageId := 1, enrollmentId := 1,
              phoneNumber := "+15551234567", messageType := "scheduled",
              messageBody := "Hi Ann", status := "sent", sentAt := some 0,
              responseReceived := true, responseAt := some 30, createdAt := 0 }],
  nextSendId := 2 }

/-- 23:50 UTC on day 10 (18:50 Eastern on Eastern day 10). -/
def tEveningUtc : Nat := 10 * minutesPerDay + 1430

/-- 00:10 UTC on day 11 (19:10 Eastern, still Eastern day 10). -/
def tAfterUtcMidnight : Nat := 11 * minutesPerDay + 10

/-- A draft campaign, for exercising the lifecycle operations. -/
def dbDraftCampaign : DB := {
  campaigns := [{ id := 1, name := "draft camp", status := "draft" }],
  messages := [{ id := 1, campaignId := 1, sequenceOrder := 1, messageBody := "B1" }],
  enrollments := [{ id := 1, campaignId := 1, phoneNumber := "+15551234567" }] }

/-- A weekly Monday/Wednesday schedule anchored Monday day 7 at 11:00 with
an end date two weeks out (Monday day 21, 11:00). -/
def weeklyMonWed : ScheduledBulkMessage := {
  id := 1, name := "wk", body := "b", recipientPhones := ["+15551234567"],
  scheduledAt := 7 * minutesPerDay + 660, isRecurring := true,
  recurrenceType := some "weekly", recurrenceDays := some "mon,wed",
  recurrenceEndDate := some (21 * minutesPerDay + 660) }

/-! ## Template shape (specification side)

A template parsed into brace-free literal segments and placeholder
tokens; `substPieces` is what "substitute every occurrence of each
placeholder by its mapped value, everything else verbatim" denotes. -/

/-- One piece of a parsed template. -/
inductive TemplatePiece where
  | lit (s : List Char)
  | ph (p : List Char)
  deriving DecidableEq, Repr

/-- The template text a piece list denotes. -/
def flattenPieces : List TemplatePiece → List Char
  | [] => []
  | TemplatePiece.lit s :: rest => s ++ flattenPieces rest
  | TemplatePiece.ph p :: rest => p ++ flattenPieces rest

/-- Substitute every placeholder token by its value, literals verbatim. -/
def substPieces (v : List Char → List Char) : List TemplatePiece → List Char
  | [] => []
  | TemplatePiece.lit s :: rest => s ++ substPieces v rest
  | TemplatePiece.ph p :: rest => v p ++ substPieces v rest

/-- Substitute the one placeholder `p` by the literal `r`. -/
def substOnePiece (p r : List Char) : List TemplatePiece → List TemplatePiece
  | [] => []
  | TemplatePiece.lit s :: rest => TemplatePiece.lit s :: substOnePiece p r rest
  | TemplatePiece.ph q :: rest =>
    (if q = p then TemplatePiece.lit r else TemplatePiece.ph q) :: substOnePiece p r rest

/-- The six placeholder tokens of both renderers. -/
def placeholders : List (List Char) :=
  ["{name}".data, "{company}".data, "{role}".data, "{phone}".data,
   "{date}".data, "{time}".data]

/-- Well-formedness of one piece: literal segments are brace-free (every
`{` of the template opens a placeholder) and tokens are among the six. -/
def pieceWF : TemplatePiece → Prop
  | TemplatePiece.lit s => '{' ∉ s
  | TemplatePiece.ph p => p ∈ placeholders

instance : DecidablePred pieceWF := fun piece =>
  match piece with
  | TemplatePiece.lit s => inferInstanceAs (Decidable ('{' ∉ s))
  | TemplatePiece.ph p => inferInstanceAs (Decidable (p ∈ placeholders))

/-- A well-formed parse of a template into pieces. -/
def PiecesWF (pieces : List TemplatePiece) : Prop := ∀ piece ∈ pieces, pieceWF piece

instance (pieces : List TemplatePiece) : Decidable (PiecesWF pieces) :=
  inferInstanceAs (Decidable (∀ piece ∈ pieces, pieceWF piece))

/-- The value `_fill_campaign_template` substitutes for each
placeholder: `contact_name or name`, `contact_company or company`,
`role`, `phone_number or phone` (each `or ''`), and the Eastern
wall-clock date and 12-hour time. -/
def campaignValue (c : Contact) (nowUtc : Nat) (p : List Char) : List Char :=
  if p = "{name}".data then (getOrEmpty (pyOrO c.contactName c.name)).data
  else if p = "{company}".data then (getOrEmpty (pyOrO c.contactCompany c.company)).data
  else if p = "{role}".data then (getOrEmpty c.role).data
  else if p = "{phone}".data then (getOrEmpty (pyOrO c.phoneNumber c.phone)).data
  else if p = "{date}".data then (fmtDate (easternOf nowUtc)).data
  else if p = "{time}".data then (fmtTime12 (easternOf nowUtc)).data
  else p

/-- The value `_fill_template_variables` substitutes for each
placeholder: `name`, `company`, `role`, `phone_normalized or phone`
(each `or ''`), and the Eastern wall-clock date and 12-hour time. -/
def bulkValue (c : Contact) (nowUtc : Nat) (p : List Char) : List Char :=
  if p = "{name}".data then (getOrEmpty c.name).data
  else if p = "{company}".data then (getOrEmpty c.company).data
  else if p = "{role}".data then (getOrEmpty c.role).data
  else if p = "{phone}".data then (getOrEmpty (pyOrO c.phoneNormalized c.phone)).data
  else if p = "{date}".data then (fmtDate (easternOf nowUtc)).data
  else if p = "{time}".data then (fmtTime12 (easternOf nowUtc)).data
  else p

/-! # Theorems

## Generic list lemmas about id-keyed updates -/

theorem find_update_eq {α : Type} (idOf : α → Nat) (cid : Nat) (f : α → α)
    (hf : ∀ x, idOf (f x) = idOf x) (l : List α) :
    (l.map (fun x => if idOf x == cid then f x else x)).find? (fun x => idOf x == cid) =
      (l.find? (fun x => idOf x == cid)).map f := by
  induction l with
  | nil => rfl
  | cons x rest ih =>
    cases hx : (idOf x == cid) with
    | true =>
      have hx2 : (idOf (f x) == cid) = true := by rw [hf]; exact hx
      simp only [List.map_cons, List.find?_cons, hx, if_true, hx2]
      rfl
    | false =>
      simp only [List.map_cons, List.find?_cons, hx, Bool.false_eq_true, if_false, ih]

theorem find_update_ne {α : Type} (idOf : α → Nat) (tid eid : Nat) (f : α → α)
    (hf : ∀ x, idOf (f x) = idOf x) (hne : tid ≠ eid) (l : List α) :
    (l.map (fun x => if idOf x == tid then f x else x)).find? (fun x => idOf x == eid) =
      l.find? (fun x => idOf x == eid) := by
  induction l with
  | nil => rfl
  | cons x rest ih =>
    cases hx : (idOf x == tid) with
    | true =>
      have h : idOf x = tid := beq_iff_eq.mp hx
      have hb2 : (idOf (f x) == eid) = false := by
        rw [hf]
        simp only [beq_eq_false_iff_ne, ne_eq, h]
        exact hne
      have hb3 : (idOf x == eid) = false := by
        simp only [beq_eq_false_iff_ne, ne_eq, h]
        exact hne
      simp only [List.map_cons, List.find?_cons, hx, if_true, hb2, hb3, ih]
    | false =>
      cases hx2 : (idOf x == eid) with
      | true =>
        simp only [List.map_cons, List.find?_cons, hx, Bool.false_eq_true, if_false, hx2]
      | false =>
        simp only [List.map_cons, List.find?_cons, hx, Bool.false_eq_true, if_false, hx2, ih]

theorem find_map_pred {α : Type} (p : α → Bool) (g : α → α)
    (hg : ∀ x, p (g x) = p x) (l : List α) :
    (l.map g).find? p = (l.find? p).map g := by
  induction l with
  | nil => rfl
  | cons x rest ih =>
    cases hx : p x with
    | true =>
      have hx2 : p (g x) = true := by rw [hg]; exact hx
      simp only [List.map_cons, List.find?_cons, hx, hx2]
      rfl
    | false =>
      have hx2 : p (g x) = false := by rw [hg]; exact hx
      simp only [List.map_cons, List.find?_cons, hx, hx2, ih]

theorem countP_map_pred {α : Type} (p : α → Bool) (g : α → α)
    (hg : ∀ x, p (g x) = p x) (l : List α) :
    (l.map g).countP p = l.countP p := by
  induction l with
  | nil => rfl
  | cons x rest ih =>
    simp only [List.map_cons, List.countP_cons, hg, ih]

theorem filter_map_comm {α : Type} (p : α → Bool) (g : α → α)
    (hg : ∀ x, p (g x) = p x) (l : List α) :
    (l.map g).filter p = (l.filter p).map g := by
  induction l with
  | nil => rfl
  | cons x rest ih =>
    by_cases h : p x = true
    · simp only [List.map_cons, List.filter_cons, hg, h, if_true, ih]
    · have hb : p x = false := by simpa using h
      simp only [List.map_cons, List.filter_cons, hg, hb, Bool.false_eq_true, if_false, ih]

theorem filter_map_id {α : Type} (p : α → Bool) (g : α → α)
    (hg : ∀ x, p x = true → g x = x) (hp : ∀ x, p (g x) = p x) (l : List α) :
    (l.map g).filter p = l.filter p := by
  induction l with
  | nil => rfl
  | cons x rest ih =>
    by_cases h : p x = true
    · simp only [List.map_cons, List.filter_cons, hp, h, if_true, hg x h, ih]
    · have hb : p x = false := by simpa using h
      simp only [List.map_cons, List.filter_cons, hp, hb, Bool.false_eq_true, if_false, ih]

/-! ## Lookup/update lemmas for the store -/

theorem findCampaign_updateCampaign (db : DB) (cid : Nat) (f : Campaign → Campaign)
    (hf : ∀ c, (f c).id = c.id) :
    findCampaign (updateCampaign db cid f) cid = (findCampaign db cid).map f := by
  unfold findCampaign updateCampaign
  exact find_update_eq (fun c => c.id) cid f hf db.campaigns

theorem findEnrollment_updateEnrollment (db : DB) (eid : Nat)
    (f : CampaignEnrollment → CampaignEnrollment)
    (hf : ∀ e, (f e).id = e.id) :
    findEnrollment (updateEnrollment db eid f) eid = (findEnrollment db eid).map f := by
  unfold findEnrollment updateEnrollment
  exact find_update_eq (fun e => e.id) eid f hf db.enrollments

theorem findEnrollment_updateEnrollment_ne (db : DB) (tid eid : Nat)
    (f : CampaignEnrollment → CampaignEnrollment)
    (hf : ∀ e, (f e).id = e.id) (hne : tid ≠ eid) :
    findEnrollment (updateEnrollment db tid f) eid = findEnrollment db eid := by
  unfold findEnrollment updateEnrollment
  exact find_update_ne (fun e => e.id) tid eid f hf hne db.enrollments

/-! ## C2: bulk-send safety cap -/

/-- C2.  Safety cap: `schedule_bulk_message` with 51 recipients raises the
cap `ValueError` — before anything is persisted, whatever the other
arguments — while with exactly 50 valid recipients it succeeds, appending
one row that stores the exact recipient list fixed at creation. -/
theorem c2_bulk_recipient_cap
    (db : DB) (nm body : String) (ts : Nat)
    (phones51 phones50 : List String)
    (ir : Bool) (rt rd : Option String) (red : Option Nat)
    (h51 : phones51.length = 51)
    (h50 : phones50.length = 50)
    (hval : ∀ p ∈ phones50, 10 ≤ p.length) :
    scheduleBulkMessage db nm body ts phones51 ir rt rd red =
      .error "SAFETY: Too many recipients" ∧
    ∃ db' m, scheduleBulkMessage db nm body ts phones50 false none none none = .ok (db', m) ∧
      m.recipientPhones = phones50 ∧ m.totalRecipients = 50 ∧ m.status = "pending" ∧
      db'.bulkMessages = db.bulkMessages ++ [m] := by
  have hne51 : phones51.isEmpty = false := by
    cases phones51 with
    | nil => simp at h51
    | cons a l => rfl
  have hne50 : phones50.isEmpty = false := by
    cases phones50 with
    | nil => simp at h50
    | cons a l => rfl
  constructor
  · unfold scheduleBulkMessage
    rw [if_neg (by simp [hne51]), if_pos (by simp [MAX_RECIPIENTS_PER_SCHEDULE, h51])]
  · have hany : (phones50.any fun p => decide (p.length < 10)) = false := by
      rw [List.any_eq_false]
      intro p hp
      have := hval p hp
      simp only [decide_eq_true_eq]
      omega
    have hok : scheduleBulkMessage db nm body ts phones50 false none none none =
        .ok ({ db with
                bulkMessages := db.bulkMessages ++
                  [{ id := db.nextBulkId, name := nm, body := body,
                     recipientPhones := phones50, scheduledAt := ts,
                     totalRecipients := phones50.length, status := "pending",
                     isRecurring := false, recurrenceType := none,
                     recurrenceDays := none, recurrenceEndDate := none }],
                nextBulkId := db.nextBulkId + 1 },
              { id := db.nextBulkId, name := nm, body := body,
                recipientPhones := phones50, scheduledAt := ts,
                totalRecipients := phones50.length, status := "pending",
                isRecurring := false, recurrenceType := none,
                recurrenceDays := none, recurrenceEndDate := none }) := by
      unfold scheduleBulkMessage
      rw [if_neg (by simp [hne50]),
          if_neg (by simp [MAX_RECIPIENTS_PER_SCHEDULE, h50]),
          if_neg (by simp [hany]), if_neg (by simp), if_neg (by simp)]
      simp
    exact ⟨_, _, hok, rfl, h50, rfl, rfl⟩

theorem findCampaign_setEnrollments (db : DB) (cid : Nat) (l : List CampaignEnrollment) :
    findCampaign { db with enrollments := l } cid = findCampaign db cid := rfl

/-! ## C5: campaign lifecycle state machine -/

/-- C5 counterexample.  `complete_campaign` has no status guard: invoked on
a draft campaign it succeeds and performs the transition draft →
completed, which the claimed chain `draft → active ⇄ paused → completed`
does not contain. -/
theorem c5_counterexample_draft_completes :
    (findCampaign dbDraftCampaign 1).map Campaign.status = some "draft" ∧
    ((completeCampaign dbDraftCampaign 1 0).toOption.bind
        (fun db' => (findCampaign db' 1).map Campaign.status)) = some "completed" := by
  constructor
  · rfl
  · rfl

/-- C5 (amended).  The lifecycle guards as implemented: `start` succeeds
exactly on a draft/paused campaign with at least one message and one
enrollment and yields `active`; `pause` only from `active`; `resume` only
from `paused`; only a draft may be deleted; but `complete` is unguarded
and sets any found campaign — whatever its status, draft included — to
`completed`.  In particular `completed` is terminal for start/pause/resume
and cannot be deleted. -/
theorem c5_campaign_lifecycle (db : DB) (cid now : Nat) (c : Campaign)
    (hc : findCampaign db cid = some c) :
    ((∃ db', startCampaign db cid now = .ok db') ↔
        ((c.status = "draft" ∨ c.status = "paused") ∧
          db.messages.filter (fun m => m.campaignId == cid) ≠ [] ∧
          db.enrollments.filter (fun e => e.campaignId == cid) ≠ [])) ∧
    (∀ db', startCampaign db cid now = .ok db' →
        (findCampaign db' cid).map Campaign.status = some "active") ∧
    ((∃ db', pauseCampaign db cid now = .ok db') ↔ c.status = "active") ∧
    (∀ db', pauseCampaign db cid now = .ok db' →
        (findCampaign db' cid).map Campaign.status = some "paused") ∧
    ((∃ db', resumeCampaign db cid = .ok db') ↔ c.status = "paused") ∧
    (∀ db', resumeCampaign db cid = .ok db' →
        (findCampaign db' cid).map Campaign.status = some "active") ∧
    (c.status ≠ "draft" →
        deleteCampaign db cid = .error "Can only delete campaigns in draft status") ∧
    (∃ db', completeCampaign db cid now = .ok db' ∧
        (findCampaign db' cid).map Campaign.status = some "completed") := by
  have hfind : ∀ (f : Campaign → Campaign), (∀ x, (f x).id = x.id) →
      (findCampaign (updateCampaign db cid f) cid).map Campaign.status =
        some (f c).status := by
    intro f hf
    rw [findCampaign_updateCampaign db cid f hf, hc]
    rfl
  refine ⟨?_, ?_, ?_, ?_, ?_, ?_, ?_, ?_⟩
  · simp only [startCampaign, hc]
    by_cases hs : c.status = "draft" ∨ c.status = "paused"
    · have hs' : ¬(c.status ≠ "draft" ∧ c.status ≠ "paused") := by tauto
      rw [if_neg hs']
      by_cases hm : (db.messages.filter (fun m => m.campaignId == cid)).isEmpty
      · rw [if_pos hm]
        constructor
        · rintro ⟨db', h⟩
          cases h
        · rintro ⟨_, hm2, _⟩
          exact absurd (List.isEmpty_iff.mp hm) hm2
      · rw [if_neg hm]
        by_cases he : (db.enrollments.filter (fun e => e.campaignId == cid)).isEmpty
        · rw [if_pos he]
          constructor
          · rintro ⟨db', h⟩
            cases h
          · rintro ⟨_, _, he2⟩
            exact absurd (List.isEmpty_iff.mp he) he2
        · rw [if_neg he]
          constructor
          · intro _
            refine ⟨hs, ?_, ?_⟩
            · intro hnil
              exact hm (by rw [hnil]; rfl)
            · intro hnil
              exact he (by rw [hnil]; rfl)
          · intro _
            exact ⟨_, rfl⟩
    · have hs' : c.status ≠ "draft" ∧ c.status ≠ "paused" := by tauto
      rw [if_pos hs']
      constructor
      · rintro ⟨db', h⟩
        cases h
      · rintro ⟨h1, _, _⟩
        exact absurd h1 hs
  · intro db' hok
    simp only [startCampaign, hc] at hok
    by_cases hs : c.status ≠ "draft" ∧ c.status ≠ "paused"
    · rw [if_pos hs] at hok
      cases hok
    · rw [if_neg hs] at hok
      by_cases hm : (db.messages.filter (fun m => m.campaignId == cid)).isEmpty
      · rw [if_pos hm] at hok
        cases hok
      · rw [if_neg hm] at hok
        by_cases he : (db.enrollments.filter (fun e => e.campaignId == cid)).isEmpty
        · rw [if_pos he] at hok
          cases hok
        · rw [if_neg he] at hok
          cases hok
          exact hfind _ (fun _ => rfl)
  · simp only [pauseCampaign, hc]
    by_cases hs : c.status = "active"
    · rw [if_neg (by simp [hs])]
      exact ⟨fun _ => hs, fun _ => ⟨_, rfl⟩⟩
    · rw [if_pos hs]
      constructor
      · rintro ⟨db', h⟩
        cases h
      · intro h
        exact absurd h hs
  · intro db' hok
    simp only [pauseCampaign, hc] at hok
    by_cases hs : c.status ≠ "active"
    · rw [if_pos hs] at hok
      cases hok
    · rw [if_neg hs] at hok
      cases hok
      exact hfind _ (fun _ => rfl)
  · simp only [resumeCampaign, hc]
    by_cases hs : c.status = "paused"
    · rw [if_neg (by simp [hs])]
      exact ⟨fun _ => hs, fun _ => ⟨_, rfl⟩⟩
    · rw [if_pos hs]
      constructor
      · rintro ⟨db', h⟩
        cases h
      · intro h
        exact absurd h hs
  · intro db' hok
    simp only [resumeCampaign, hc] at hok
    by_cases hs : c.status ≠ "paused"
    · rw [if_pos hs] at hok
      cases hok
    · rw [if_neg hs] at hok
      cases hok
      exact hfind _ (fun _ => rfl)
  · intro hnd
    simp only [deleteCampaign, hc]
    rw [if_pos hnd]
  · have hok : completeCampaign db cid now = .ok
        { updateCampaign db cid (fun x =>
            { x with status := "completed", completedAt := some now,
                     responseTrackingEndsAt := some (now + 30 * minutesPerDay) }) with
          enrollments := (updateCampaign db cid (fun x =>
            { x with status := "completed", completedAt := some now,
                     responseTrackingEndsAt := some (now + 30 * minutesPerDay) })).enrollments.map
              (fun e => if e.campaignId == cid && e.status == "active" then
                { e with status := "completed" } else e) } := by
      simp only [completeCampaign, hc]
    refine ⟨_, hok, ?_⟩
    rw [findCampaign_setEnrollments]
    exact hfind _ (fun _ => rfl)

/-- Witness for C5: the amended lifecycle theorem applied to the concrete
draft campaign — its guards let `start` succeed there. -/
theorem c5_campaign_lifecycle_witness :
    ∃ db', startCampaign dbDraftCampaign 1 0 = .ok db' :=
  (c5_campaign_lifecycle dbDraftCampaign 1 0
      { id := 1, name := "draft camp", status := "draft" } (by rfl)).1.mpr (by decide)

/-- Witness for C2: the cap theorem applied to concrete recipient lists of
51 and 50 copies of a valid phone number. -/
theorem c2_bulk_recipient_cap_witness :
    scheduleBulkMessage {} "blast" "Hello" 0 (List.replicate 51 "+15551234567")
        false none none none = .error "SAFETY: Too many recipients" ∧
    ∃ db' m, scheduleBulkMessage {} "blast" "Hello" 0 (List.replicate 50 "+15551234567")
        false none none none = .ok (db', m) ∧
      m.recipientPhones = List.replicate 50 "+15551234567" ∧ m.totalRecipients = 50 ∧
      m.status = "pending" ∧ db'.bulkMessages = ({} : DB).bulkMessages ++ [m] :=
  c2_bulk_recipient_cap {} "blast" "Hello" 0 _ _ false none none none
    (by decide) (by decide) (by decide)

/-! ## C10: implicit 11:00 send-time fallback -/

/-- C10.  When a campaign's `default_send_time` is `NULL` or fails to
parse as two colon-separated integers, both the campaign-processing pass
and the follow-up pass behave exactly as if the send time were 11:00
Eastern: the effective parse is `(11, 0)`, the campaign is skipped
untouched before 11:00 Eastern wall-clock time, and after it the pass runs
its core; no error escapes. -/
theorem c10_sendtime_fallback (db : DB) (cid now : Nat) (sms : SendOracle) (c : Campaign)
    (hc : findCampaign db cid = some c)
    (hbad : c.defaultSendTime = none ∨
        ∃ s, c.defaultSendTime = some s ∧ parseSendTimeOpt s = none) :
    parseSendTime (pyOrS c.defaultSendTime "11:00") = (11, 0) ∧
    (todOf (easternOf now) < 660 →
        processCampaign db cid now sms = db ∧ processFollowups db cid now sms = db) ∧
    (660 ≤ todOf (easternOf now) → c.status = "active" →
        processCampaign db cid now sms =
          (if (campaignMessagesSorted db cid).isEmpty then db
            else processCampaignCore db c (campaignMessagesSorted db cid) now sms) ∧
        processFollowups db cid now sms = processFollowupsCore db c now sms) := by
  have hparse : parseSendTime (pyOrS c.defaultSendTime "11:00") = (11, 0) := by
    rcases hbad with h | ⟨s, hs, hp⟩
    · rw [h]
      decide
    · rw [hs]
      by_cases he : s = ""
      · rw [he]
        decide
      · have hor : pyOrS (some s) "11:00" = s := by
          simp [pyOrS, pyOrO, he]
        rw [hor]
        unfold parseSendTime
        rw [hp]
        rfl
  have hdue : sendTimeDue (pyOrS c.defaultSendTime "11:00") now =
      some (decide (660 ≤ todOf (easternOf now))) := by
    unfold sendTimeDue
    rw [hparse]
    have h11 : Int.toNat 11 * 60 = 660 := by rfl
    norm_num [h11]
  refine ⟨hparse, ?_, ?_⟩
  · intro hlt
    have hfalse : sendTimeDue (pyOrS c.defaultSendTime "11:00") now = some false := by
      rw [hdue]
      simp
      omega
    constructor
    · simp only [processCampaign, hc]
      by_cases hst : c.status = "active"
      · rw [if_neg (by simp [hst])]
        by_cases hm : (campaignMessagesSorted db cid).isEmpty
        · rw [if_pos hm]
        · rw [if_neg hm, hfalse]
      · rw [if_pos hst]
    · simp only [processFollowups, hc]
      by_cases hst : c.status = "active"
      · rw [if_neg (by simp [hst]), hfalse]
      · rw [if_pos hst]
  · intro hge hst
    have htrue : sendTimeDue (pyOrS c.defaultSendTime "11:00") now = some true := by
      rw [hdue]
      simp
      omega
    constructor
    · simp only [processCampaign, hc]
      rw [if_neg (by simp [hst])]
      by_cases hm : (campaignMessagesSorted db cid).isEmpty
      · rw [if_pos hm, if_pos hm]
      · rw [if_neg hm, if_neg hm, htrue]
    · simp only [processFollowups, hc]
      rw [if_neg (by simp [hst]), htrue]

/-- Witness for C10: the fallback theorem applied to a concrete campaign
with a `NULL` send time, at 08:20 Eastern — skipped untouched. -/
theorem c10_sendtime_fallback_witness :
    processCampaign dbOneCampaign 1 (10 * minutesPerDay + 800) smsAlwaysOk = dbOneCampaign ∧
    processFollowups dbOneCampaign 1 (10 * minutesPerDay + 800) smsAlwaysOk = dbOneCampaign :=
  (c10_sendtime_fallback dbOneCampaign 1 (10 * minutesPerDay + 800) smsAlwaysOk
      { id := 1, name := "camp", status := "active", defaultSendTime := none }
      (by rfl) (Or.inl (by rfl))).2.1 (by decide)

/-! ## C7: recurrence end-date termination -/

theorem findFirst_eq_some {p : Nat → Bool} {fuel s n : Nat}
    (h : findFirst p s fuel = some n) :
    p n = true ∧ s ≤ n ∧ ∀ m, s ≤ m → m < n → p m = false := by
  induction fuel generalizing s with
  | zero => cases h
  | succ fuel ih =>
    unfold findFirst at h
    cases hp : p s with
    | true =>
      rw [hp, if_pos rfl] at h
      cases h
      exact ⟨hp, Nat.le_refl _, fun m hm1 hm2 => absurd (Nat.lt_of_le_of_lt hm1 hm2)
        (Nat.lt_irrefl _)⟩
    | false =>
      rw [hp] at h
      simp only [Bool.false_eq_true, if_false] at h
      obtain ⟨h1, h2, h3⟩ := ih h
      refine ⟨h1, Nat.le_of_succ_le h2, fun m hm1 hm2 => ?_⟩
      rcases Nat.eq_or_lt_of_le hm1 with heq | hlt
      · rw [← heq]
        exact hp
      · exact h3 m hlt hm2

theorem findFirst_found {p : Nat → Bool} (fuel s n : Nat)
    (h1 : s ≤ n) (h2 : n < s + fuel) (hp : p n = true) :
    ∃ k, findFirst p s fuel = some k := by
  induction fuel generalizing s with
  | zero => omega
  | succ fuel ih =>
    unfold findFirst
    cases hps : p s with
    | true => exact ⟨s, by rw [if_pos rfl]⟩
    | false =>
      simp only [Bool.false_eq_true, if_false]
      have hne : s ≠ n := fun he => by rw [he] at hps; rw [hps] at hp; cases hp
      exact ih (s + 1) (by omega) (by omega)

theorem candidate_lower_iff (base now d : Nat) :
    max base (now + 1) ≤ d * minutesPerDay + todOf base ↔
      firstCandidateDay base now ≤ d := by
  have hbase : todOf base ≤ base := Nat.mod_le base minutesPerDay
  unfold firstCandidateDay todOf minutesPerDay
  unfold todOf minutesPerDay at hbase
  omega

theorem dayToNum_lt7 (s : String) (n : Nat) (h : dayToNum s = some n) : n < 7 := by
  unfold dayToNum at h
  split_ifs at h <;> (cases h; omega)

theorem parseRecurrenceDays_lt7 (s : String) :
    ∀ n ∈ parseRecurrenceDays s, n < 7 := by
  intro n hn
  unfold parseRecurrenceDays at hn
  obtain ⟨d, _, hd⟩ := List.mem_filterMap.mp hn
  exact dayToNum_lt7 _ n hd

theorem effectiveWeeklyDays_sound (m : ScheduledBulkMessage) :
    effectiveWeeklyDays m ≠ [] ∧ ∀ n ∈ effectiveWeeklyDays m, n < 7 := by
  unfold effectiveWeeklyDays
  by_cases h : (parseRecurrenceDays (pyOrS m.recurrenceDays "")).isEmpty
  · rw [if_pos h]
    refine ⟨by simp, ?_⟩
    intro n hn
    rcases List.mem_singleton.mp hn with rfl
    exact Nat.mod_lt _ (by omega)
  · rw [if_neg h]
    exact ⟨fun he => h (by rw [he]; rfl), parseRecurrenceDays_lt7 _⟩

theorem residue_day_found (d0 r : Nat) (hr : r < 7) :
    ∃ d, d0 ≤ d ∧ d < d0 + 8 ∧ d % 7 = r := by
  refine ⟨d0 + (r + 7 - d0 % 7) % 7, by omega, by omega, ?_⟩
  omega

/-- The weekly `rrule(...).after(now)` returns exactly the least weekly
occurrence strictly after `now`, for a non-empty day set of weekdays. -/
theorem weeklyAfter_spec (base now : Nat) (days : List Nat)
    (hne : days ≠ []) (hlt : ∀ r ∈ days, r < 7) :
    ∃ t, weeklyAfter base now days = some t ∧ weeklyOccurs base days t ∧ now < t ∧
      ∀ t', weeklyOccurs base days t' → now < t' → t ≤ t' := by
  obtain ⟨r, hr⟩ := List.exists_mem_of_ne_nil days hne
  obtain ⟨d, hd0, hd8, hdr⟩ := residue_day_found (firstCandidateDay base now) r (hlt r hr)
  have hpd : (days.contains (weekdayOf d)) = true := by
    unfold weekdayOf
    rw [hdr]
    exact List.elem_iff.mpr hr
  obtain ⟨k, hk⟩ := findFirst_found (p := fun d => days.contains (weekdayOf d)) 8
    (firstCandidateDay base now) d hd0 (by omega) hpd
  obtain ⟨hpk, hk0, hkmin⟩ := findFirst_eq_some hk
  have htod : todOf base < minutesPerDay := Nat.mod_lt _ (by unfold minutesPerDay; omega)
  refine ⟨k * minutesPerDay + todOf base, ?_, ⟨?_, ?_, ?_⟩, ?_, ?_⟩
  · unfold weeklyAfter
    rw [hk]
    rfl
  · show (k * minutesPerDay + todOf base) % minutesPerDay = todOf base
    unfold minutesPerDay at htod ⊢
    omega
  · have : dayOf (k * minutesPerDay + todOf base) = k := by
      unfold dayOf minutesPerDay
      unfold minutesPerDay at htod
      omega
    rw [this]
    exact hpk
  · have := (candidate_lower_iff base now k).mpr hk0
    omega
  · have := (candidate_lower_iff base now k).mpr hk0
    omega
  · intro t' ⟨ht1, ht2, ht3⟩ hnow
    have hsplit : t' = dayOf t' * minutesPerDay + todOf base := by
      rw [← ht1]
      unfold dayOf todOf minutesPerDay
      omega
    have hge : firstCandidateDay base now ≤ dayOf t' := by
      rw [← candidate_lower_iff base now (dayOf t'), ← hsplit]
      omega
    have hknd : k ≤ dayOf t' := by
      by_contra hcon
      have := hkmin (dayOf t') hge (by omega)
      rw [this] at ht2
      cases ht2
    calc k * minutesPerDay + todOf base
        ≤ dayOf t' * minutesPerDay + todOf base := by
          exact Nat.add_le_add_right (Nat.mul_le_mul_right _ hknd) _
      _ = t' := hsplit.symm

/-- C7.  Recurrence end-date termination: an already-passed end date (end
≤ now) makes the calculator return no occurrence; any occurrence it does
return is strictly after `now` and never past the end date; and for a
weekly rule the result is exactly the least weekly occurrence strictly
after `now` when that occurrence is at or before the end date, and no
occurrence otherwise. -/
theorem c7_recurrence_termination (m : ScheduledBulkMessage) (now : Nat)
    (hrec : m.isRecurring = true) :
    (∀ e, m.recurrenceEndDate = some e → e ≤ now →
        calculateNextOccurrence m now = none) ∧
    (∀ t, calculateNextOccurrence m now = some t →
        now < t ∧ ∀ e, m.recurrenceEndDate = some e → t ≤ e) ∧
    (m.recurrenceType = some "weekly" → ∀ e, m.recurrenceEndDate = some e → now < e →
        ∃ tStar, weeklyOccurs m.scheduledAt (effectiveWeeklyDays m) tStar ∧ now < tStar ∧
          (∀ t', weeklyOccurs m.scheduledAt (effectiveWeeklyDays m) t' → now < t' →
            tStar ≤ t') ∧
          calculateNextOccurrence m now =
            (if tStar ≤ e then some tStar else none)) := by
  refine ⟨?_, ?_, ?_⟩
  · intro e he hle
    unfold calculateNextOccurrence
    rw [hrec, he]
    cases hty : optTruthy m.recurrenceType with
    | false => rfl
    | true =>
      simp only [Bool.not_true, Bool.false_or, Bool.not_false, Bool.false_eq_true, if_false]
      rw [if_pos (by simp [hle])]
  · intro t ht
    unfold calculateNextOccurrence at ht
    rw [hrec] at ht
    cases hty : optTruthy m.recurrenceType with
    | false =>
      rw [hty] at ht
      cases ht
    | true =>
      rw [hty] at ht
      simp only [Bool.not_true, Bool.false_or, Bool.not_false, Bool.false_eq_true,
        if_false] at ht
      by_cases hpassed : (match m.recurrenceEndDate with
          | some e => decide (e ≤ now)
          | none => false) = true
      · rw [if_pos hpassed] at ht
        cases ht
      · rw [if_neg hpassed] at ht
        have hok : ∀ t0, (match m.recurrenceEndDate with
              | some e => if e < t0 then none else some (t0 : Nat)
              | none => some t0) = some t →
            t = t0 ∧ ∀ e, m.recurrenceEndDate = some e → t ≤ e := by
          intro t0 h0
          cases hre : m.recurrenceEndDate with
          | none =>
            rw [hre] at h0
            simp only [Option.some.injEq] at h0
            refine ⟨h0.symm, ?_⟩
            intro e he
            cases he
          | some e =>
            rw [hre] at h0
            simp only [Option.ite_none_left_eq_some, Option.some.injEq] at h0
            obtain ⟨hnlt, heq⟩ := h0
            refine ⟨heq.symm, ?_⟩
            intro e' he'
            cases he'
            omega
        have hafter : ∀ d, t = d * minutesPerDay + todOf m.scheduledAt →
            firstCandidateDay m.scheduledAt now ≤ d → now < t := by
          intro d hd hge
          have := (candidate_lower_iff m.scheduledAt now d).mpr hge
          omega
        by_cases h1 : m.recurrenceType.getD "" = "daily"
        · rw [h1] at ht
          rw [if_pos (by decide : ("daily" : String) = "daily")] at ht
          unfold dailyAfter at ht
          obtain ⟨heq, hend⟩ := hok _ ht
          exact ⟨hafter _ heq (Nat.le_refl _), hend⟩
        · by_cases h2 : m.recurrenceType.getD "" = "weekly"
          · rw [h2] at ht
            rw [if_neg (by decide : ¬("weekly" : String) = "daily"),
                if_pos (by decide : ("weekly" : String) = "weekly")] at ht
            unfold weeklyAfter at ht
            cases hf : findFirst (fun d => (effectiveWeeklyDays m).contains (weekdayOf d))
                (firstCandidateDay m.scheduledAt now) 8 with
            | none =>
              rw [hf] at ht
              cases ht
            | some k =>
              rw [hf] at ht
              simp only [Option.map_some'] at ht
              obtain ⟨_, hk0, _⟩ := findFirst_eq_some hf
              obtain ⟨heq, hend⟩ := hok _ ht
              exact ⟨hafter _ heq hk0, hend⟩
          · by_cases h3 : m.recurrenceType.getD "" = "monthly"
            · rw [h3] at ht
              rw [if_neg (by decide : ¬("monthly" : String) = "daily"),
                  if_neg (by decide : ¬("monthly" : String) = "weekly"),
                  if_pos (by decide : ("monthly" : String) = "monthly")] at ht
              unfold monthlyAfter at ht
              cases hf : findFirst
                  (fun d => dayOfMonthOf d == dayOfMonthOf (dayOf m.scheduledAt))
                  (firstCandidateDay m.scheduledAt now) 1000 with
              | none =>
                rw [hf] at ht
                cases ht
              | some k =>
                rw [hf] at ht
                simp only [Option.map_some'] at ht
                obtain ⟨_, hk0, _⟩ := findFirst_eq_some hf
                obtain ⟨heq, hend⟩ := hok _ ht
                exact ⟨hafter _ heq hk0, hend⟩
            · rw [if_neg h1, if_neg h2, if_neg h3] at ht
              cases ht
  · intro hty e he hnow
    obtain ⟨hne, hlt⟩ := effectiveWeeklyDays_sound m
    obtain ⟨tStar, hcalc, hocc, hafter, hmin⟩ :=
      weeklyAfter_spec m.scheduledAt now (effectiveWeeklyDays m) hne hlt
    refine ⟨tStar, hocc, hafter, hmin, ?_⟩
    have hfalse : (match m.recurrenceEndDate with
        | some e0 => decide (e0 ≤ now)
        | none => false) = false := by
      rw [he]
      show decide (e ≤ now) = false
      simp only [decide_eq_false_iff_not]
      omega
    simp only [calculateNextOccurrence]
    rw [hrec, hty]
    rw [if_neg (show ¬((!true || !optTruthy (some "weekly")) = true) by decide)]
    rw [if_neg (show ¬((match m.recurrenceEndDate with
        | some e0 => decide (e0 ≤ now)
        | none => false) = true) from by rw [hfalse]; exact Bool.false_ne_true)]
    rw [show ((some "weekly" : Option String).getD "") = "weekly" from rfl]
    rw [if_neg (by decide : ¬("weekly" : String) = "daily"),
        if_pos (by decide : ("weekly" : String) = "weekly")]
    rw [hcalc, he]
    show (if e < tStar then none else some tStar : Option Nat) =
      (if tStar ≤ e then some tStar else none)
    by_cases hle : tStar ≤ e
    · rw [if_pos hle, if_neg (by omega)]
    · rw [if_neg hle, if_pos (by omega)]

/-- Witness for C7: the termination theorem applied to the Monday/Wednesday
weekly schedule with an end date two weeks out, called right at the anchor
time. -/
theorem c7_recurrence_termination_witness :
    ∃ tStar, weeklyOccurs weeklyMonWed.scheduledAt (effectiveWeeklyDays weeklyMonWed) tStar ∧
      7 * minutesPerDay + 660 < tStar ∧
      (∀ t', weeklyOccurs weeklyMonWed.scheduledAt (effectiveWeeklyDays weeklyMonWed) t' →
        7 * minutesPerDay + 660 < t' → tStar ≤ t') ∧
      calculateNextOccurrence weeklyMonWed (7 * minutesPerDay + 660) =
        (if tStar ≤ 21 * minutesPerDay + 660 then some tStar else none) :=
  (c7_recurrence_termination weeklyMonWed (7 * minutesPerDay + 660) (by rfl)).2.2
    (by rfl) (21 * minutesPerDay + 660) (by rfl) (by decide)

/-! ## C9: template rendering -/

theorem sub_of_pre {α : Type} {l₁ l₂ : List α} (h : l₁ <+: l₂) : l₁ <:+: l₂ := by
  obtain ⟨t, ht⟩ := h
  exact ⟨[], t, by simp [ht]⟩

theorem sub_of_suf {α : Type} {l₁ l₂ : List α} (h : l₁ <:+ l₂) : l₁ <:+: l₂ := by
  obtain ⟨u, hu⟩ := h
  exact ⟨u, [], by simp [hu]⟩

theorem sub_cons {α : Type} {l₁ l₂ : List α} (c : α) (h : l₁ <:+: l₂) :
    l₁ <:+: c :: l₂ := by
  obtain ⟨u, v, huv⟩ := h
  exact ⟨c :: u, v, by simp [huv]⟩

/-- `str.replace` leaves a string with no occurrence of the pattern
unchanged. -/
theorem replaceAllCh_of_no_occurrence (pat rep : List Char) :
    ∀ s, ¬ pat <:+: s → replaceAllCh pat rep s = s := by
  intro s
  induction s using replaceAllCh.induct pat rep with
  | case1 =>
    intro _
    simp only [replaceAllCh]
  | case2 c rest hpre ih =>
    intro h
    exact absurd (sub_of_pre ( List.isPrefixOf_iff_prefix.mp hpre)) h
  | case3 c rest hpre ih =>
    intro h
    have h2 : ¬ pat <:+: rest := fun hc => h (sub_cons c hc)
    simp only [replaceAllCh]
    rw [if_neg hpre, ih h2]

theorem pyReplace_id (s pat rep : String) (h : ¬ pat.data <:+: s.data) :
    pyReplace s pat rep = s := by
  unfold pyReplace
  rw [replaceAllCh_of_no_occurrence pat.data rep.data s.data h]

/-- Collapsing preserves the head character. -/
theorem collapseSpaces_head (a : Char) (l : List Char) :
    ∃ t, collapseSpaces (a :: l) = a :: t := by
  induction l generalizing a with
  | nil => exact ⟨[], rfl⟩
  | cons b r ih =>
    by_cases hab : a = ' ' ∧ b = ' '
    · obtain ⟨t, ht⟩ := ih b
      refine ⟨t, ?_⟩
      simp only [collapseSpaces]
      rw [if_pos (by simp [hab.1, hab.2]), ht, hab.1, hab.2]
    · refine ⟨collapseSpaces (b :: r), ?_⟩
      simp only [collapseSpaces]
      rw [if_neg (by simpa using hab)]

theorem noDoubleSpace_tail {x : Char} {t : List Char}
    (h : noDoubleSpace (x :: t) = true) : noDoubleSpace t = true := by
  cases t with
  | nil => rfl
  | cons c r =>
    simp only [noDoubleSpace, Bool.and_eq_true] at h
    exact h.2

theorem noDoubleSpace_collapseSpaces (l : List Char) :
    noDoubleSpace (collapseSpaces l) = true := by
  induction l using collapseSpaces.induct with
  | case1 => rfl
  | case2 c => rfl
  | case3 a b rest hab ih =>
    simp only [collapseSpaces]
    rw [if_pos hab]
    exact ih
  | case4 a b rest hab ih =>
    simp only [collapseSpaces]
    rw [if_neg hab]
    obtain ⟨t, ht⟩ := collapseSpaces_head b rest
    rw [ht]
    rw [ht] at ih
    show noDoubleSpace (a :: b :: t) = true
    simp only [noDoubleSpace, Bool.and_eq_true]
    constructor
    · have : (decide (a = ' ') && decide (b = ' ')) = false := by
        simpa using hab
      simp [this]
    · exact ih

theorem noDoubleSpace_drop_front (xs ys : List Char)
    (h : noDoubleSpace (xs ++ ys) = true) : noDoubleSpace ys = true := by
  induction xs with
  | nil => exact h
  | cons x xs' ih => exact ih (noDoubleSpace_tail h)

theorem noDoubleSpace_take_front (xs ys : List Char)
    (h : noDoubleSpace (xs ++ ys) = true) : noDoubleSpace xs = true := by
  induction xs with
  | nil => rfl
  | cons x xs' ih =>
    cases xs' with
    | nil => rfl
    | cons x2 r =>
      have h' : noDoubleSpace (x :: x2 :: (r ++ ys)) = true := h
      simp only [noDoubleSpace, Bool.and_eq_true] at h' ⊢
      exact ⟨h'.1, ih h'.2⟩

theorem noDoubleSpace_of_part {k l : List Char} (hk : k <:+: l)
    (h : noDoubleSpace l = true) : noDoubleSpace k = true := by
  obtain ⟨u, v, huv⟩ := hk
  have h1 : noDoubleSpace (k ++ v) = true := by
    refine noDoubleSpace_drop_front u (k ++ v) ?_
    rw [← List.append_assoc, huv]
    exact h
  exact noDoubleSpace_take_front k v h1

theorem head_dropWhile_not {p : Char → Bool} {l : List Char} {c : Char}
    (h : (l.dropWhile p).head? = some c) : p c = false := by
  induction l with
  | nil => cases h
  | cons x r ih =>
    cases hx : p x with
    | true =>
      rw [List.dropWhile_cons, if_pos hx] at h
      exact ih h
    | false =>
      rw [List.dropWhile_cons, if_neg (by simp [hx])] at h
      cases h
      exact hx

/-- The stripped string starts with a non-whitespace character. -/
theorem pyStripCh_first {l : List Char} {c : Char}
    (h : (pyStripCh l).head? = some c) : isPySpace c = false := by
  unfold pyStripCh at h
  cases hd : l.dropWhile isPySpace with
  | nil =>
    rw [hd] at h
    cases h
  | cons c0 t =>
    have hc0 : isPySpace c0 = false := head_dropWhile_not (by rw [hd]; rfl)
    rw [hd] at h
    rw [show (c0 :: t).reverse = t.reverse ++ [c0] from by simp] at h
    rw [List.dropWhile_append] at h
    by_cases hemp : (t.reverse.dropWhile isPySpace).isEmpty
    · rw [if_pos hemp] at h
      rw [show List.dropWhile isPySpace [c0] = [c0] from by
        rw [List.dropWhile_cons, if_neg (by simp [hc0])]] at h
      cases h
      exact hc0
    · rw [if_neg hemp, List.reverse_append] at h
      cases h
      exact hc0

/-- The stripped string ends with a non-whitespace character. -/
theorem pyStripCh_last {l : List Char} {c : Char}
    (h : (pyStripCh l).getLast? = some c) : isPySpace c = false := by
  unfold pyStripCh at h
  rw [List.getLast?_reverse] at h
  exact head_dropWhile_not h

/-- Stripping yields a contiguous part of the original list. -/
theorem pyStripCh_part (l : List Char) : pyStripCh l <:+: l := by
  have h1 : l.dropWhile isPySpace <:+ l := List.dropWhile_suffix _
  have h2 : (l.dropWhile isPySpace).reverse.dropWhile isPySpace <:+
      (l.dropWhile isPySpace).reverse := List.dropWhile_suffix _
  have h3 : pyStripCh l <+: l.dropWhile isPySpace := by
    obtain ⟨u, hu⟩ := h2
    refine ⟨u.reverse, ?_⟩
    unfold pyStripCh
    rw [← List.reverse_append, hu, List.reverse_reverse]
  exact (sub_of_pre h3).trans (sub_of_suf h1)

theorem data_mk (l : List Char) : (String.mk l).data = l := rfl

theorem placeholders_head : ∀ p ∈ placeholders, p.head? = some '{' ∧ '{' ∉ p.tail := by
  decide

theorem placeholders_distinct : ∀ p ∈ placeholders, ∀ q ∈ placeholders, p ≠ q →
    ¬ p <+: q ∧ ¬ q <+: p := by
  decide

theorem isPrefixOf_append_ne {p q : List Char} (h1 : ¬ p <+: q) (h2 : ¬ q <+: p)
    (tail : List Char) : List.isPrefixOf p (q ++ tail) = false := by
  cases hb : List.isPrefixOf p (q ++ tail) with
  | false => rfl
  | true =>
    exfalso
    have hpre : p <+: q ++ tail := ( List.isPrefixOf_iff_prefix).mp hb
    by_cases hlen : p.length ≤ q.length
    · refine h1 ?_
      have htake := ( List.prefix_iff_eq_take).mp hpre
      rw [List.take_append_of_le_length hlen] at htake
      rw [htake]
      exact List.take_prefix _ _
    · refine h2 ?_
      push_neg at hlen
      have htake := ( List.prefix_iff_eq_take).mp hpre
      have hq : q = p.take q.length := by
        conv_lhs => rw [show q = List.take q.length (q ++ tail) from by
          rw [List.take_append_of_le_length (le_refl _), List.take_length]]
        rw [htake, List.take_take, Nat.min_eq_left (le_of_lt hlen)]
      rw [hq]
      exact List.take_prefix _ _

/-- `str.replace` walks over brace-free text unchanged when the pattern
opens with a brace. -/
theorem replaceAllCh_step_over {p r : List Char} (hph : p.head? = some '{') :
    ∀ (s tail : List Char), '{' ∉ s →
      replaceAllCh p r (s ++ tail) = s ++ replaceAllCh p r tail := by
  intro s
  induction s with
  | nil =>
    intro tail _
    rfl
  | cons c s' ih =>
    intro tail hb
    have hc : ¬ c = '{' := by
      intro h
      refine hb ?_
      rw [← h]
      exact List.mem_cons_self c s'
    have hnp : List.isPrefixOf p (c :: (s' ++ tail)) = false := by
      cases p with
      | nil => cases hph
      | cons a p' =>
        have ha : a = '{' := by
          injection hph
        subst ha
        simp only [List.isPrefixOf]
        rw [show ('{' == c) = false from beq_eq_false_iff_ne.mpr
          (fun hh => hc hh.symm)]
        rfl
    show replaceAllCh p r (c :: (s' ++ tail)) = c :: (s' ++ replaceAllCh p r tail)
    simp only [replaceAllCh]
    rw [if_neg (by simp [hnp])]
    rw [ih tail (fun hm => hb (List.mem_cons_of_mem c hm))]

/-- `str.replace` fires exactly at an occurrence of the pattern. -/
theorem replaceAllCh_at_head (c : Char) (p' r tail : List Char) :
    replaceAllCh (c :: p') r ((c :: p') ++ tail) =
      r ++ replaceAllCh (c :: p') r tail := by
  simp only [List.cons_append, replaceAllCh]
  have hpre : List.isPrefixOf (c :: p') (c :: (p' ++ tail)) = true :=
    ( List.isPrefixOf_iff_prefix).mpr ⟨tail, by simp⟩
  rw [if_pos (by simp [hpre])]
  rw [show List.drop ((c :: p').length - 1) (p' ++ tail) = tail from by
    rw [show (c :: p').length - 1 = p'.length from by simp]
    exact List.drop_left p' tail]

/-- One `str.replace` pass over a parsed template substitutes exactly the
occurrences of its placeholder, keeping every other piece verbatim. -/
theorem replaceAllCh_pieces (p r : List Char) (hp : p ∈ placeholders)
    (hr : '{' ∉ r) :
    ∀ pieces, PiecesWF pieces →
      replaceAllCh p r (flattenPieces pieces) =
        flattenPieces (substOnePiece p r pieces) ∧
      PiecesWF (substOnePiece p r pieces) := by
  obtain ⟨hph, _⟩ := placeholders_head p hp
  intro pieces
  induction pieces with
  | nil =>
    refine fun _ => ⟨?_, fun x hx => absurd hx (List.not_mem_nil x)⟩
    simp only [flattenPieces, substOnePiece, replaceAllCh]
  | cons piece rest ih =>
    intro hwf
    have hwfr : PiecesWF rest := fun x hx => hwf x (List.mem_cons_of_mem _ hx)
    obtain ⟨ihe, ihw⟩ := ih hwfr
    cases piece with
    | lit s =>
      have hs : '{' ∉ s := hwf (TemplatePiece.lit s) (List.mem_cons_self _ _)
      constructor
      · show replaceAllCh p r (s ++ flattenPieces rest) =
          s ++ flattenPieces (substOnePiece p r rest)
        rw [replaceAllCh_step_over hph s _ hs, ihe]
      · intro x hx
        rcases List.mem_cons.mp hx with hx | hx
        · subst hx
          exact hs
        · exact ihw x hx
    | ph q =>
      have hq : q ∈ placeholders := hwf (TemplatePiece.ph q) (List.mem_cons_self _ _)
      by_cases hqp : q = p
      · constructor
        · show replaceAllCh p r (flattenPieces (TemplatePiece.ph q :: rest)) = _
          simp only [substOnePiece, if_pos hqp, flattenPieces]
          rw [hqp]
          cases p with
          | nil => cases hph
          | cons a p' =>
            rw [replaceAllCh_at_head a p' r (flattenPieces rest), ihe]
        · intro x hx
          simp only [substOnePiece, if_pos hqp] at hx
          rcases List.mem_cons.mp hx with hx | hx
          · subst hx
            exact hr
          · exact ihw x hx
      · obtain ⟨hqh, hqt⟩ := placeholders_head q hq
        have hdist := placeholders_distinct p hp q hq (fun h => hqp h.symm)
        constructor
        · have hnp : List.isPrefixOf p (q ++ flattenPieces rest) = false :=
            isPrefixOf_append_ne hdist.1 hdist.2 _
          have hstep : replaceAllCh p r (q ++ flattenPieces rest) =
              q ++ replaceAllCh p r (flattenPieces rest) := by
            cases q with
            | nil => cases hqh
            | cons qc qtail =>
              have hqc : qc = '{' := by
                injection hqh
              subst hqc
              simp only [List.cons_append] at hnp ⊢
              simp only [replaceAllCh]
              rw [if_neg (by simp [hnp])]
              rw [replaceAllCh_step_over hph qtail _ hqt]
          show replaceAllCh p r (q ++ flattenPieces rest) = _
          rw [hstep, ihe]
          simp only [substOnePiece, if_neg hqp, flattenPieces]
        · intro x hx
          simp only [substOnePiece, if_neg hqp] at hx
          rcases List.mem_cons.mp hx with hx | hx
          · subst hx
            exact hq
          · exact ihw x hx

/-- Substituting the six placeholders one after the other, in the
renderers' order, substitutes every token by its mapped value. -/
theorem substSix_generic (v1 v2 v3 v4 v5 v6 : List Char) (v : List Char → List Char)
    (h1 : v "{name}".data = v1) (h2 : v "{company}".data = v2)
    (h3 : v "{role}".data = v3) (h4 : v "{phone}".data = v4)
    (h5 : v "{date}".data = v5) (h6 : v "{time}".data = v6) :
    ∀ pieces, PiecesWF pieces →
    flattenPieces (substOnePiece "{time}".data v6 (substOnePiece "{date}".data v5
      (substOnePiece "{phone}".data v4 (substOnePiece "{role}".data v3
      (substOnePiece "{company}".data v2
        (substOnePiece "{name}".data v1 pieces)))))) =
      substPieces v pieces := by
  intro pieces
  induction pieces with
  | nil =>
    intro _
    rfl
  | cons piece rest ih =>
    intro hwf
    have hwfr : PiecesWF rest := fun x hx => hwf x (List.mem_cons_of_mem _ hx)
    cases piece with
    | lit s =>
      exact congrArg (fun l => s ++ l) (ih hwfr)
    | ph q =>
      have hq : q ∈ placeholders := hwf (TemplatePiece.ph q) (List.mem_cons_self _ _)
      simp only [placeholders, List.mem_cons, List.not_mem_nil, or_false] at hq
      rcases hq with rfl | rfl | rfl | rfl | rfl | rfl
      · rw [show substPieces v (TemplatePiece.ph ("{name}".data) :: rest) =
          v1 ++ substPieces v rest from by rw [substPieces, h1]]
        exact congrArg (fun l => v1 ++ l) (ih hwfr)
      · rw [show substPieces v (TemplatePiece.ph ("{company}".data) :: rest) =
          v2 ++ substPieces v rest from by rw [substPieces, h2]]
        exact congrArg (fun l => v2 ++ l) (ih hwfr)
      · rw [show substPieces v (TemplatePiece.ph ("{role}".data) :: rest) =
          v3 ++ substPieces v rest from by rw [substPieces, h3]]
        exact congrArg (fun l => v3 ++ l) (ih hwfr)
      · rw [show substPieces v (TemplatePiece.ph ("{phone}".data) :: rest) =
          v4 ++ substPieces v rest from by rw [substPieces, h4]]
        exact congrArg (fun l => v4 ++ l) (ih hwfr)
      · rw [show substPieces v (TemplatePiece.ph ("{date}".data) :: rest) =
          v5 ++ substPieces v rest from by rw [substPieces, h5]]
        exact congrArg (fun l => v5 ++ l) (ih hwfr)
      · rw [show substPieces v (TemplatePiece.ph ("{time}".data) :: rest) =
          v6 ++ substPieces v rest from by rw [substPieces, h6]]
        exact congrArg (fun l => v6 ++ l) (ih hwfr)

/-- `_fill_campaign_template` on a parsed template: every occurrence of
each of the six placeholders is substituted by its mapped contact/clock
value, every other piece is left verbatim, then space runs are collapsed
and the edges trimmed.  (The substituted values must themselves be
brace-free: chained `str.replace` would otherwise substitute later
placeholders inside earlier values.) -/
theorem fillCampaignTemplate_pieces (t : String) (c : Contact) (now : Nat)
    (pieces : List TemplatePiece) (hwf : PiecesWF pieces)
    (ht : t.data = flattenPieces pieces)
    (hv : ∀ p ∈ placeholders, '{' ∉ campaignValue c now p) :
    fillCampaignTemplate t c now =
      String.mk (pyStripCh (collapseSpaces
        (substPieces (campaignValue c now) pieces))) := by
  have hv1 : '{' ∉ (getOrEmpty (pyOrO c.contactName c.name)).data :=
    hv ("{name}".data) (by decide)
  have hv2 : '{' ∉ (getOrEmpty (pyOrO c.contactCompany c.company)).data :=
    hv ("{company}".data) (by decide)
  have hv3 : '{' ∉ (getOrEmpty c.role).data := hv ("{role}".data) (by decide)
  have hv4 : '{' ∉ (getOrEmpty (pyOrO c.phoneNumber c.phone)).data :=
    hv ("{phone}".data) (by decide)
  have hv5 : '{' ∉ (fmtDate (easternOf now)).data := hv ("{date}".data) (by decide)
  have hv6 : '{' ∉ (fmtTime12 (easternOf now)).data := hv ("{time}".data) (by decide)
  obtain ⟨e1, w1⟩ := replaceAllCh_pieces ("{name}".data) _ (by decide) hv1 pieces hwf
  obtain ⟨e2, w2⟩ := replaceAllCh_pieces ("{company}".data) _ (by decide) hv2 _ w1
  obtain ⟨e3, w3⟩ := replaceAllCh_pieces ("{role}".data) _ (by decide) hv3 _ w2
  obtain ⟨e4, w4⟩ := replaceAllCh_pieces ("{phone}".data) _ (by decide) hv4 _ w3
  obtain ⟨e5, w5⟩ := replaceAllCh_pieces ("{date}".data) _ (by decide) hv5 _ w4
  obtain ⟨e6, _⟩ := replaceAllCh_pieces ("{time}".data) _ (by decide) hv6 _ w5
  simp only [fillCampaignTemplate, pyReplace, data_mk]
  rw [ht, e1, e2, e3, e4, e5, e6]
  rw [substSix_generic (getOrEmpty (pyOrO c.contactName c.name)).data
    (getOrEmpty (pyOrO c.contactCompany c.company)).data (getOrEmpty c.role).data
    (getOrEmpty (pyOrO c.phoneNumber c.phone)).data (fmtDate (easternOf now)).data
    (fmtTime12 (easternOf now)).data (campaignValue c now)
    rfl rfl rfl rfl rfl rfl pieces hwf]

/-- `_fill_template_variables` on a parsed template: every occurrence of
each of the six placeholders is substituted by its mapped contact/clock
value, every other piece is left verbatim, then space runs are collapsed
and the edges trimmed. -/
theorem fillTemplateVariables_pieces (t : String) (c : Contact) (now : Nat)
    (pieces : List TemplatePiece) (hwf : PiecesWF pieces)
    (ht : t.data = flattenPieces pieces)
    (hv : ∀ p ∈ placeholders, '{' ∉ bulkValue c now p) :
    fillTemplateVariables t c now =
      String.mk (pyStripCh (collapseSpaces
        (substPieces (bulkValue c now) pieces))) := by
  have hv1 : '{' ∉ (getOrEmpty c.name).data := hv ("{name}".data) (by decide)
  have hv2 : '{' ∉ (getOrEmpty c.company).data := hv ("{company}".data) (by decide)
  have hv3 : '{' ∉ (getOrEmpty c.role).data := hv ("{role}".data) (by decide)
  have hv4 : '{' ∉ (getOrEmpty (pyOrO c.phoneNormalized c.phone)).data :=
    hv ("{phone}".data) (by decide)
  have hv5 : '{' ∉ (fmtDate (easternOf now)).data := hv ("{date}".data) (by decide)
  have hv6 : '{' ∉ (fmtTime12 (easternOf now)).data := hv ("{time}".data) (by decide)
  obtain ⟨e1, w1⟩ := replaceAllCh_pieces ("{name}".data) _ (by decide) hv1 pieces hwf
  obtain ⟨e2, w2⟩ := replaceAllCh_pieces ("{company}".data) _ (by decide) hv2 _ w1
  obtain ⟨e3, w3⟩ := replaceAllCh_pieces ("{role}".data) _ (by decide) hv3 _ w2
  obtain ⟨e4, w4⟩ := replaceAllCh_pieces ("{phone}".data) _ (by decide) hv4 _ w3
  obtain ⟨e5, w5⟩ := replaceAllCh_pieces ("{date}".data) _ (by decide) hv5 _ w4
  obtain ⟨e6, _⟩ := replaceAllCh_pieces ("{time}".data) _ (by decide) hv6 _ w5
  simp only [fillTemplateVariables, pyReplace, data_mk]
  rw [ht, e1, e2, e3, e4, e5, e6]
  rw [substSix_generic (getOrEmpty c.name).data (getOrEmpty c.company).data
    (getOrEmpty c.role).data (getOrEmpty (pyOrO c.phoneNormalized c.phone)).data
    (fmtDate (easternOf now)).data (fmtTime12 (easternOf now)).data
    (bulkValue c now) rfl rfl rfl rfl rfl rfl pieces hwf]

/-- C9.  Template rendering.  For a template parsed into brace-free
literal segments and placeholder tokens, both renderers substitute every
occurrence of each of `{name}`, `{company}`, `{role}`, `{phone}`,
`{date}`, `{time}` by its mapped contact/clock value and leave every
other piece verbatim, then collapse space runs and trim the edges
(provided the substituted values are themselves brace-free — chained
`str.replace` would otherwise substitute later placeholders inside
earlier values); a placeholder-free template is only
whitespace-normalized; a missing contact field renders exactly like an
empty one, in both renderers; the output never contains two adjacent
spaces and never starts or ends with whitespace, in both renderers; and
both results are pure functions of the template, the contact and the
clock reading. -/
theorem c9_template_rendering (t : String) (c : Contact) (now : Nat) :
    (∀ pieces : List TemplatePiece, PiecesWF pieces →
      t.data = flattenPieces pieces →
      ((∀ p ∈ placeholders, '{' ∉ campaignValue c now p) →
        fillCampaignTemplate t c now =
          String.mk (pyStripCh (collapseSpaces
            (substPieces (campaignValue c now) pieces)))) ∧
      ((∀ p ∈ placeholders, '{' ∉ bulkValue c now p) →
        fillTemplateVariables t c now =
          String.mk (pyStripCh (collapseSpaces
            (substPieces (bulkValue c now) pieces))))) ∧
    ((∀ pat ∈ ["{name}", "{company}", "{role}", "{phone}", "{date}", "{time}"],
        ¬ pat.data <:+: t.data) →
      fillCampaignTemplate t c now = String.mk (pyStripCh (collapseSpaces t.data)) ∧
      fillTemplateVariables t c now = String.mk (pyStripCh (collapseSpaces t.data))) ∧
    (fillCampaignTemplate t { } now =
      fillCampaignTemplate t
        { name := some "", company := some "", role := some "", phone := some "",
          phoneNumber := some "", phoneNormalized := some "", contactName := some "",
          contactCompany := some "" } now) ∧
    (fillTemplateVariables t { } now =
      fillTemplateVariables t
        { name := some "", company := some "", role := some "", phone := some "",
          phoneNumber := some "", phoneNormalized := some "", contactName := some "",
          contactCompany := some "" } now) ∧
    noDoubleSpace (fillCampaignTemplate t c now).data = true ∧
    noDoubleSpace (fillTemplateVariables t c now).data = true ∧
    (∀ ch, (fillCampaignTemplate t c now).data.head? = some ch → isPySpace ch = false) ∧
    (∀ ch, (fillCampaignTemplate t c now).data.getLast? = some ch →
      isPySpace ch = false) ∧
    (∀ ch, (fillTemplateVariables t c now).data.head? = some ch →
      isPySpace ch = false) ∧
    (∀ ch, (fillTemplateVariables t c now).data.getLast? = some ch →
      isPySpace ch = false) ∧
    (∀ t₂ c₂ now₂, t = t₂ → c = c₂ → now = now₂ →
      fillCampaignTemplate t c now = fillCampaignTemplate t₂ c₂ now₂ ∧
      fillTemplateVariables t c now = fillTemplateVariables t₂ c₂ now₂) := by
  refine ⟨?_, ?_, ?_, ?_, ?_, ?_, ?_, ?_, ?_, ?_, ?_⟩
  · intro pieces hwf ht
    exact ⟨fillCampaignTemplate_pieces t c now pieces hwf ht,
      fillTemplateVariables_pieces t c now pieces hwf ht⟩
  · intro hno
    constructor
    · simp only [fillCampaignTemplate]
      rw [pyReplace_id t "{name}" _ (hno _ (by simp)),
          pyReplace_id t "{company}" _ (hno _ (by simp)),
          pyReplace_id t "{role}" _ (hno _ (by simp)),
          pyReplace_id t "{phone}" _ (hno _ (by simp)),
          pyReplace_id t "{date}" _ (hno _ (by simp)),
          pyReplace_id t "{time}" _ (hno _ (by simp))]
    · simp only [fillTemplateVariables]
      rw [pyReplace_id t "{name}" _ (hno _ (by simp)),
          pyReplace_id t "{company}" _ (hno _ (by simp)),
          pyReplace_id t "{role}" _ (hno _ (by simp)),
          pyReplace_id t "{phone}" _ (hno _ (by simp)),
          pyReplace_id t "{date}" _ (hno _ (by simp)),
          pyReplace_id t "{time}" _ (hno _ (by simp))]
  · rfl
  · rfl
  · exact noDoubleSpace_of_part (pyStripCh_part _) (noDoubleSpace_collapseSpaces _)
  · exact noDoubleSpace_of_part (pyStripCh_part _) (noDoubleSpace_collapseSpaces _)
  · intro ch h
    exact pyStripCh_first h
  · intro ch h
    exact pyStripCh_last h
  · intro ch h
    exact pyStripCh_first h
  · intro ch h
    exact pyStripCh_last h
  · intro t₂ c₂ now₂ h1 h2 h3
    rw [h1, h2, h3]
    exact ⟨rfl, rfl⟩

/-- Witness for C9: a template with one placeholder, a literal head and a
literal tail, on a contact whose `contact_name` and `name` differ — the
campaign renderer substitutes `contact_name` ("Ann"), the bulk renderer
`name` ("Bob"). -/
theorem c9_template_rendering_witness :
    (fillCampaignTemplate "Hi {name}!" { contactName := some "Ann", name := some "Bob" } 0 =
      String.mk (pyStripCh (collapseSpaces (substPieces
        (campaignValue { contactName := some "Ann", name := some "Bob" } 0)
        [TemplatePiece.lit "Hi ".data, TemplatePiece.ph "{name}".data,
         TemplatePiece.lit "!".data])))) ∧
    (fillTemplateVariables "Hi {name}!" { contactName := some "Ann", name := some "Bob" } 0 =
      String.mk (pyStripCh (collapseSpaces (substPieces
        (bulkValue { contactName := some "Ann", name := some "Bob" } 0)
        [TemplatePiece.lit "Hi ".data, TemplatePiece.ph "{name}".data,
         TemplatePiece.lit "!".data])))) ∧
    fillCampaignTemplate "Hi {name}!" { contactName := some "Ann", name := some "Bob" } 0 = "Hi Ann!" ∧
    fillTemplateVariables "Hi {name}!" { contactName := some "Ann", name := some "Bob" } 0 = "Hi Bob!" := by
  have h1 := (((c9_template_rendering "Hi {name}!"
      { contactName := some "Ann", name := some "Bob" } 0).1
      [TemplatePiece.lit "Hi ".data, TemplatePiece.ph "{name}".data,
       TemplatePiece.lit "!".data] (by decide) (by decide)).1 (by decide))
  have h2 := (((c9_template_rendering "Hi {name}!"
      { contactName := some "Ann", name := some "Bob" } 0).1
      [TemplatePiece.lit "Hi ".data, TemplatePiece.ph "{name}".data,
       TemplatePiece.lit "!".data] (by decide) (by decide)).2 (by decide))
  exact ⟨h1, h2, h1.trans (by decide), h2.trans (by decide)⟩

/-! ## C8: enrollment uniqueness -/

theorem enrollStep_counts (cid : Nat) (hasAb : Bool) (ex : List String)
    (choose : Nat → String) (acc : DB × Nat × List String) (c : Contact) (p : String) :
    countEnrolled acc.1 cid p ≤
      countEnrolled (enrollStep cid hasAb ex choose acc c).1 cid p ∧
    countEnrolled (enrollStep cid hasAb ex choose acc c).1 cid p ≤
      max (countEnrolled acc.1 cid p) 1 := by
  unfold enrollStep
  split
  · exact ⟨Nat.le_refl _, Nat.le_max_left _ _⟩
  · rename_i p0 hph
    by_cases h1 : (ex.contains p0 || acc.2.2.contains p0) = true
    · rw [if_pos h1]
      exact ⟨Nat.le_refl _, Nat.le_max_left _ _⟩
    · rw [if_neg h1]
      by_cases h2 : (acc.1.enrollments.any
          (fun e => e.campaignId == cid && e.phoneNumber == p0)) = true
      · rw [if_pos h2]
        exact ⟨Nat.le_refl _, Nat.le_max_left _ _⟩
      · rw [if_neg h2]
        have h2f : (acc.1.enrollments.any
            (fun e => e.campaignId == cid && e.phoneNumber == p0)) = false := by
          simpa using h2
        have hzero : (List.filter (fun e => e.campaignId == cid && e.phoneNumber == p0)
            acc.1.enrollments).length = 0 := by
          rw [List.any_eq_false] at h2f
          rw [List.filter_eq_nil_iff.mpr h2f]
          rfl
        by_cases hp : p = p0
        · subst hp
          simp only [countEnrolled, List.filter_append, List.length_append,
            List.filter_cons, List.filter_nil, beq_self_eq_true, Bool.true_and,
            Bool.and_self, if_true, List.length_cons, List.length_nil]
          rw [hzero]
          exact ⟨by omega, by simp⟩
        · have hne : (p0 == p) = false := by
            simp only [beq_eq_false_iff_ne, ne_eq]
            exact fun h => hp h.symm
          simp only [countEnrolled, List.filter_append, List.length_append,
            List.filter_cons, List.filter_nil, beq_self_eq_true, Bool.true_and, hne,
            Bool.false_eq_true, if_false, List.length_nil]
          exact ⟨by omega, by
            have := Nat.le_max_left (List.filter
              (fun e => e.campaignId == cid && e.phoneNumber == p)
              acc.1.enrollments).length 1
            omega⟩

theorem enrollFold_counts (cid : Nat) (hasAb : Bool) (ex : List String)
    (choose : Nat → String) :
    ∀ (L : List Contact) (acc : DB × Nat × List String) (p : String),
      countEnrolled acc.1 cid p ≤
        countEnrolled (L.foldl (enrollStep cid hasAb ex choose) acc).1 cid p ∧
      countEnrolled (L.foldl (enrollStep cid hasAb ex choose) acc).1 cid p ≤
        max (countEnrolled acc.1 cid p) 1 := by
  intro L
  induction L with
  | nil =>
    intro acc p
    exact ⟨Nat.le_refl _, Nat.le_max_left _ _⟩
  | cons c L ih =>
    intro acc p
    have hstep := enrollStep_counts cid hasAb ex choose acc c p
    have hind := ih (enrollStep cid hasAb ex choose acc c) p
    refine ⟨Nat.le_trans hstep.1 hind.1, Nat.le_trans hind.2 ?_⟩
    exact Nat.max_le.mpr ⟨hstep.2, Nat.le_max_right _ _⟩

/-- C8.  Enrollment uniqueness: `enroll_contacts` never raises on a found
campaign, never removes an enrollment, and leaves every (campaign, phone)
pair with at most one row whenever it had at most one before — in
particular a phone that already has a row (whether from this batch or a
previous call) is silently skipped, and a phone enrolled twice within one
batch yields one row. -/
theorem c8_enrollment_uniqueness (db : DB) (cid : Nat) (contacts : List Contact)
    (excludePhones : List String) (choose : Nat → String) (c : Campaign)
    (hc : findCampaign db cid = some c) :
    ∃ db' n, enrollContacts db cid contacts excludePhones choose = .ok (db', n) ∧
      ∀ p, countEnrolled db cid p ≤ countEnrolled db' cid p ∧
        countEnrolled db' cid p ≤ max (countEnrolled db cid p) 1 := by
  simp only [enrollContacts, hc]
  by_cases hemp : contacts.isEmpty
  · rw [if_pos hemp]
    exact ⟨db, 0, rfl, fun p => ⟨Nat.le_refl _, Nat.le_max_left _ _⟩⟩
  · rw [if_neg hemp]
    refine ⟨_, _, rfl, ?_⟩
    intro p
    exact enrollFold_counts cid _ excludePhones choose contacts (db, 0, []) p

/-- Witness for C8: enrolling the same phone twice in one call (for
example once from the filter path and once manually) against a campaign
that already has that phone enrolled. -/
theorem c8_enrollment_uniqueness_witness :
    ∃ db' n, enrollContacts dbOneCampaign 1
        [{ name := some "Ann", phone := some "5551234567" },
         { name := some "Ann b", phoneNumber := some "(555) 123-4567" }]
        [] (fun _ => "A") = .ok (db', n) ∧
      ∀ p, countEnrolled dbOneCampaign 1 p ≤ countEnrolled db' 1 p ∧
        countEnrolled db' 1 p ≤ max (countEnrolled dbOneCampaign 1 p) 1 :=
  c8_enrollment_uniqueness dbOneCampaign 1 _ [] (fun _ => "A")
    { id := 1, name := "camp", status := "active", defaultSendTime := none } (by rfl)

/-! ## Send-shape lemmas for the two scheduler passes -/

theorem sends_updateEnrollment (db : DB) (i : Nat)
    (f : CampaignEnrollment → CampaignEnrollment) :
    (updateEnrollment db i f).sends = db.sends := rfl

theorem sends_updateCampaign (db : DB) (i : Nat) (f : Campaign → Campaign) :
    (updateCampaign db i f).sends = db.sends := rfl

theorem sends_updateABTestByMessage (db : DB) (i : Nat)
    (f : CampaignABTest → CampaignABTest) :
    (updateABTestByMessage db i f).sends = db.sends := rfl

theorem sends_completeCampaignInTick (db : DB) (cid t : Nat) :
    (completeCampaignInTick db cid t).sends = db.sends := rfl

theorem countScheduledIn_append (a b : List CampaignSend) (eid mid : Nat) :
    countScheduledIn (a ++ b) eid mid =
      countScheduledIn a eid mid + countScheduledIn b eid mid := by
  unfold countScheduledIn
  rw [List.filter_append, List.length_append]

theorem countFollowupIn_append (a b : List CampaignSend) (eid mid : Nat) :
    countFollowupIn (a ++ b) eid mid =
      countFollowupIn a eid mid + countFollowupIn b eid mid := by
  unfold countFollowupIn
  rw [List.filter_append, List.length_append]

theorem countScheduledIn_pos {l : List CampaignSend} {eid mid : Nat}
    (h : 0 < countScheduledIn l eid mid) :
    ∃ y ∈ l, y.enrollmentId = eid ∧ y.campaignMessageId = mid ∧
      y.messageType = "scheduled" := by
  unfold countScheduledIn at h
  have hne : l.filter (fun s => s.enrollmentId == eid && s.campaignMessageId == mid &&
      s.messageType == "scheduled") ≠ [] := by
    intro hnil
    rw [hnil] at h
    cases h
  obtain ⟨y, hy⟩ := List.exists_mem_of_ne_nil _ hne
  have hmem := List.mem_filter.mp hy
  refine ⟨y, hmem.1, ?_⟩
  have hp := hmem.2
  simp only [Bool.and_eq_true, beq_iff_eq] at hp
  exact ⟨hp.1.1, hp.1.2, hp.2⟩

theorem countFollowupIn_pos {l : List CampaignSend} {eid mid : Nat}
    (h : 0 < countFollowupIn l eid mid) :
    ∃ y ∈ l, y.enrollmentId = eid ∧ y.campaignMessageId = mid ∧
      y.messageType = "followup" := by
  unfold countFollowupIn at h
  have hne : l.filter (fun s => s.enrollmentId == eid && s.campaignMessageId == mid &&
      s.messageType == "followup") ≠ [] := by
    intro hnil
    rw [hnil] at h
    cases h
  obtain ⟨y, hy⟩ := List.exists_mem_of_ne_nil _ hne
  have hmem := List.mem_filter.mp hy
  refine ⟨y, hmem.1, ?_⟩
  have hp := hmem.2
  simp only [Bool.and_eq_true, beq_iff_eq] at hp
  exact ⟨hp.1.1, hp.1.2, hp.2⟩

theorem dayStartUtc_le (t : Nat) : dayStartUtc t ≤ t := Nat.div_mul_le_self t minutesPerDay

theorem dayStartUtc_eq_of_dayOf {t₁ t₂ : Nat} (h : dayOf t₁ = dayOf t₂) :
    dayStartUtc t₁ = dayStartUtc t₂ := by
  show dayOf t₁ * minutesPerDay = dayOf t₂ * minutesPerDay
  rw [h]

theorem sends_sendBranch (c1 c2 : Prop) [Decidable c1] [Decidable c2] (db1 : DB)
    (i1 : Nat) (f1 : CampaignEnrollment → CampaignEnrollment) (i2 : Nat)
    (f2 : CampaignABTest → CampaignABTest) :
    (if c1 then
        (if c2 then updateABTestByMessage (updateEnrollment db1 i1 f1) i2 f2
          else updateEnrollment db1 i1 f1)
      else db1).sends = db1.sends := by
  split
  · split
    · rfl
    · rfl
  · rfl

/-- `_send_campaign_message` either leaves the send table unchanged or —
only when no same-UTC-day `scheduled` send for the pair exists — appends
exactly one `scheduled` row for the pair, created at the tick time. -/
theorem sendCampaignMessage_sends (db : DB) (camp : Campaign) (m : CampaignMessage)
    (e : CampaignEnrollment) (t : Nat) (o : SendOracle) :
    (sendCampaignMessage db camp m e t o).sends = db.sends ∨
    ((db.sends.any (fun s => s.enrollmentId == e.id && s.campaignMessageId == m.id &&
        s.messageType == "scheduled" && decide (dayStartUtc t ≤ s.createdAt))) = false ∧
      ∃ snd, (sendCampaignMessage db camp m e t o).sends = db.sends ++ [snd] ∧
        snd.enrollmentId = e.id ∧ snd.campaignMessageId = m.id ∧
        snd.messageType = "scheduled" ∧ snd.createdAt = t) := by
  simp only [sendCampaignMessage]
  by_cases hex : (db.sends.any (fun s => s.enrollmentId == e.id &&
      s.campaignMessageId == m.id && s.messageType == "scheduled" &&
      decide (dayStartUtc t ≤ s.createdAt))) = true
  · rw [if_pos hex]
    exact Or.inl rfl
  · rw [if_neg hex]
    refine Or.inr ⟨by simpa using hex, ?_⟩
    exact ⟨_, sends_sendBranch _ _ _ _ _ _ _, rfl, rfl, rfl, rfl⟩

/-- One enrollment-loop iteration of `_process_campaign`, seen through the
send table. -/
theorem processCampaignStep_sends (camp : Campaign) (msgs : List CampaignMessage)
    (t : Nat) (o : SendOracle) (acc : DB × Bool) (e : CampaignEnrollment) :
    (processCampaignStep camp msgs t o acc e).1.sends = acc.1.sends ∨
    ((acc.1.sends.any (fun s => s.enrollmentId == e.id &&
        s.campaignMessageId == (msgs.get? e.currentStep).elim 0 CampaignMessage.id &&
        s.messageType == "scheduled" && decide (dayStartUtc t ≤ s.createdAt))) = false ∧
      ∃ snd, (processCampaignStep camp msgs t o acc e).1.sends = acc.1.sends ++ [snd] ∧
        snd.enrollmentId = e.id ∧
        snd.campaignMessageId = (msgs.get? e.currentStep).elim 0 CampaignMessage.id ∧
        snd.messageType = "scheduled" ∧ snd.createdAt = t) := by
  by_cases hlen : msgs.length < e.currentStep + 1
  · simp only [processCampaignStep, if_pos hlen]
    exact Or.inl (sends_updateEnrollment _ _ _)
  · cases hget : msgs.get? (e.currentStep + 1 - 1) with
    | none =>
      simp only [processCampaignStep, if_neg hlen, hget]
      exact Or.inl trivial
    | some m =>
      have hget' : msgs.get? e.currentStep = some m := by
        simpa using hget
      by_cases hdue : shouldSendMessage e m t = true
      · simp only [processCampaignStep, if_neg hlen, hget, if_pos hdue]
        rcases sendCampaignMessage_sends acc.1 camp m e t o with h | ⟨hany, snd, hs, h1, h2, h3, h4⟩
        · exact Or.inl h
        · refine Or.inr ⟨?_, snd, hs, h1, ?_, h3, h4⟩
          · rw [hget']
            exact hany
          · rw [hget']
            exact h2
      · simp only [processCampaignStep, if_neg hlen, hget, if_neg hdue]
        exact Or.inl trivial

theorem countScheduledIn_cons (s : CampaignSend) (l : List CampaignSend) (eid mid : Nat) :
    countScheduledIn (s :: l) eid mid =
      (if (s.enrollmentId == eid && s.campaignMessageId == mid &&
          s.messageType == "scheduled") = true then 1 else 0) +
        countScheduledIn l eid mid := by
  simp only [countScheduledIn, List.filter_cons]
  by_cases hp : (s.enrollmentId == eid && s.campaignMessageId == mid &&
      s.messageType == "scheduled") = true
  · rw [if_pos hp, if_pos hp, List.length_cons]
    omega
  · rw [if_neg hp, if_neg hp]
    omega

/-- Invariant of `_process_campaign`'s enrollment loop, for one fixed
(enrollment, message) pair: the loop only appends `scheduled` rows created
at the tick time, appends at most one row for the pair, and appends one
only if the accumulator held no same-UTC-day `scheduled` row for the
pair. -/
theorem processFold_sends (camp : Campaign) (msgs : List CampaignMessage) (t : Nat)
    (o : SendOracle) (eid mid : Nat) :
    ∀ (es : List CampaignEnrollment) (acc : DB × Bool),
    ∃ app, (es.foldl (processCampaignStep camp msgs t o) acc).1.sends =
        acc.1.sends ++ app ∧
      (∀ s ∈ app, s.messageType = "scheduled" ∧ s.createdAt = t) ∧
      countScheduledIn app eid mid ≤ 1 ∧
      (0 < countScheduledIn app eid mid →
        (acc.1.sends.any (fun s => s.enrollmentId == eid && s.campaignMessageId == mid &&
          s.messageType == "scheduled" && decide (dayStartUtc t ≤ s.createdAt))) = false) := by
  intro es
  induction es with
  | nil =>
    intro acc
    exact ⟨[], by simp, by simp, by simp [countScheduledIn],
      by simp [countScheduledIn]⟩
  | cons e es ih =>
    intro acc
    rw [List.foldl_cons]
    rcases processCampaignStep_sends camp msgs t o acc e with hunch |
        ⟨hany, snd, hsnd, h1, h2, h3, h4⟩
    · obtain ⟨app, ha, hb, hc, hd⟩ := ih (processCampaignStep camp msgs t o acc e)
      refine ⟨app, ?_, hb, hc, ?_⟩
      · rw [ha, hunch]
      · intro hpos
        have hz := hd hpos
        rwa [hunch] at hz
    · obtain ⟨app, ha, hb, hc, hd⟩ := ih (processCampaignStep camp msgs t o acc e)
      by_cases hm : (snd.enrollmentId == eid && snd.campaignMessageId == mid &&
          snd.messageType == "scheduled") = true
      · have hm' := hm
        simp only [Bool.and_eq_true, beq_iff_eq] at hm'
        obtain ⟨⟨hm1, hm2⟩, hm3⟩ := hm'
        have happ0 : countScheduledIn app eid mid = 0 := by
          by_contra hne
          have hpos : 0 < countScheduledIn app eid mid := Nat.pos_of_ne_zero hne
          have hfalse := hd hpos
          rw [hsnd, List.any_append] at hfalse
          simp only [List.any_cons, List.any_nil, Bool.or_false] at hfalse
          have hps : (snd.enrollmentId == eid && snd.campaignMessageId == mid &&
              snd.messageType == "scheduled" &&
              decide (dayStartUtc t ≤ snd.createdAt)) = true := by
            rw [hm1, hm2, hm3, h4]
            simp [dayStartUtc_le]
          rw [hps] at hfalse
          simp at hfalse
        refine ⟨snd :: app, ?_, ?_, ?_, ?_⟩
        · rw [ha, hsnd, List.append_assoc]
          rfl
        · intro x hx
          rcases List.mem_cons.mp hx with hx | hx
          · subst hx
            exact ⟨hm3, h4⟩
          · exact hb x hx
        · rw [countScheduledIn_cons, if_pos hm, happ0]
        · intro _
          have heid : e.id = eid := h1.symm.trans hm1
          have hmid : (msgs.get? e.currentStep).elim 0 CampaignMessage.id = mid :=
            h2.symm.trans hm2
          rwa [heid, hmid] at hany
      · refine ⟨snd :: app, ?_, ?_, ?_, ?_⟩
        · rw [ha, hsnd, List.append_assoc]
          rfl
        · intro x hx
          rcases List.mem_cons.mp hx with hx | hx
          · subst hx
            exact ⟨h3, h4⟩
          · exact hb x hx
        · rw [countScheduledIn_cons, if_neg hm]
          simpa using hc
        · intro hpos
          rw [countScheduledIn_cons, if_neg hm] at hpos
          have hfalse := hd (by simpa using hpos)
          rw [hsnd, List.any_append] at hfalse
          exact (Bool.or_eq_false_iff.mp hfalse).1

theorem sendsApp_nil (base d : List CampaignSend) (t eid mid : Nat) (P : Prop)
    (h : d = base) :
    ∃ app, d = base ++ app ∧
      (∀ s ∈ app, s.messageType = "scheduled" ∧ s.createdAt = t) ∧
      countScheduledIn app eid mid ≤ 1 ∧
      (0 < countScheduledIn app eid mid → P) :=
  ⟨[], by simp [h], by simp, by simp [countScheduledIn], by simp [countScheduledIn]⟩

/-- `processCampaignCore` seen through the send table, for one fixed
pair. -/
theorem processCampaignCore_sends (db : DB) (camp : Campaign)
    (msgs : List CampaignMessage) (t : Nat) (sms : SendOracle) (eid mid : Nat) :
    ∃ app, (processCampaignCore db camp msgs t sms).sends = db.sends ++ app ∧
      (∀ s ∈ app, s.messageType = "scheduled" ∧ s.createdAt = t) ∧
      countScheduledIn app eid mid ≤ 1 ∧
      (0 < countScheduledIn app eid mid →
        (db.sends.any (fun s => s.enrollmentId == eid && s.campaignMessageId == mid &&
          s.messageType == "scheduled" && decide (dayStartUtc t ≤ s.createdAt))) = false) := by
  by_cases hemp : (db.enrollments.filter (fun e => e.campaignId == camp.id &&
      (e.status == "active" || e.status == "engaged"))).isEmpty
  · refine sendsApp_nil _ _ _ _ _ _ ?_
    simp only [processCampaignCore, if_pos hemp]
    exact sends_completeCampaignInTick _ _ _
  · obtain ⟨app, ha, hb, hc, hd⟩ := processFold_sends camp msgs t sms eid mid
      (db.enrollments.filter (fun e => e.campaignId == camp.id &&
        (e.status == "active" || e.status == "engaged"))) (db, true)
    refine ⟨app, ?_, hb, hc, hd⟩
    simp only [processCampaignCore, if_neg hemp]
    split
    · rw [sends_completeCampaignInTick]
      exact ha
    · exact ha

/-- `_process_campaign` seen through the send table, for one fixed
(enrollment, message) pair: the pass only appends `scheduled` rows created
at the tick time, appends at most one row for the pair, and appends one
only when no `scheduled` row for the pair created at or after UTC
midnight of the tick already existed. -/
theorem processCampaign_sends (db : DB) (cid t : Nat) (sms : SendOracle)
    (eid mid : Nat) :
    ∃ app, (processCampaign db cid t sms).sends = db.sends ++ app ∧
      (∀ s ∈ app, s.messageType = "scheduled" ∧ s.createdAt = t) ∧
      countScheduledIn app eid mid ≤ 1 ∧
      (0 < countScheduledIn app eid mid →
        (db.sends.any (fun s => s.enrollmentId == eid && s.campaignMessageId == mid &&
          s.messageType == "scheduled" && decide (dayStartUtc t ≤ s.createdAt))) = false) := by
  cases hfc : findCampaign db cid with
  | none =>
    refine sendsApp_nil _ _ _ _ _ _ ?_
    simp only [processCampaign, hfc]
  | some camp =>
    by_cases hst : camp.status ≠ "active"
    · refine sendsApp_nil _ _ _ _ _ _ ?_
      simp only [processCampaign, hfc, if_pos hst]
    · by_cases hmsgs : (campaignMessagesSorted db cid).isEmpty
      · refine sendsApp_nil _ _ _ _ _ _ ?_
        simp only [processCampaign, hfc, if_neg hst, if_pos hmsgs]
      · cases hdue : sendTimeDue (pyOrS camp.defaultSendTime "11:00") t with
        | none =>
          refine sendsApp_nil _ _ _ _ _ _ ?_
          simp only [processCampaign, hfc, if_neg hst, if_neg hmsgs, hdue]
        | some b =>
          cases b with
          | false =>
            refine sendsApp_nil _ _ _ _ _ _ ?_
            simp only [processCampaign, hfc, if_neg hst, if_neg hmsgs, hdue]
          | true =>
            have hshape : processCampaign db cid t sms =
                processCampaignCore db camp (campaignMessagesSorted db cid) t sms := by
              simp only [processCampaign, hfc, if_neg hst, if_neg hmsgs, hdue]
            rw [hshape]
            exact processCampaignCore_sends db camp _ t sms eid mid

/-- C1 counterexample: the idempotence window is the UTC day, not the
local (Eastern) day.  Two passes at 23:50 UTC and 00:10 UTC — 18:50 and
19:10 Eastern of the *same* local day — create two `scheduled` sends for
the one (enrollment, message) pair, because the skip-check compares
against UTC midnight, which falls between the two ticks. -/
theorem c1_counterexample_local_midnight :
    dayOf (easternOf tEveningUtc) = dayOf (easternOf tAfterUtcMidnight) ∧
    tEveningUtc ≤ tAfterUtcMidnight ∧
    countScheduled dbOneCampaign 1 1 = 0 ∧
    countScheduled (processCampaign (processCampaign dbOneCampaign 1 tEveningUtc
      smsAlwaysFail) 1 tAfterUtcMidnight smsAlwaysFail) 1 1 = 2 := by
  refine ⟨rfl, by decide, rfl, ?_⟩
  rfl

/-- C1 (amended): idempotent tick per **UTC** day.  For every
(enrollment, message) pair, two campaign-processing passes within the
same UTC day add at most one `scheduled` send for the pair in total; if
the first pass created the pair's send, the second creates none; and a
pass creates nothing for a pair that already has a `scheduled` send
created at or after UTC midnight of the tick. -/
theorem c1_utc_day_idempotence (db : DB) (cid t₁ t₂ : Nat) (sms₁ sms₂ : SendOracle)
    (eid mid : Nat) (hle : t₁ ≤ t₂) (hday : dayOf t₁ = dayOf t₂) :
    countScheduled (processCampaign (processCampaign db cid t₁ sms₁) cid t₂ sms₂) eid mid
      ≤ countScheduled db eid mid + 1 ∧
    (countScheduled db eid mid < countScheduled (processCampaign db cid t₁ sms₁) eid mid →
      countScheduled (processCampaign (processCampaign db cid t₁ sms₁) cid t₂ sms₂) eid mid
        = countScheduled (processCampaign db cid t₁ sms₁) eid mid) ∧
    ((∃ s ∈ db.sends, s.enrollmentId = eid ∧ s.campaignMessageId = mid ∧
        s.messageType = "scheduled" ∧ dayStartUtc t₁ ≤ s.createdAt) →
      countScheduled (processCampaign db cid t₁ sms₁) eid mid
        = countScheduled db eid mid) := by
  obtain ⟨app₁, ha₁, hb₁, hc₁, hd₁⟩ := processCampaign_sends db cid t₁ sms₁ eid mid
  obtain ⟨app₂, ha₂, hb₂, hc₂, hd₂⟩ :=
    processCampaign_sends (processCampaign db cid t₁ sms₁) cid t₂ sms₂ eid mid
  have hcount₁ : countScheduled (processCampaign db cid t₁ sms₁) eid mid
      = countScheduled db eid mid + countScheduledIn app₁ eid mid := by
    unfold countScheduled
    rw [ha₁, countScheduledIn_append]
  have hcount₂ : countScheduled (processCampaign (processCampaign db cid t₁ sms₁)
        cid t₂ sms₂) eid mid
      = countScheduled (processCampaign db cid t₁ sms₁) eid mid
        + countScheduledIn app₂ eid mid := by
    unfold countScheduled
    rw [ha₂, countScheduledIn_append]
  have hkey : 0 < countScheduledIn app₁ eid mid → countScheduledIn app₂ eid mid = 0 := by
    intro hpos₁
    by_contra hne
    have hpos₂ : 0 < countScheduledIn app₂ eid mid := Nat.pos_of_ne_zero hne
    have hfalse := hd₂ hpos₂
    obtain ⟨y, hy, hy1, hy2, hy3⟩ := countScheduledIn_pos hpos₁
    have hyc : y.createdAt = t₁ := (hb₁ y hy).2
    have hymem : y ∈ (processCampaign db cid t₁ sms₁).sends := by
      rw [ha₁]
      exact List.mem_append_right _ hy
    have htrue : ((processCampaign db cid t₁ sms₁).sends.any (fun s =>
        s.enrollmentId == eid && s.campaignMessageId == mid &&
        s.messageType == "scheduled" && decide (dayStartUtc t₂ ≤ s.createdAt))) = true := by
      rw [List.any_eq_true]
      refine ⟨y, hymem, ?_⟩
      rw [hy1, hy2, hy3, hyc]
      have hd12 : dayStartUtc t₂ ≤ t₁ := by
        rw [← dayStartUtc_eq_of_dayOf hday]
        exact dayStartUtc_le t₁
      simp [hd12]
    rw [hfalse] at htrue
    cases htrue
  refine ⟨?_, ?_, ?_⟩
  · rcases Nat.eq_zero_or_pos (countScheduledIn app₁ eid mid) with h0 | hpos
    · omega
    · have h2 := hkey hpos
      omega
  · intro hlt
    have hpos : 0 < countScheduledIn app₁ eid mid := by omega
    have h2 := hkey hpos
    omega
  · rintro ⟨x, hx, hx1, hx2, hx3, hx4⟩
    have happ0 : countScheduledIn app₁ eid mid = 0 := by
      by_contra hne
      have hpos := Nat.pos_of_ne_zero hne
      have hfalse := hd₁ hpos
      have htrue : (db.sends.any (fun s =>
          s.enrollmentId == eid && s.campaignMessageId == mid &&
          s.messageType == "scheduled" && decide (dayStartUtc t₁ ≤ s.createdAt))) = true := by
        rw [List.any_eq_true]
        refine ⟨x, hx, ?_⟩
        rw [hx1, hx2, hx3]
        simp [hx4]
      rw [hfalse] at htrue
      cases htrue
    omega

/-- Witness for the amended C1 at a concrete input. -/
theorem c1_utc_day_idempotence_witness :
    countScheduled (processCampaign (processCampaign dbOneCampaign 1 tEveningUtc
        smsAlwaysFail) 1 tEveningUtc smsAlwaysFail) 1 1
      ≤ countScheduled dbOneCampaign 1 1 + 1 ∧
    (countScheduled dbOneCampaign 1 1 <
        countScheduled (processCampaign dbOneCampaign 1 tEveningUtc smsAlwaysFail) 1 1 →
      countScheduled (processCampaign (processCampaign dbOneCampaign 1 tEveningUtc
          smsAlwaysFail) 1 tEveningUtc smsAlwaysFail) 1 1
        = countScheduled (processCampaign dbOneCampaign 1 tEveningUtc smsAlwaysFail) 1 1) ∧
    ((∃ s ∈ dbOneCampaign.sends, s.enrollmentId = 1 ∧ s.campaignMessageId = 1 ∧
        s.messageType = "scheduled" ∧ dayStartUtc tEveningUtc ≤ s.createdAt) →
      countScheduled (processCampaign dbOneCampaign 1 tEveningUtc smsAlwaysFail) 1 1
        = countScheduled dbOneCampaign 1 1) :=
  c1_utc_day_idempotence dbOneCampaign 1 tEveningUtc tEveningUtc smsAlwaysFail
    smsAlwaysFail 1 1 (Nat.le_refl _) rfl

theorem find?_congr_fun {α : Type} {p q : α → Bool} (h : ∀ a, p a = q a)
    (l : List α) : l.find? p = l.find? q := by
  induction l with
  | nil => rfl
  | cons a l ih =>
    rw [List.find?_cons, List.find?_cons, h a, ih]

theorem find?_append_some {α : Type} {p : α → Bool} {l₁ : List α} (l₂ : List α)
    {a : α} (h : l₁.find? p = some a) : (l₁ ++ l₂).find? p = some a := by
  rw [List.find?_append, h]
  rfl

theorem firstScheduledIn_append_some {l : List CampaignSend} (app : List CampaignSend)
    {eid mid : Nat} {os : CampaignSend} (h : firstScheduledIn l eid mid = some os) :
    firstScheduledIn (l ++ app) eid mid = some os :=
  find?_append_some app h

theorem countFollowupIn_zero_of_scheduled {app : List CampaignSend}
    (h : ∀ s ∈ app, s.messageType = "scheduled") (eid mid : Nat) :
    countFollowupIn app eid mid = 0 := by
  unfold countFollowupIn
  rw [List.length_eq_zero, List.filter_eq_nil_iff]
  intro s hs
  rw [h s hs]
  simp

theorem countFollowupIn_map_benign {g : CampaignSend → CampaignSend}
    (hg : SendRowBenign g) (l : List CampaignSend) (eid mid : Nat) :
    countFollowupIn (l.map g) eid mid = countFollowupIn l eid mid := by
  unfold countFollowupIn
  rw [← List.countP_eq_length_filter, ← List.countP_eq_length_filter,
    List.countP_map]
  refine List.countP_congr ?_
  intro s _
  obtain ⟨h1, h2, h3, _⟩ := hg s
  simp only [Function.comp_apply, h1, h2, h3]

theorem countScheduledIn_map_benign {g : CampaignSend → CampaignSend}
    (hg : SendRowBenign g) (l : List CampaignSend) (eid mid : Nat) :
    countScheduledIn (l.map g) eid mid = countScheduledIn l eid mid := by
  unfold countScheduledIn
  rw [← List.countP_eq_length_filter, ← List.countP_eq_length_filter,
    List.countP_map]
  refine List.countP_congr ?_
  intro s _
  obtain ⟨h1, h2, h3, _⟩ := hg s
  simp only [Function.comp_apply, h1, h2, h3]

theorem firstScheduledIn_map_benign {g : CampaignSend → CampaignSend}
    (hg : SendRowBenign g) (l : List CampaignSend) (eid mid : Nat) :
    firstScheduledIn (l.map g) eid mid = (firstScheduledIn l eid mid).map g := by
  unfold firstScheduledIn
  rw [List.find?_map]
  congr 1
  refine find?_congr_fun ?_ l
  intro s
  obtain ⟨h1, h2, h3, _⟩ := hg s
  simp only [Function.comp_apply, h1, h2, h3]

theorem respondedFirst_map_benign {g : CampaignSend → CampaignSend}
    (hg : SendRowBenign g) {l : List CampaignSend} {eid mid : Nat}
    (h : RespondedFirst l eid mid) : RespondedFirst (l.map g) eid mid := by
  obtain ⟨os, hos, hr⟩ := h
  refine ⟨g os, ?_, ?_⟩
  · rw [firstScheduledIn_map_benign hg, hos]
    rfl
  · rcases (hg os).2.2.2.2 with h' | h'
    · rw [h', hr]
    · exact h'

theorem respondedFirst_append {l : List CampaignSend} (app : List CampaignSend)
    {eid mid : Nat} (h : RespondedFirst l eid mid) :
    RespondedFirst (l ++ app) eid mid := by
  obtain ⟨os, hos, hr⟩ := h
  exact ⟨os, firstScheduledIn_append_some app hos, hr⟩

theorem countFollowupIn_cons (s : CampaignSend) (l : List CampaignSend) (eid mid : Nat) :
    countFollowupIn (s :: l) eid mid =
      (if (s.enrollmentId == eid && s.campaignMessageId == mid &&
          s.messageType == "followup") = true then 1 else 0) +
        countFollowupIn l eid mid := by
  simp only [countFollowupIn, List.filter_cons]
  by_cases hp : (s.enrollmentId == eid && s.campaignMessageId == mid &&
      s.messageType == "followup") = true
  · rw [if_pos hp, if_pos hp, List.length_cons]
    omega
  · rw [if_neg hp, if_neg hp]
    omega

/-- One `record_response` target update rewrites the send table by a
benign per-row map (it only marks one row's response as received). -/
theorem recordResponseStep_sends (now : Nat) (isOpt : Bool) (body : String)
    (db : DB) (e : CampaignEnrollment) :
    ∃ g, SendRowBenign g ∧
      (recordResponseStep now isOpt body db e).sends = db.sends.map g := by
  have hben_id : SendRowBenign id := fun s => ⟨rfl, rfl, rfl, rfl, Or.inl rfl⟩
  cases hlm : e.lastMessageId with
  | none =>
    refine ⟨id, hben_id, ?_⟩
    simp only [recordResponseStep, hlm]
    rw [List.map_id]
    split <;> rfl
  | some lmid =>
    simp only [recordResponseStep, hlm]
    split
    · refine ⟨id, hben_id, ?_⟩
      rw [List.map_id]
      split <;> rfl
    · rename_i s hs
      refine ⟨fun x => if x.id == s.id then
          { x with responseReceived := true, responseAt := some now } else x, ?_, ?_⟩
      · intro x
        dsimp only
        by_cases hx : (x.id == s.id) = true
        · rw [if_pos hx]
          exact ⟨rfl, rfl, rfl, rfl, Or.inr rfl⟩
        · rw [if_neg hx]
          exact ⟨rfl, rfl, rfl, rfl, Or.inl rfl⟩
      · split <;> rfl

/-- The `record_response` target loop rewrites the send table by a benign
per-row map. -/
theorem recordResponseFold_sends (now : Nat) (isOpt : Bool) (body : String) :
    ∀ (ts : List CampaignEnrollment) (db : DB),
    ∃ g, SendRowBenign g ∧
      (ts.foldl (recordResponseStep now isOpt body) db).sends = db.sends.map g := by
  intro ts
  induction ts with
  | nil =>
    intro db
    exact ⟨id, fun s => ⟨rfl, rfl, rfl, rfl, Or.inl rfl⟩, (List.map_id _).symm⟩
  | cons e ts ih =>
    intro db
    obtain ⟨g1, hg1, h1⟩ := recordResponseStep_sends now isOpt body db e
    obtain ⟨g2, hg2, h2⟩ := ih (recordResponseStep now isOpt body db e)
    refine ⟨g2 ∘ g1, ?_, ?_⟩
    · intro s
      obtain ⟨a1, a2, a3, a4, a5⟩ := hg1 s
      obtain ⟨b1, b2, b3, b4, b5⟩ := hg2 (g1 s)
      refine ⟨b1.trans a1, b2.trans a2, b3.trans a3, b4.trans a4, ?_⟩
      rcases b5 with b5 | b5
      · rcases a5 with a5 | a5
        · exact Or.inl (b5.trans a5)
        · exact Or.inr (b5.trans a5)
      · exact Or.inr b5
    · rw [List.foldl_cons, h2, h1, List.map_map]

/-- `record_response` rewrites the send table by a benign per-row map. -/
theorem recordResponse_sends (db : DB) (p b : String) (now : Nat) :
    ∃ g, SendRowBenign g ∧ (recordResponse db p b now).sends = db.sends.map g :=
  recordResponseFold_sends now (isOptOutBody b) b _ db

/-- One enrollment of `_process_followups`'s loop either leaves the send
table unchanged or — only when no `followup` row for the pair exists and
the pair's first `scheduled` row (if any) is unanswered — appends exactly
one `followup` row for the pair. -/
theorem processFollowupStep_sends (camp : Campaign) (t : Nat) (sms : SendOracle)
    (db : DB) (e : CampaignEnrollment) :
    (processFollowupStep camp t sms db e).sends = db.sends ∨
    ∃ m : CampaignMessage,
      (db.sends.any (fun s => s.enrollmentId == e.id && s.campaignMessageId == m.id &&
        s.messageType == "followup")) = false ∧
      (∀ os, firstScheduledIn db.sends e.id m.id = some os →
        os.responseReceived = false) ∧
      ∃ snd, (processFollowupStep camp t sms db e).sends = db.sends ++ [snd] ∧
        snd.enrollmentId = e.id ∧ snd.campaignMessageId = m.id ∧
        snd.messageType = "followup" := by
  cases hlm : e.lastMessageId with
  | none =>
    simp only [processFollowupStep, hlm]
    exact Or.inl trivial
  | some lmid =>
    cases hfm : db.messages.find? (fun m => m.id == lmid) with
    | none =>
      simp only [processFollowupStep, hlm, hfm]
      exact Or.inl trivial
    | some m =>
      by_cases hef : (!m.enableFollowup) = true
      · simp only [processFollowupStep, hlm, hfm, if_pos hef]
        exact Or.inl trivial
      · by_cases hds : (match e.lastMessageAt with
            | some lm => (t - lm) / minutesPerDay
            | none => 0) < m.followupDays
        · simp only [processFollowupStep, hlm, hfm, if_neg hef, if_pos hds]
          exact Or.inl trivial
        · by_cases hany : (db.sends.any (fun s => s.enrollmentId == e.id &&
              s.campaignMessageId == m.id && s.messageType == "followup")) = true
          · simp only [processFollowupStep, hlm, hfm, if_neg hef, if_neg hds, if_pos hany]
            exact Or.inl trivial
          · cases hos : db.sends.find? (fun s => s.enrollmentId == e.id &&
                s.campaignMessageId == m.id && s.messageType == "scheduled") with
            | none =>
              simp only [processFollowupStep, hlm, hfm, if_neg hef, if_neg hds,
                if_neg hany, hos]
              refine Or.inr ⟨m, by simpa using hany, ?_, ?_⟩
              · intro os h
                have h' : db.sends.find? (fun s => s.enrollmentId == e.id &&
                    s.campaignMessageId == m.id && s.messageType == "scheduled")
                    = some os := h
                rw [hos] at h'
                cases h'
              · exact ⟨_, rfl, rfl, rfl, rfl⟩
            | some os =>
              by_cases hresp : os.responseReceived = true
              · simp only [processFollowupStep, hlm, hfm, if_neg hef, if_neg hds,
                  if_neg hany, hos, if_pos hresp]
                exact Or.inl trivial
              · simp only [processFollowupStep, hlm, hfm, if_neg hef, if_neg hds,
                  if_neg hany, hos, if_neg hresp]
                refine Or.inr ⟨m, by simpa using hany, ?_, ?_⟩
                · intro os' h
                  have h' : db.sends.find? (fun s => s.enrollmentId == e.id &&
                      s.campaignMessageId == m.id && s.messageType == "scheduled")
                      = some os' := h
                  rw [hos] at h'
                  cases h'
                  simpa using hresp
                · exact ⟨_, rfl, rfl, rfl, rfl⟩

/-- Invariant of `_process_followups`'s loop for one fixed pair: only
`followup` rows are appended, at most one for the pair, and one only if
the pair had no `followup` row yet and its first `scheduled` row (if any)
was unanswered at loop entry. -/
theorem processFollowupFold_sends (camp : Campaign) (t : Nat) (sms : SendOracle)
    (eid mid : Nat) :
    ∀ (es : List CampaignEnrollment) (db : DB),
    ∃ app, (es.foldl (processFollowupStep camp t sms) db).sends = db.sends ++ app ∧
      (∀ s ∈ app, s.messageType = "followup") ∧
      countFollowupIn app eid mid ≤ 1 ∧
      (0 < countFollowupIn app eid mid →
        (db.sends.any (fun s => s.enrollmentId == eid && s.campaignMessageId == mid &&
          s.messageType == "followup")) = false ∧
        (∀ os, firstScheduledIn db.sends eid mid = some os →
          os.responseReceived = false)) := by
  intro es
  induction es with
  | nil =>
    intro db
    exact ⟨[], by simp, by simp, by simp [countFollowupIn],
      by simp [countFollowupIn]⟩
  | cons e es ih =>
    intro db
    rw [List.foldl_cons]
    rcases processFollowupStep_sends camp t sms db e with hunch |
        ⟨m, hany, hfs, snd, hsnd, h1, h2, h3⟩
    · obtain ⟨app, ha, hb, hc, hd⟩ := ih (processFollowupStep camp t sms db e)
      refine ⟨app, ?_, hb, hc, ?_⟩
      · rw [ha, hunch]
      · intro hpos
        have hz := hd hpos
        rwa [hunch] at hz
    · obtain ⟨app, ha, hb, hc, hd⟩ := ih (processFollowupStep camp t sms db e)
      by_cases hm : (snd.enrollmentId == eid && snd.campaignMessageId == mid &&
          snd.messageType == "followup") = true
      · have hm' := hm
        simp only [Bool.and_eq_true, beq_iff_eq] at hm'
        obtain ⟨⟨hm1, hm2⟩, hm3⟩ := hm'
        have heid : e.id = eid := h1.symm.trans hm1
        have hmid : m.id = mid := h2.symm.trans hm2
        have happ0 : countFollowupIn app eid mid = 0 := by
          by_contra hne
          have hpos : 0 < countFollowupIn app eid mid := Nat.pos_of_ne_zero hne
          have hfalse := (hd hpos).1
          rw [hsnd, List.any_append] at hfalse
          simp only [List.any_cons, List.any_nil, Bool.or_false] at hfalse
          rw [hm] at hfalse
          simp at hfalse
        refine ⟨snd :: app, ?_, ?_, ?_, ?_⟩
        · rw [ha, hsnd, List.append_assoc]
          rfl
        · intro x hx
          rcases List.mem_cons.mp hx with hx | hx
          · subst hx
            exact h3
          · exact hb x hx
        · rw [countFollowupIn_cons, if_pos hm, happ0]
        · intro _
          constructor
          · rwa [heid, hmid] at hany
          · intro os hos
            refine hfs os ?_
            rwa [heid, hmid]
      · refine ⟨snd :: app, ?_, ?_, ?_, ?_⟩
        · rw [ha, hsnd, List.append_assoc]
          rfl
        · intro x hx
          rcases List.mem_cons.mp hx with hx | hx
          · subst hx
            exact h3
          · exact hb x hx
        · rw [countFollowupIn_cons, if_neg hm]
          simpa using hc
        · intro hpos
          rw [countFollowupIn_cons, if_neg hm] at hpos
          have hd' := hd (by simpa using hpos)
          constructor
          · have hfalse := hd'.1
            rw [hsnd, List.any_append] at hfalse
            exact (Bool.or_eq_false_iff.mp hfalse).1
          · intro os hos
            refine hd'.2 os ?_
            rw [hsnd]
            exact firstScheduledIn_append_some _ hos

theorem followApp_nil (base d : List CampaignSend) (eid mid : Nat) (P : Prop)
    (h : d = base) :
    ∃ app, d = base ++ app ∧ (∀ s ∈ app, s.messageType = "followup") ∧
      countFollowupIn app eid mid ≤ 1 ∧ (0 < countFollowupIn app eid mid → P) :=
  ⟨[], by simp [h], by simp, by simp [countFollowupIn], by simp [countFollowupIn]⟩

theorem countFollowupIn_eq_zero_of_any_false {l : List CampaignSend} {eid mid : Nat}
    (h : (l.any (fun s => s.enrollmentId == eid && s.campaignMessageId == mid &&
      s.messageType == "followup")) = false) :
    countFollowupIn l eid mid = 0 := by
  unfold countFollowupIn
  rw [List.length_eq_zero, List.filter_eq_nil_iff]
  exact List.any_eq_false.mp h

/-- `_process_followups` seen through the send table, for one fixed
pair. -/
theorem processFollowups_sends (db : DB) (cid t : Nat) (sms : SendOracle)
    (eid mid : Nat) :
    ∃ app, (processFollowups db cid t sms).sends = db.sends ++ app ∧
      (∀ s ∈ app, s.messageType = "followup") ∧
      countFollowupIn app eid mid ≤ 1 ∧
      (0 < countFollowupIn app eid mid →
        (db.sends.any (fun s => s.enrollmentId == eid && s.campaignMessageId == mid &&
          s.messageType == "followup")) = false ∧
        (∀ os, firstScheduledIn db.sends eid mid = some os →
          os.responseReceived = false)) := by
  cases hfc : findCampaign db cid with
  | none =>
    refine followApp_nil _ _ _ _ _ ?_
    simp only [processFollowups, hfc]
  | some camp =>
    by_cases hst : camp.status ≠ "active"
    · refine followApp_nil _ _ _ _ _ ?_
      simp only [processFollowups, hfc, if_pos hst]
    · cases hdue : sendTimeDue (pyOrS camp.defaultSendTime "11:00") t with
      | none =>
        refine followApp_nil _ _ _ _ _ ?_
        simp only [processFollowups, hfc, if_neg hst, hdue]
      | some b =>
        cases b with
        | false =>
          refine followApp_nil _ _ _ _ _ ?_
          simp only [processFollowups, hfc, if_neg hst, hdue]
        | true =>
          have hshape : processFollowups db cid t sms =
              processFollowupsCore db camp t sms := by
            simp only [processFollowups, hfc, if_neg hst, hdue]
          rw [hshape]
          exact processFollowupFold_sends camp t sms eid mid _ db

/-- One automated operation preserves "the pair's first scheduled send is
answered and the pair has no follow-up send". -/
theorem applyOp_preserves_supp (db : DB) (op : Op) (eid mid : Nat)
    (h1 : RespondedFirst db.sends eid mid) (h2 : countFollowup db eid mid = 0) :
    RespondedFirst (applyOp db op).sends eid mid ∧
      countFollowup (applyOp db op) eid mid = 0 := by
  have h2' : countFollowupIn db.sends eid mid = 0 := h2
  cases op with
  | tick cid t sms =>
    obtain ⟨app, ha, hb, _, _⟩ := processCampaign_sends db cid t sms eid mid
    constructor
    · show RespondedFirst (processCampaign db cid t sms).sends eid mid
      rw [ha]
      exact respondedFirst_append _ h1
    · show countFollowupIn (processCampaign db cid t sms).sends eid mid = 0
      rw [ha, countFollowupIn_append, h2',
        countFollowupIn_zero_of_scheduled (fun s hs => (hb s hs).1) eid mid]
  | followupTick cid t sms =>
    obtain ⟨app, ha, hb, hc, hd⟩ := processFollowups_sends db cid t sms eid mid
    have happ0 : countFollowupIn app eid mid = 0 := by
      by_contra hne
      obtain ⟨os, hos, hr⟩ := h1
      have hz := (hd (Nat.pos_of_ne_zero hne)).2 os hos
      rw [hr] at hz
      cases hz
    constructor
    · show RespondedFirst (processFollowups db cid t sms).sends eid mid
      rw [ha]
      exact respondedFirst_append _ h1
    · show countFollowupIn (processFollowups db cid t sms).sends eid mid = 0
      rw [ha, countFollowupIn_append, h2', happ0]
  | inbound p b t =>
    obtain ⟨g, hg, hgs⟩ := recordResponse_sends db p b t
    constructor
    · show RespondedFirst (recordResponse db p b t).sends eid mid
      rw [hgs]
      exact respondedFirst_map_benign hg h1
    · show countFollowupIn (recordResponse db p b t).sends eid mid = 0
      rw [hgs, countFollowupIn_map_benign hg, h2']

/-- One automated operation preserves "at most one follow-up send for the
pair". -/
theorem applyOp_followup_le_one (db : DB) (op : Op) (eid mid : Nat)
    (h : countFollowup db eid mid ≤ 1) :
    countFollowup (applyOp db op) eid mid ≤ 1 := by
  have h' : countFollowupIn db.sends eid mid ≤ 1 := h
  cases op with
  | tick cid t sms =>
    obtain ⟨app, ha, hb, _, _⟩ := processCampaign_sends db cid t sms eid mid
    show countFollowupIn (processCampaign db cid t sms).sends eid mid ≤ 1
    rw [ha, countFollowupIn_append,
      countFollowupIn_zero_of_scheduled (fun s hs => (hb s hs).1) eid mid]
    omega
  | followupTick cid t sms =>
    obtain ⟨app, ha, hb, hc, hd⟩ := processFollowups_sends db cid t sms eid mid
    show countFollowupIn (processFollowups db cid t sms).sends eid mid ≤ 1
    rw [ha, countFollowupIn_append]
    rcases Nat.eq_zero_or_pos (countFollowupIn app eid mid) with h0 | hpos
    · omega
    · have hz : countFollowupIn db.sends eid mid = 0 :=
        countFollowupIn_eq_zero_of_any_false (hd hpos).1
      omega
  | inbound p b t =>
    obtain ⟨g, hg, hgs⟩ := recordResponse_sends db p b t
    show countFollowupIn (recordResponse db p b t).sends eid mid ≤ 1
    rw [hgs, countFollowupIn_map_benign hg]
    exact h'

/-- C6: follow-up suppression.  If the pair's first `scheduled` send has
`response_received` set and the pair has no `followup` send yet, then no
automated operation sequence (campaign passes, follow-up passes, inbound
messages) ever creates a `followup` send for the pair, the answered state
persists, and — independently — every state with at most one `followup`
send for a pair keeps at most one under any operation sequence. -/
theorem c6_followup_suppression (db : DB) (eid mid : Nat) (ops : List Op)
    (hresp : RespondedFirst db.sends eid mid)
    (hnone : countFollowup db eid mid = 0) :
    countFollowup (runOps db ops) eid mid = 0 ∧
    RespondedFirst (runOps db ops).sends eid mid ∧
    (∀ (db₂ : DB) (ops₂ : List Op), countFollowup db₂ eid mid ≤ 1 →
      countFollowup (runOps db₂ ops₂) eid mid ≤ 1) := by
  have main : ∀ (l : List Op) (d : DB), RespondedFirst d.sends eid mid →
      countFollowup d eid mid = 0 →
      RespondedFirst (runOps d l).sends eid mid ∧
        countFollowup (runOps d l) eid mid = 0 := by
    intro l
    induction l with
    | nil =>
      intro d hh1 hh2
      exact ⟨hh1, hh2⟩
    | cons op l ih =>
      intro d hh1 hh2
      obtain ⟨p1, p2⟩ := applyOp_preserves_supp d op eid mid hh1 hh2
      exact ih (applyOp d op) p1 p2
  have le1 : ∀ (l : List Op) (d : DB), countFollowup d eid mid ≤ 1 →
      countFollowup (runOps d l) eid mid ≤ 1 := by
    intro l
    induction l with
    | nil =>
      intro d hh
      exact hh
    | cons op l ih =>
      intro d hh
      exact ih (applyOp d op) (applyOp_followup_le_one d op eid mid hh)
  obtain ⟨ha, hb⟩ := main ops db hresp hnone
  exact ⟨hb, ha, fun db₂ ops₂ hh => le1 ops₂ db₂ hh⟩

/-- Witness for C6 at a concrete input: one answered send, one follow-up
tick. -/
theorem c6_followup_suppression_witness :
    countFollowup (runOps dbRespondedSend
        [Op.followupTick 1 tAfterUtcMidnight smsAlwaysOk]) 1 1 = 0 ∧
    RespondedFirst (runOps dbRespondedSend
        [Op.followupTick 1 tAfterUtcMidnight smsAlwaysOk]).sends 1 1 ∧
    (∀ (db₂ : DB) (ops₂ : List Op), countFollowup db₂ 1 1 ≤ 1 →
      countFollowup (runOps db₂ ops₂) 1 1 ≤ 1) :=
  c6_followup_suppression dbRespondedSend 1 1
    [Op.followupTick 1 tAfterUtcMidnight smsAlwaysOk] ⟨_, rfl, rfl⟩ rfl

theorem enrollAway_refl (eid : Nat) (l : List CampaignEnrollment) : EnrollAway eid l l :=
  ⟨id, fun _ => rfl, fun _ _ => rfl, (List.map_id l).symm⟩

theorem enrollAway_trans {eid : Nat} {l₁ l₂ l₃ : List CampaignEnrollment}
    (h1 : EnrollAway eid l₁ l₂) (h2 : EnrollAway eid l₂ l₃) : EnrollAway eid l₁ l₃ := by
  obtain ⟨g1, a1, b1, c1⟩ := h1
  obtain ⟨g2, a2, b2, c2⟩ := h2
  refine ⟨g2 ∘ g1, ?_, ?_, ?_⟩
  · intro x
    exact (a2 (g1 x)).trans (a1 x)
  · intro x hx
    show g2 (g1 x) = x
    rw [b1 x hx]
    exact b2 x hx
  · rw [c2, c1, List.map_map]

theorem enrollAway_update {eid : Nat} (key : Nat)
    (f : CampaignEnrollment → CampaignEnrollment)
    (hf : ∀ x, (f x).id = x.id) (hne : key ≠ eid) (l : List CampaignEnrollment) :
    EnrollAway eid l (l.map (fun x => if x.id == key then f x else x)) := by
  refine ⟨fun x => if x.id == key then f x else x, ?_, ?_, rfl⟩
  · intro x
    dsimp only
    split
    · exact hf x
    · rfl
  · intro x hx
    dsimp only
    have hb : ¬((x.id == key) = true) := by
      rw [hx]
      simp only [beq_iff_eq]
      exact fun h => hne h.symm
    rw [if_neg hb]

theorem enrollAway_find {eid : Nat} {l l' : List CampaignEnrollment}
    (h : EnrollAway eid l l') {e₀ : CampaignEnrollment}
    (he : l.find? (fun x => x.id == eid) = some e₀) :
    l'.find? (fun x => x.id == eid) = some e₀ := by
  obtain ⟨g, hgid, hfix, hmap⟩ := h
  rw [hmap, find_map_pred (fun x => x.id == eid) g
    (fun x => by dsimp only; rw [hgid]) l, he]
  have he₀id : e₀.id = eid := by simpa using List.find?_some he
  rw [Option.map_some', hfix e₀ he₀id]

theorem enrollAway_ids {eid : Nat} {l l' : List CampaignEnrollment}
    (h : EnrollAway eid l l') :
    l'.map (fun e => e.id) = l.map (fun e => e.id) := by
  obtain ⟨g, hgid, _, hmap⟩ := h
  rw [hmap, List.map_map,
    show ((fun e : CampaignEnrollment => e.id) ∘ g) =
      (fun e : CampaignEnrollment => e.id) from funext hgid]

theorem enrollAway_sendBranch (c1 c2 : Prop) [Decidable c1] [Decidable c2] (db1 : DB)
    (i1 : Nat) (f1 : CampaignEnrollment → CampaignEnrollment) (i2 : Nat)
    (f2 : CampaignABTest → CampaignABTest) (eid : Nat)
    (hf : ∀ x, (f1 x).id = x.id) (hne : i1 ≠ eid) :
    EnrollAway eid db1.enrollments
      (if c1 then
          (if c2 then updateABTestByMessage (updateEnrollment db1 i1 f1) i2 f2
            else updateEnrollment db1 i1 f1)
        else db1).enrollments := by
  split
  · split
    · exact enrollAway_update i1 f1 hf hne db1.enrollments
    · exact enrollAway_update i1 f1 hf hne db1.enrollments
  · exact enrollAway_refl _ _

/-- `_send_campaign_message` touches no enrollment row other than its
target's. -/
theorem sendCampaignMessage_enrollAway (db : DB) (camp : Campaign)
    (m : CampaignMessage) (e : CampaignEnrollment) (t : Nat) (o : SendOracle)
    (eid : Nat) (hne : e.id ≠ eid) :
    EnrollAway eid db.enrollments (sendCampaignMessage db camp m e t o).enrollments := by
  by_cases hex : (db.sends.any (fun s => s.enrollmentId == e.id &&
      s.campaignMessageId == m.id && s.messageType == "scheduled" &&
      decide (dayStartUtc t ≤ s.createdAt))) = true
  · simp only [sendCampaignMessage, if_pos hex]
    exact enrollAway_refl _ _
  · simp only [sendCampaignMessage, if_neg hex]
    exact enrollAway_sendBranch _ _ _ _ _ _ _ eid (fun x => rfl) hne

/-- One `_process_campaign` loop iteration touches no enrollment row other
than its target's. -/
theorem processCampaignStep_enrollAway (camp : Campaign) (msgs : List CampaignMessage)
    (t : Nat) (o : SendOracle) (acc : DB × Bool) (e : CampaignEnrollment)
    (eid : Nat) (hne : e.id ≠ eid) :
    EnrollAway eid acc.1.enrollments
      (processCampaignStep camp msgs t o acc e).1.enrollments := by
  by_cases hlen : msgs.length < e.currentStep + 1
  · simp only [processCampaignStep, if_pos hlen]
    exact enrollAway_update e.id (fun x => { x with status := "completed" })
      (fun x => rfl) hne acc.1.enrollments
  · cases hget : msgs.get? (e.currentStep + 1 - 1) with
    | none =>
      simp only [processCampaignStep, if_neg hlen, hget]
      exact enrollAway_refl _ _
    | some m =>
      by_cases hdue : shouldSendMessage e m t = true
      · simp only [processCampaignStep, if_neg hlen, hget, if_pos hdue]
        exact sendCampaignMessage_enrollAway acc.1 camp m e t o eid hne
      · simp only [processCampaignStep, if_neg hlen, hget, if_neg hdue]
        exact enrollAway_refl _ _

theorem processFold_enrollAway (camp : Campaign) (msgs : List CampaignMessage)
    (t : Nat) (o : SendOracle) (eid : Nat) :
    ∀ (es : List CampaignEnrollment) (acc : DB × Bool), (∀ e ∈ es, e.id ≠ eid) →
    EnrollAway eid acc.1.enrollments
      ((es.foldl (processCampaignStep camp msgs t o) acc)).1.enrollments := by
  intro es
  induction es with
  | nil =>
    intro acc _
    exact enrollAway_refl _ _
  | cons e es ih =>
    intro acc hids
    rw [List.foldl_cons]
    refine enrollAway_trans ?_ (ih _ (fun x hx => hids x (List.mem_cons_of_mem e hx)))
    exact processCampaignStep_enrollAway camp msgs t o acc e eid
      (hids e (List.mem_cons_self e es))

theorem processCampaignCore_enrollAway (db : DB) (camp : Campaign)
    (msgs : List CampaignMessage) (t : Nat) (sms : SendOracle) (eid : Nat)
    (hids : ∀ e ∈ db.enrollments.filter (fun e => e.campaignId == camp.id &&
      (e.status == "active" || e.status == "engaged")), e.id ≠ eid) :
    EnrollAway eid db.enrollments (processCampaignCore db camp msgs t sms).enrollments := by
  by_cases hemp : (db.enrollments.filter (fun e => e.campaignId == camp.id &&
      (e.status == "active" || e.status == "engaged"))).isEmpty
  · simp only [processCampaignCore, if_pos hemp]
    exact enrollAway_refl _ _
  · simp only [processCampaignCore, if_neg hemp]
    split
    · exact processFold_enrollAway camp msgs t sms eid _ (db, true) hids
    · exact processFold_enrollAway camp msgs t sms eid _ (db, true) hids

/-- `_process_campaign` touches no enrollment row whose status bars it
from selection. -/
theorem processCampaign_enrollAway (db : DB) (cid t : Nat) (sms : SendOracle)
    (eid : Nat)
    (hall : ∀ x ∈ db.enrollments, x.id = eid →
      x.status ≠ "active" ∧ x.status ≠ "engaged") :
    EnrollAway eid db.enrollments (processCampaign db cid t sms).enrollments := by
  have hids : ∀ (cpid : Nat),
      ∀ e ∈ db.enrollments.filter (fun e => e.campaignId == cpid &&
        (e.status == "active" || e.status == "engaged")), e.id ≠ eid := by
    intro cpid e he heq
    have hm := List.mem_filter.mp he
    obtain ⟨hs1, hs2⟩ := hall e hm.1 heq
    have hp := hm.2
    simp only [Bool.and_eq_true, Bool.or_eq_true, beq_iff_eq] at hp
    rcases hp.2 with h | h
    · exact hs1 h
    · exact hs2 h
  cases hfc : findCampaign db cid with
  | none =>
    simp only [processCampaign, hfc]
    exact enrollAway_refl _ _
  | some camp =>
    by_cases hst : camp.status ≠ "active"
    · simp only [processCampaign, hfc, if_pos hst]
      exact enrollAway_refl _ _
    · by_cases hmsgs : (campaignMessagesSorted db cid).isEmpty
      · simp only [processCampaign, hfc, if_neg hst, if_pos hmsgs]
        exact enrollAway_refl _ _
      · cases hdue : sendTimeDue (pyOrS camp.defaultSendTime "11:00") t with
        | none =>
          simp only [processCampaign, hfc, if_neg hst, if_neg hmsgs, hdue]
          exact enrollAway_refl _ _
        | some b =>
          cases b with
          | false =>
            simp only [processCampaign, hfc, if_neg hst, if_neg hmsgs, hdue]
            exact enrollAway_refl _ _
          | true =>
            have hshape : processCampaign db cid t sms =
                processCampaignCore db camp (campaignMessagesSorted db cid) t sms := by
              simp only [processCampaign, hfc, if_neg hst, if_neg hmsgs, hdue]
            rw [hshape]
            exact processCampaignCore_enrollAway db camp _ t sms eid (hids camp.id)

/-- `_process_followups` never writes the enrollment table at all. -/
theorem processFollowupStep_enrollments (camp : Campaign) (t : Nat) (sms : SendOracle)
    (db : DB) (e : CampaignEnrollment) :
    (processFollowupStep camp t sms db e).enrollments = db.enrollments := by
  cases hlm : e.lastMessageId with
  | none => simp only [processFollowupStep, hlm]
  | some lmid =>
    cases hfm : db.messages.find? (fun m => m.id == lmid) with
    | none => simp only [processFollowupStep, hlm, hfm]
    | some m =>
      by_cases hef : (!m.enableFollowup) = true
      · simp only [processFollowupStep, hlm, hfm, if_pos hef]
      · by_cases hds : (match e.lastMessageAt with
            | some lm => (t - lm) / minutesPerDay
            | none => 0) < m.followupDays
        · simp only [processFollowupStep, hlm, hfm, if_neg hef, if_pos hds]
        · by_cases hany : (db.sends.any (fun s => s.enrollmentId == e.id &&
              s.campaignMessageId == m.id && s.messageType == "followup")) = true
          · simp only [processFollowupStep, hlm, hfm, if_neg hef, if_neg hds,
              if_pos hany]
          · cases hos : db.sends.find? (fun s => s.enrollmentId == e.id &&
                s.campaignMessageId == m.id && s.messageType == "scheduled") with
            | none =>
              simp only [processFollowupStep, hlm, hfm, if_neg hef, if_neg hds,
                if_neg hany, hos]
              rfl
            | some os =>
              by_cases hresp : os.responseReceived = true
              · simp only [processFollowupStep, hlm, hfm, if_neg hef, if_neg hds,
                  if_neg hany, hos, if_pos hresp]
              · simp only [processFollowupStep, hlm, hfm, if_neg hef, if_neg hds,
                  if_neg hany, hos, if_neg hresp]
                rfl

theorem processFollowupFold_enrollments (camp : Campaign) (t : Nat) (sms : SendOracle) :
    ∀ (es : List CampaignEnrollment) (db : DB),
    ((es.foldl (processFollowupStep camp t sms) db)).enrollments = db.enrollments := by
  intro es
  induction es with
  | nil =>
    intro db
    rfl
  | cons e es ih =>
    intro db
    rw [List.foldl_cons, ih, processFollowupStep_enrollments]

theorem processFollowups_enrollments (db : DB) (cid t : Nat) (sms : SendOracle) :
    (processFollowups db cid t sms).enrollments = db.enrollments := by
  cases hfc : findCampaign db cid with
  | none => simp only [processFollowups, hfc]
  | some camp =>
    by_cases hst : camp.status ≠ "active"
    · simp only [processFollowups, hfc, if_pos hst]
    · cases hdue : sendTimeDue (pyOrS camp.defaultSendTime "11:00") t with
      | none => simp only [processFollowups, hfc, if_neg hst, hdue]
      | some b =>
        cases b with
        | false => simp only [processFollowups, hfc, if_neg hst, hdue]
        | true =>
          have hshape : processFollowups db cid t sms =
              processFollowupsCore db camp t sms := by
            simp only [processFollowups, hfc, if_neg hst, hdue]
          rw [hshape]
          exact processFollowupFold_enrollments camp t sms _ db

theorem enrollAway_respBranch (c : Prop) [Decidable c] (db : DB) (key : Nat)
    (f1 f2 : CampaignEnrollment → CampaignEnrollment) (eid : Nat)
    (h1 : ∀ x, (f1 x).id = x.id) (h2 : ∀ x, (f2 x).id = x.id) (hne : key ≠ eid) :
    EnrollAway eid db.enrollments
      (if c then updateEnrollment db key f1 else updateEnrollment db key f2).enrollments := by
  split
  · exact enrollAway_update key f1 h1 hne db.enrollments
  · exact enrollAway_update key f2 h2 hne db.enrollments

/-- One `record_response` target update touches no enrollment row other
than its target's. -/
theorem recordResponseStep_enrollAway (now : Nat) (isOpt : Bool) (body : String)
    (db : DB) (e : CampaignEnrollment) (eid : Nat) (hne : e.id ≠ eid) :
    EnrollAway eid db.enrollments (recordResponseStep now isOpt body db e).enrollments := by
  have hf2 : ∀ x : CampaignEnrollment,
      ((fun x : CampaignEnrollment =>
        let x' :=
          if x.firstResponseAt.isNone then
            { x with firstResponseAt := some now,
                     firstResponseMessageId := x.lastMessageId }
          else x
        { x' with status := "engaged", responseCount := x'.responseCount + 1 }) x).id
        = x.id := by
    intro x
    dsimp only
    split <;> rfl
  cases hlm : e.lastMessageId with
  | none =>
    simp only [recordResponseStep, hlm]
    exact enrollAway_respBranch _ db e.id _ _ eid (fun x => rfl) hf2 hne
  | some lmid =>
    simp only [recordResponseStep, hlm]
    split
    · exact enrollAway_respBranch _ db e.id _ _ eid (fun x => rfl) hf2 hne
    · exact enrollAway_respBranch _ db e.id _ _ eid (fun x => rfl) hf2 hne

theorem recordResponseFold_enrollAway (now : Nat) (isOpt : Bool) (body : String)
    (eid : Nat) :
    ∀ (ts : List CampaignEnrollment) (db : DB), (∀ e ∈ ts, e.id ≠ eid) →
    EnrollAway eid db.enrollments
      ((ts.foldl (recordResponseStep now isOpt body) db)).enrollments := by
  intro ts
  induction ts with
  | nil =>
    intro db _
    exact enrollAway_refl _ _
  | cons e ts ih =>
    intro db hids
    rw [List.foldl_cons]
    refine enrollAway_trans ?_ (ih _ (fun x hx => hids x (List.mem_cons_of_mem e hx)))
    exact recordResponseStep_enrollAway now isOpt body db e eid
      (hids e (List.mem_cons_self e ts))

/-- `record_response` touches no enrollment row whose status bars it from
selection. -/
theorem recordResponse_enrollAway (db : DB) (p b : String) (now : Nat) (eid : Nat)
    (hall : ∀ x ∈ db.enrollments, x.id = eid →
      x.status ≠ "active" ∧ x.status ≠ "engaged") :
    EnrollAway eid db.enrollments (recordResponse db p b now).enrollments := by
  refine recordResponseFold_enrollAway now (isOptOutBody b) b eid _ db ?_
  intro e he heq
  have hm := List.mem_filter.mp he
  obtain ⟨hs1, hs2⟩ := hall e hm.1 heq
  have hp := hm.2
  simp only [Bool.and_eq_true, Bool.or_eq_true, beq_iff_eq] at hp
  rcases hp.1.2 with h | h
  · exact hs1 h
  · exact hs2 h

theorem processFold_sendsFor (camp : Campaign) (msgs : List CampaignMessage)
    (t : Nat) (o : SendOracle) (eid : Nat) :
    ∀ (es : List CampaignEnrollment) (acc : DB × Bool), (∀ e ∈ es, e.id ≠ eid) →
    (es.foldl (processCampaignStep camp msgs t o) acc).1.sends.filter
        (fun s => s.enrollmentId == eid) =
      acc.1.sends.filter (fun s => s.enrollmentId == eid) := by
  intro es
  induction es with
  | nil =>
    intro acc _
    rfl
  | cons e es ih =>
    intro acc hids
    rw [List.foldl_cons, ih _ (fun x hx => hids x (List.mem_cons_of_mem e hx))]
    rcases processCampaignStep_sends camp msgs t o acc e with hunch |
        ⟨hany, snd, hsnd, h1, h2, h3, h4⟩
    · rw [hunch]
    · rw [hsnd, List.filter_append]
      have hz : (snd.enrollmentId == eid) = false := by
        rw [h1]
        exact beq_eq_false_iff_ne.mpr (hids e (List.mem_cons_self e es))
      simp only [List.filter_cons, List.filter_nil, hz, Bool.false_eq_true, if_false,
        List.append_nil]

/-- A campaign pass creates no send row for an enrollment whose status
bars it from selection. -/
theorem processCampaign_sendsFor (db : DB) (cid t : Nat) (sms : SendOracle)
    (eid : Nat)
    (hall : ∀ x ∈ db.enrollments, x.id = eid →
      x.status ≠ "active" ∧ x.status ≠ "engaged") :
    (processCampaign db cid t sms).sends.filter (fun s => s.enrollmentId == eid) =
      db.sends.filter (fun s => s.enrollmentId == eid) := by
  have hids : ∀ (cpid : Nat),
      ∀ e ∈ db.enrollments.filter (fun e => e.campaignId == cpid &&
        (e.status == "active" || e.status == "engaged")), e.id ≠ eid := by
    intro cpid e he heq
    have hm := List.mem_filter.mp he
    obtain ⟨hs1, hs2⟩ := hall e hm.1 heq
    have hp := hm.2
    simp only [Bool.and_eq_true, Bool.or_eq_true, beq_iff_eq] at hp
    rcases hp.2 with h | h
    · exact hs1 h
    · exact hs2 h
  cases hfc : findCampaign db cid with
  | none => simp only [processCampaign, hfc]
  | some camp =>
    by_cases hst : camp.status ≠ "active"
    · simp only [processCampaign, hfc, if_pos hst]
    · by_cases hmsgs : (campaignMessagesSorted db cid).isEmpty
      · simp only [processCampaign, hfc, if_neg hst, if_pos hmsgs]
      · cases hdue : sendTimeDue (pyOrS camp.defaultSendTime "11:00") t with
        | none => simp only [processCampaign, hfc, if_neg hst, if_neg hmsgs, hdue]
        | some b =>
          cases b with
          | false => simp only [processCampaign, hfc, if_neg hst, if_neg hmsgs, hdue]
          | true =>
            have hshape : processCampaign db cid t sms =
                processCampaignCore db camp (campaignMessagesSorted db cid) t sms := by
              simp only [processCampaign, hfc, if_neg hst, if_neg hmsgs, hdue]
            rw [hshape]
            by_cases hemp : (db.enrollments.filter (fun e => e.campaignId == camp.id &&
                (e.status == "active" || e.status == "engaged"))).isEmpty
            · simp only [processCampaignCore, if_pos hemp]
              rfl
            · simp only [processCampaignCore, if_neg hemp]
              split
              · rw [show ∀ (d : DB) (c t' : Nat), (completeCampaignInTick d c t').sends
                    = d.sends from fun _ _ _ => rfl]
                exact processFold_sendsFor camp _ t sms eid _ (db, true) (hids camp.id)
              · exact processFold_sendsFor camp _ t sms eid _ (db, true) (hids camp.id)

theorem processFollowupFold_sendsFor (camp : Campaign) (t : Nat) (sms : SendOracle)
    (eid : Nat) :
    ∀ (es : List CampaignEnrollment) (db : DB), (∀ e ∈ es, e.id ≠ eid) →
    (es.foldl (processFollowupStep camp t sms) db).sends.filter
        (fun s => s.enrollmentId == eid) =
      db.sends.filter (fun s => s.enrollmentId == eid) := by
  intro es
  induction es with
  | nil =>
    intro db _
    rfl
  | cons e es ih =>
    intro db hids
    rw [List.foldl_cons, ih _ (fun x hx => hids x (List.mem_cons_of_mem e hx))]
    rcases processFollowupStep_sends camp t sms db e with hunch |
        ⟨m, hany, hfs, snd, hsnd, h1, h2, h3⟩
    · rw [hunch]
    · rw [hsnd, List.filter_append]
      have hz : (snd.enrollmentId == eid) = false := by
        rw [h1]
        exact beq_eq_false_iff_ne.mpr (hids e (List.mem_cons_self e es))
      simp only [List.filter_cons, List.filter_nil, hz, Bool.false_eq_true, if_false,
        List.append_nil]

/-- A follow-up pass creates no send row for an enrollment whose status
bars it from selection. -/
theorem processFollowups_sendsFor (db : DB) (cid t : Nat) (sms : SendOracle)
    (eid : Nat)
    (hall : ∀ x ∈ db.enrollments, x.id = eid →
      x.status ≠ "active" ∧ x.status ≠ "engaged") :
    (processFollowups db cid t sms).sends.filter (fun s => s.enrollmentId == eid) =
      db.sends.filter (fun s => s.enrollmentId == eid) := by
  have hids : ∀ (cpid : Nat),
      ∀ e ∈ db.enrollments.filter (fun e => e.campaignId == cpid &&
        e.status == "active" && e.lastMessageId.isSome), e.id ≠ eid := by
    intro cpid e he heq
    have hm := List.mem_filter.mp he
    obtain ⟨hs1, _⟩ := hall e hm.1 heq
    have hp := hm.2
    simp only [Bool.and_eq_true, beq_iff_eq] at hp
    exact hs1 hp.1.2
  cases hfc : findCampaign db cid with
  | none => simp only [processFollowups, hfc]
  | some camp =>
    by_cases hst : camp.status ≠ "active"
    · simp only [processFollowups, hfc, if_pos hst]
    · cases hdue : sendTimeDue (pyOrS camp.defaultSendTime "11:00") t with
      | none => simp only [processFollowups, hfc, if_neg hst, hdue]
      | some b =>
        cases b with
        | false => simp only [processFollowups, hfc, if_neg hst, hdue]
        | true =>
          have hshape : processFollowups db cid t sms =
              processFollowupsCore db camp t sms := by
            simp only [processFollowups, hfc, if_neg hst, hdue]
          rw [hshape]
          exact processFollowupFold_sendsFor camp t sms eid _ db (hids camp.id)

/-- An inbound message changes no send row's owning enrollment and adds
no send row. -/
theorem recordResponse_sendsFor_length (db : DB) (p b : String) (now : Nat)
    (eid : Nat) :
    ((recordResponse db p b now).sends.filter (fun s => s.enrollmentId == eid)).length =
      (db.sends.filter (fun s => s.enrollmentId == eid)).length := by
  obtain ⟨g, hg, hgs⟩ := recordResponse_sends db p b now
  rw [hgs, ← List.countP_eq_length_filter, ← List.countP_eq_length_filter,
    List.countP_map]
  refine List.countP_congr ?_
  intro x _
  have h1 := (hg x).1
  simp only [Function.comp_apply, h1]

/-- One automated operation leaves an `opted_out` enrollment, its id
table, and its set of send rows untouched. -/
theorem applyOp_optout_untouched (db : DB) (op : Op) (eid : Nat)
    (e₀ : CampaignEnrollment) (hnd : enrollmentIdsNodup db)
    (he : findEnrollment db eid = some e₀) (hst : e₀.status = "opted_out") :
    findEnrollment (applyOp db op) eid = some e₀ ∧
    enrollmentIdsNodup (applyOp db op) ∧
    (sendsFor (applyOp db op) eid).length = (sendsFor db eid).length := by
  have hnd' : (db.enrollments.map (fun e => e.id)).Nodup := hnd
  have hall : ∀ x ∈ db.enrollments, x.id = eid →
      x.status ≠ "active" ∧ x.status ≠ "engaged" := by
    intro x hx hxid
    have he₀id : e₀.id = eid := by simpa using List.find?_some he
    have hxe : x = e₀ := List.inj_on_of_nodup_map hnd' hx
      (List.mem_of_find?_eq_some he) (by rw [hxid, he₀id])
    rw [hxe, hst]
    exact ⟨by decide, by decide⟩
  cases op with
  | tick cid t sms =>
    have haway := processCampaign_enrollAway db cid t sms eid hall
    refine ⟨enrollAway_find haway he, ?_, ?_⟩
    · show ((processCampaign db cid t sms).enrollments.map (fun e => e.id)).Nodup
      rw [enrollAway_ids haway]
      exact hnd'
    · show ((processCampaign db cid t sms).sends.filter
        (fun s => s.enrollmentId == eid)).length = _
      rw [processCampaign_sendsFor db cid t sms eid hall]
      rfl
  | followupTick cid t sms =>
    have hpe := processFollowups_enrollments db cid t sms
    refine ⟨?_, ?_, ?_⟩
    · show (processFollowups db cid t sms).enrollments.find?
        (fun x => x.id == eid) = some e₀
      rw [hpe]
      exact he
    · show ((processFollowups db cid t sms).enrollments.map (fun e => e.id)).Nodup
      rw [hpe]
      exact hnd'
    · show ((processFollowups db cid t sms).sends.filter
        (fun s => s.enrollmentId == eid)).length = _
      rw [processFollowups_sendsFor db cid t sms eid hall]
      rfl
  | inbound p b t =>
    have haway := recordResponse_enrollAway db p b t eid hall
    refine ⟨enrollAway_find haway he, ?_, ?_⟩
    · show ((recordResponse db p b t).enrollments.map (fun e => e.id)).Nodup
      rw [enrollAway_ids haway]
      exact hnd'
    · exact recordResponse_sendsFor_length db p b t eid

/-- C3: opt-out terminality.  Once an enrollment row carries status
`opted_out` — as `record_response` sets it on an inbound opt-out keyword
— no sequence of automated operations (campaign passes, follow-up passes,
further inbound messages) ever creates another send row for it, and the
row itself, status and counters included, never changes again. -/
theorem c3_optout_terminality (db : DB) (eid : Nat) (e₀ : CampaignEnrollment)
    (ops : List Op) (hnd : enrollmentIdsNodup db)
    (he : findEnrollment db eid = some e₀) (hst : e₀.status = "opted_out") :
    findEnrollment (runOps db ops) eid = some e₀ ∧
    (sendsFor (runOps db ops) eid).length = (sendsFor db eid).length ∧
    enrollmentIdsNodup (runOps db ops) := by
  have main : ∀ (l : List Op) (d : DB), enrollmentIdsNodup d →
      findEnrollment d eid = some e₀ →
      findEnrollment (runOps d l) eid = some e₀ ∧
        (sendsFor (runOps d l) eid).length = (sendsFor d eid).length ∧
        enrollmentIdsNodup (runOps d l) := by
    intro l
    induction l with
    | nil =>
      intro d h1 h2
      exact ⟨h2, rfl, h1⟩
    | cons op l ih =>
      intro d h1 h2
      obtain ⟨p1, p2, p3⟩ := applyOp_optout_untouched d op eid e₀ h1 h2 hst
      obtain ⟨q1, q2, q3⟩ := ih (applyOp d op) p2 p1
      exact ⟨q1, q2.trans p3, q3⟩
  exact main ops db hnd he

/-- Witness for C3: the row opted out by an inbound "STOP" survives a
campaign pass, a follow-up pass and a further inbound text unchanged, and
gains no send row. -/
theorem c3_optout_terminality_witness :
    findEnrollment (runOps (recordResponse dbRespondedSend "+15551234567" "STOP" 14400)
        [Op.tick 1 tAfterUtcMidnight smsAlwaysOk,
         Op.followupTick 1 tAfterUtcMidnight smsAlwaysOk,
         Op.inbound "+15551234567" "hello" 20000]) 1 =
      some { id := 1, campaignId := 1, phoneNumber := "+15551234567",
             contactName := some "Ann", currentStep := 1, status := "opted_out",
             lastMessageAt := some 0, lastMessageId := some 1, responseCount := 1,
             optedOutAt := some 14400, optedOutKeyword := some "STOP" } ∧
    (sendsFor (runOps (recordResponse dbRespondedSend "+15551234567" "STOP" 14400)
        [Op.tick 1 tAfterUtcMidnight smsAlwaysOk,
         Op.followupTick 1 tAfterUtcMidnight smsAlwaysOk,
         Op.inbound "+15551234567" "hello" 20000]) 1).length =
      (sendsFor (recordResponse dbRespondedSend "+15551234567" "STOP" 14400) 1).length ∧
    enrollmentIdsNodup (runOps (recordResponse dbRespondedSend "+15551234567" "STOP" 14400)
        [Op.tick 1 tAfterUtcMidnight smsAlwaysOk,
         Op.followupTick 1 tAfterUtcMidnight smsAlwaysOk,
         Op.inbound "+15551234567" "hello" 20000]) :=
  c3_optout_terminality (recordResponse dbRespondedSend "+15551234567" "STOP" 14400) 1
    { id := 1, campaignId := 1, phoneNumber := "+15551234567",
      contactName := some "Ann", currentStep := 1, status := "opted_out",
      lastMessageAt := some 0, lastMessageId := some 1, responseCount := 1,
      optedOutAt := some 14400, optedOutKeyword := some "STOP" }
    [Op.tick 1 tAfterUtcMidnight smsAlwaysOk,
     Op.followupTick 1 tAfterUtcMidnight smsAlwaysOk,
     Op.inbound "+15551234567" "hello" 20000]
    (by unfold enrollmentIdsNodup; decide) rfl rfl

theorem sentStepIn_append {msgs : List CampaignMessage} {l : List CampaignSend}
    {eid k : Nat} (app : List CampaignSend) (h : SentStepIn msgs l eid k) :
    SentStepIn msgs (l ++ app) eid k := by
  obtain ⟨x, hx, h1, h2, h3, h4⟩ := h
  exact ⟨x, List.mem_append_left app hx, h1, h2, h3, h4⟩

theorem sentStepIn_map_benign {g : CampaignSend → CampaignSend}
    (hg : SendRowBenign g) {msgs : List CampaignMessage} {l : List CampaignSend}
    {eid k : Nat} (h : SentStepIn msgs l eid k) :
    SentStepIn msgs (l.map g) eid k := by
  obtain ⟨x, hx, h1, h2, h3, h4⟩ := h
  obtain ⟨c1, c2, c3, c4, _⟩ := hg x
  refine ⟨g x, List.mem_map_of_mem g hx, ?_, ?_, ?_, ?_⟩
  · rw [c1, h1]
  · rw [c3, h2]
  · rw [c4, h3]
  · rw [c2, h4]

theorem stepOrd_append {msgs : List CampaignMessage} {l : List CampaignSend}
    {eid : Nat} (h : StepOrd msgs l eid) {app : List CampaignSend}
    (happ : ∀ s ∈ app, s.enrollmentId ≠ eid ∨ s.messageType ≠ "scheduled") :
    StepOrd msgs (l ++ app) eid := by
  intro i hi k h1 h2 h3 h4
  by_cases hil : i < l.length
  · rw [List.getElem_append_left hil] at h1 h2 h3
    obtain ⟨j, hj, hlt, a1, a2, a3, a4⟩ := h i hil k h1 h2 h3 h4
    have hj' : j < (l ++ app).length := by
      rw [List.length_append]
      omega
    refine ⟨j, hj', hlt, ?_, ?_, ?_, ?_⟩
    · rw [List.getElem_append_left hj]
      exact a1
    · rw [List.getElem_append_left hj]
      exact a2
    · rw [List.getElem_append_left hj]
      exact a3
    · rw [List.getElem_append_left hj]
      exact a4
  · have hge : l.length ≤ i := Nat.le_of_not_lt hil
    have hmem : (l ++ app)[i] ∈ app := by
      rw [List.getElem_append_right hge]
      exact List.getElem_mem _
    rcases happ _ hmem with hc | hc
    · exact absurd h1 hc
    · exact absurd h2 hc

theorem stepOrd_snoc {msgs : List CampaignMessage} {l : List CampaignSend}
    {eid : Nat} (h : StepOrd msgs l eid) {snd : CampaignSend}
    (hnew : ∀ k, snd.enrollmentId = eid → snd.messageType = "scheduled" →
      stepOf msgs snd.campaignMessageId = some k → 2 ≤ k →
      SentStepIn msgs l eid (k - 1)) :
    StepOrd msgs (l ++ [snd]) eid := by
  intro i hi k h1 h2 h3 h4
  by_cases hil : i < l.length
  · rw [List.getElem_append_left hil] at h1 h2 h3
    obtain ⟨j, hj, hlt, a1, a2, a3, a4⟩ := h i hil k h1 h2 h3 h4
    have hj' : j < (l ++ [snd]).length := by
      rw [List.length_append]
      omega
    refine ⟨j, hj', hlt, ?_, ?_, ?_, ?_⟩
    · rw [List.getElem_append_left hj]
      exact a1
    · rw [List.getElem_append_left hj]
      exact a2
    · rw [List.getElem_append_left hj]
      exact a3
    · rw [List.getElem_append_left hj]
      exact a4
  · have hge : l.length ≤ i := Nat.le_of_not_lt hil
    have hieq : i = l.length := by
      rw [List.length_append, List.length_singleton] at hi
      omega
    have hel : (l ++ [snd])[i] = snd := by
      rw [List.getElem_append_right hge]
      subst hieq
      simp
    rw [hel] at h1 h2 h3
    obtain ⟨x, hxmem, b1, b2, b3, b4⟩ := hnew k h1 h2 h3 h4
    obtain ⟨j, hj, hjeq⟩ := List.getElem_of_mem hxmem
    have hj' : j < (l ++ [snd]).length := by
      rw [List.length_append]
      omega
    refine ⟨j, hj', by omega, ?_, ?_, ?_, ?_⟩
    · rw [List.getElem_append_left hj, hjeq]
      exact b1
    · rw [List.getElem_append_left hj, hjeq]
      exact b2
    · rw [List.getElem_append_left hj, hjeq]
      exact b3
    · rw [List.getElem_append_left hj, hjeq]
      exact b4

theorem stepOrd_map_benign {g : CampaignSend → CampaignSend}
    (hg : SendRowBenign g) {msgs : List CampaignMessage} {l : List CampaignSend}
    {eid : Nat} (h : StepOrd msgs l eid) : StepOrd msgs (l.map g) eid := by
  intro i hi k h1 h2 h3 h4
  have hi' : i < l.length := by simpa using hi
  rw [List.getElem_map] at h1 h2 h3
  obtain ⟨c1, c2, c3, c4, _⟩ := hg (l[i])
  rw [c1] at h1
  rw [c3] at h2
  rw [c2] at h3
  obtain ⟨j, hj, hlt, a1, a2, a3, a4⟩ := h i hi' k h1 h2 h3 h4
  have hj' : j < (l.map g).length := by simpa using hj
  obtain ⟨d1, d2, d3, d4, _⟩ := hg (l[j])
  refine ⟨j, hj', hlt, ?_, ?_, ?_, ?_⟩
  · rw [List.getElem_map, d1]
    exact a1
  · rw [List.getElem_map, d3]
    exact a2
  · rw [List.getElem_map, d4]
    exact a3
  · rw [List.getElem_map, d2]
    exact a4

theorem stepOfAux_get : ∀ (l : List CampaignMessage) (base i : Nat)
    (h : i < l.length), (l.map (fun m => m.id)).Nodup →
    stepOfAux (l[i].id) l base = some (base + i) := by
  intro l
  induction l with
  | nil =>
    intro base i h
    cases h
  | cons m rest ih =>
    intro base i h hnd
    rw [List.map_cons] at hnd
    obtain ⟨hnotin, hnd'⟩ := List.nodup_cons.mp hnd
    cases i with
    | zero =>
      simp [stepOfAux]
    | succ n =>
      have hn : n < rest.length := by simpa using h
      have hne : (m.id == rest[n].id) = false := by
        refine beq_eq_false_iff_ne.mpr ?_
        intro heq
        refine hnotin ?_
        rw [heq]
        exact List.mem_map_of_mem _ (List.getElem_mem hn)
      have hel : (m :: rest)[n + 1] = rest[n] := by simp
      rw [hel]
      simp only [stepOfAux, hne, Bool.false_eq_true, if_false]
      rw [ih (base + 1) n hn hnd']
      congr 1
      omega

theorem stepOf_get (msgs : List CampaignMessage)
    (hnd : (msgs.map (fun m => m.id)).Nodup) (i : Nat) (h : i < msgs.length) :
    stepOf msgs (msgs[i].id) = some (i + 1) := by
  unfold stepOf
  rw [stepOfAux_get msgs 1 i h hnd]
  congr 1
  omega

theorem messages_sendBranch (c1 c2 : Prop) [Decidable c1] [Decidable c2] (db1 : DB)
    (i1 : Nat) (f1 : CampaignEnrollment → CampaignEnrollment) (i2 : Nat)
    (f2 : CampaignABTest → CampaignABTest) :
    (if c1 then
        (if c2 then updateABTestByMessage (updateEnrollment db1 i1 f1) i2 f2
          else updateEnrollment db1 i1 f1)
      else db1).messages = db1.messages := by
  split
  · split
    · rfl
    · rfl
  · rfl

theorem sendCampaignMessage_messages (db : DB) (camp : Campaign) (m : CampaignMessage)
    (e : CampaignEnrollment) (t : Nat) (o : SendOracle) :
    (sendCampaignMessage db camp m e t o).messages = db.messages := by
  by_cases hex : (db.sends.any (fun s => s.enrollmentId == e.id &&
      s.campaignMessageId == m.id && s.messageType == "scheduled" &&
      decide (dayStartUtc t ≤ s.createdAt))) = true
  · simp only [sendCampaignMessage, if_pos hex]
  · simp only [sendCampaignMessage, if_neg hex]
    exact messages_sendBranch _ _ _ _ _ _ _

theorem processCampaignStep_messages (camp : Campaign) (msgs : List CampaignMessage)
    (t : Nat) (o : SendOracle) (acc : DB × Bool) (e : CampaignEnrollment) :
    (processCampaignStep camp msgs t o acc e).1.messages = acc.1.messages := by
  by_cases hlen : msgs.length < e.currentStep + 1
  · simp only [processCampaignStep, if_pos hlen]
    rfl
  · cases hget : msgs.get? (e.currentStep + 1 - 1) with
    | none =>
      simp only [processCampaignStep, if_neg hlen, hget]
    | some m =>
      by_cases hdue : shouldSendMessage e m t = true
      · simp only [processCampaignStep, if_neg hlen, hget, if_pos hdue]
        exact sendCampaignMessage_messages acc.1 camp m e t o
      · simp only [processCampaignStep, if_neg hlen, hget, if_neg hdue]

theorem processFold_messages (camp : Campaign) (msgs : List CampaignMessage)
    (t : Nat) (o : SendOracle) :
    ∀ (es : List CampaignEnrollment) (acc : DB × Bool),
    ((es.foldl (processCampaignStep camp msgs t o) acc)).1.messages = acc.1.messages := by
  intro es
  induction es with
  | nil =>
    intro acc
    rfl
  | cons e es ih =>
    intro acc
    rw [List.foldl_cons, ih, processCampaignStep_messages]

theorem processCampaign_messages (db : DB) (cid t : Nat) (sms : SendOracle) :
    (processCampaign db cid t sms).messages = db.messages := by
  cases hfc : findCampaign db cid with
  | none => simp only [processCampaign, hfc]
  | some camp =>
    by_cases hst : camp.status ≠ "active"
    · simp only [processCampaign, hfc, if_pos hst]
    · by_cases hmsgs : (campaignMessagesSorted db cid).isEmpty
      · simp only [processCampaign, hfc, if_neg hst, if_pos hmsgs]
      · cases hdue : sendTimeDue (pyOrS camp.defaultSendTime "11:00") t with
        | none => simp only [processCampaign, hfc, if_neg hst, if_neg hmsgs, hdue]
        | some b =>
          cases b with
          | false => simp only [processCampaign, hfc, if_neg hst, if_neg hmsgs, hdue]
          | true =>
            have hshape : processCampaign db cid t sms =
                processCampaignCore db camp (campaignMessagesSorted db cid) t sms := by
              simp only [processCampaign, hfc, if_neg hst, if_neg hmsgs, hdue]
            rw [hshape]
            by_cases hemp : (db.enrollments.filter (fun e => e.campaignId == camp.id &&
                (e.status == "active" || e.status == "engaged"))).isEmpty
            · simp only [processCampaignCore, if_pos hemp]
              rfl
            · simp only [processCampaignCore, if_neg hemp]
              split
              · exact processFold_messages camp _ t sms _ (db, true)
              · exact processFold_messages camp _ t sms _ (db, true)

theorem processFollowupStep_messages (camp : Campaign) (t : Nat) (sms : SendOracle)
    (db : DB) (e : CampaignEnrollment) :
    (processFollowupStep camp t sms db e).messages = db.messages := by
  cases hlm : e.lastMessageId with
  | none => simp only [processFollowupStep, hlm]
  | some lmid =>
    cases hfm : db.messages.find? (fun m => m.id == lmid) with
    | none => simp only [processFollowupStep, hlm, hfm]
    | some m =>
      by_cases hef : (!m.enableFollowup) = true
      · simp only [processFollowupStep, hlm, hfm, if_pos hef]
      · by_cases hds : (match e.lastMessageAt with
            | some lm => (t - lm) / minutesPerDay
            | none => 0) < m.followupDays
        · simp only [processFollowupStep, hlm, hfm, if_neg hef, if_pos hds]
        · by_cases hany : (db.sends.any (fun s => s.enrollmentId == e.id &&
              s.campaignMessageId == m.id && s.messageType == "followup")) = true
          · simp only [processFollowupStep, hlm, hfm, if_neg hef, if_neg hds,
              if_pos hany]
          · cases hos : db.sends.find? (fun s => s.enrollmentId == e.id &&
                s.campaignMessageId == m.id && s.messageType == "scheduled") with
            | none =>
              simp only [processFollowupStep, hlm, hfm, if_neg hef, if_neg hds,
                if_neg hany, hos]
              rfl
            | some os =>
              by_cases hresp : os.responseReceived = true
              · simp only [processFollowupStep, hlm, hfm, if_neg hef, if_neg hds,
                  if_neg hany, hos, if_pos hresp]
              · simp only [processFollowupStep, hlm, hfm, if_neg hef, if_neg hds,
                  if_neg hany, hos, if_neg hresp]
                rfl

theorem processFollowupFold_messages (camp : Campaign) (t : Nat) (sms : SendOracle) :
    ∀ (es : List CampaignEnrollment) (db : DB),
    ((es.foldl (processFollowupStep camp t sms) db)).messages = db.messages := by
  intro es
  induction es with
  | nil =>
    intro db
    rfl
  | cons e es ih =>
    intro db
    rw [List.foldl_cons, ih, processFollowupStep_messages]

theorem processFollowups_messages (db : DB) (cid t : Nat) (sms : SendOracle) :
    (processFollowups db cid t sms).messages = db.messages := by
  cases hfc : findCampaign db cid with
  | none => simp only [processFollowups, hfc]
  | some camp =>
    by_cases hst : camp.status ≠ "active"
    · simp only [processFollowups, hfc, if_pos hst]
    · cases hdue : sendTimeDue (pyOrS camp.defaultSendTime "11:00") t with
      | none => simp only [processFollowups, hfc, if_neg hst, hdue]
      | some b =>
        cases b with
        | false => simp only [processFollowups, hfc, if_neg hst, hdue]
        | true =>
          have hshape : processFollowups db cid t sms =
              processFollowupsCore db camp t sms := by
            simp only [processFollowups, hfc, if_neg hst, hdue]
          rw [hshape]
          exact processFollowupFold_messages camp t sms _ db

theorem recordResponseStep_messages (now : Nat) (isOpt : Bool) (body : String)
    (db : DB) (e : CampaignEnrollment) :
    (recordResponseStep now isOpt body db e).messages = db.messages := by
  cases hlm : e.lastMessageId with
  | none =>
    simp only [recordResponseStep, hlm]
    split <;> rfl
  | some lmid =>
    simp only [recordResponseStep, hlm]
    split
    · split <;> rfl
    · split <;> rfl

theorem recordResponseFold_messages (now : Nat) (isOpt : Bool) (body : String) :
    ∀ (ts : List CampaignEnrollment) (db : DB),
    ((ts.foldl (recordResponseStep now isOpt body) db)).messages = db.messages := by
  intro ts
  induction ts with
  | nil =>
    intro db
    rfl
  | cons e ts ih =>
    intro db
    rw [List.foldl_cons, ih, recordResponseStep_messages]

theorem recordResponse_messages (db : DB) (p b : String) (now : Nat) :
    (recordResponse db p b now).messages = db.messages :=
  recordResponseFold_messages now (isOptOutBody b) b _ db

/-- No automated operation writes the message table, so each campaign's
ordered sequence is stable. -/
theorem applyOp_messages (db : DB) (op : Op) :
    (applyOp db op).messages = db.messages := by
  cases op with
  | tick cid t sms => exact processCampaign_messages db cid t sms
  | followupTick cid t sms => exact processFollowups_messages db cid t sms
  | inbound p b t => exact recordResponse_messages db p b t

theorem applyOp_campaignMessagesSorted (db : DB) (op : Op) (cid : Nat) :
    campaignMessagesSorted (applyOp db op) cid = campaignMessagesSorted db cid := by
  unfold campaignMessagesSorted
  rw [applyOp_messages]

theorem enrollments_abBranch (c : Prop) [Decidable c] (dbx : DB) (key : Nat)
    (f1 : CampaignEnrollment → CampaignEnrollment) (i2 : Nat)
    (f2 : CampaignABTest → CampaignABTest) :
    (if c then updateABTestByMessage (updateEnrollment dbx key f1) i2 f2
      else updateEnrollment dbx key f1).enrollments =
      dbx.enrollments.map (fun x => if x.id == key then f1 x else x) := by
  split
  · rfl
  · rfl

theorem sends_abBranch (c : Prop) [Decidable c] (dbx : DB) (key : Nat)
    (f1 : CampaignEnrollment → CampaignEnrollment) (i2 : Nat)
    (f2 : CampaignABTest → CampaignABTest) :
    (if c then updateABTestByMessage (updateEnrollment dbx key f1) i2 f2
      else updateEnrollment dbx key f1).sends = dbx.sends := by
  split
  · rfl
  · rfl

theorem sendCampaignMessage_self (db : DB) (camp : Campaign) (m : CampaignMessage)
    (e : CampaignEnrollment) (t : Nat) (o : SendOracle) :
    sendCampaignMessage db camp m e t o = db ∨
    ∃ snd, (sendCampaignMessage db camp m e t o).sends = db.sends ++ [snd] ∧
      snd.enrollmentId = e.id ∧ snd.campaignMessageId = m.id ∧
      snd.messageType = "scheduled" ∧
      ((snd.status = "failed" ∧
          (sendCampaignMessage db camp m e t o).enrollments = db.enrollments) ∨
        (snd.status = "sent" ∧
          (sendCampaignMessage db camp m e t o).enrollments =
            db.enrollments.map (fun x => if x.id == e.id then
              { x with currentStep := m.sequenceOrder, lastMessageAt := some t,
                       lastMessageId := some m.id } else x))) := by
  by_cases hex : (db.sends.any (fun s => s.enrollmentId == e.id &&
      s.campaignMessageId == m.id && s.messageType == "scheduled" &&
      decide (dayStartUtc t ≤ s.createdAt))) = true
  · left
    simp only [sendCampaignMessage, if_pos hex]
  · right
    cases hsucc : (o e.phoneNumber (fillCampaignTemplate
        (if (m.hasAbTest && optTruthy e.abVariant) = true then
          match db.abTests.find? (fun tt => tt.campaignMessageId == m.id) with
          | some tt => if (e.abVariant == some "B") = true then tt.variantBBody
                       else m.messageBody
          | none => m.messageBody
        else m.messageBody)
        { contactName := e.contactName, contactCompany := e.contactCompany,
          phoneNumber := some e.phoneNumber } t)).success with
    | false =>
      simp only [sendCampaignMessage, if_neg hex, hsucc]
      exact ⟨_, rfl, rfl, rfl, rfl, Or.inl ⟨rfl, rfl⟩⟩
    | true =>
      simp only [sendCampaignMessage, if_neg hex, hsucc]
      refine ⟨_, sends_abBranch _ _ _ _ _ _, rfl, rfl, rfl, Or.inr ⟨rfl, ?_⟩⟩
      exact enrollments_abBranch _ _ _ _ _ _

theorem enrollIds_update (key : Nat) (f : CampaignEnrollment → CampaignEnrollment)
    (hf : ∀ x, (f x).id = x.id) (l : List CampaignEnrollment) :
    (l.map (fun x => if x.id == key then f x else x)).map (fun x => x.id) =
      l.map (fun x => x.id) := by
  have hfun : ((fun x : CampaignEnrollment => x.id) ∘
      (fun x => if x.id == key then f x else x)) =
      fun x : CampaignEnrollment => x.id := by
    funext x
    dsimp only [Function.comp]
    split
    · exact hf x
    · rfl
  rw [List.map_map, hfun]

/-- One `_process_campaign` loop iteration on the enrollment itself keeps
its id table, keeps its campaign, and preserves step consistency and
creation-order sequentiality of its sends. -/
theorem processCampaignStep_self (camp : Campaign) (msgs : List CampaignMessage)
    (t : Nat) (o : SendOracle) (acc : DB × Bool) (e : CampaignEnrollment)
    (hwf : msgsWellFormed msgs)
    (hfind : findEnrollment acc.1 e.id = some e)
    (hcur : CurOk msgs acc.1.sends e.id e.currentStep)
    (hord : StepOrd msgs acc.1.sends e.id) :
    ((processCampaignStep camp msgs t o acc e).1.enrollments.map (fun x => x.id)
        = acc.1.enrollments.map (fun x => x.id)) ∧
    ∃ e', findEnrollment (processCampaignStep camp msgs t o acc e).1 e.id = some e' ∧
      e'.campaignId = e.campaignId ∧
      CurOk msgs (processCampaignStep camp msgs t o acc e).1.sends e.id e'.currentStep ∧
      StepOrd msgs (processCampaignStep camp msgs t o acc e).1.sends e.id := by
  by_cases hlen : msgs.length < e.currentStep + 1
  · simp only [processCampaignStep, if_pos hlen]
    constructor
    · exact enrollIds_update e.id (fun x => { x with status := "completed" })
        (fun x => rfl) acc.1.enrollments
    · refine ⟨{ e with status := "completed" }, ?_, rfl, hcur, hord⟩
      show (acc.1.enrollments.map (fun x => if x.id == e.id then
          { x with status := "completed" } else x)).find?
        (fun x => x.id == e.id) = some { e with status := "completed" }
      rw [find_update_eq (fun x : CampaignEnrollment => x.id) e.id
        (fun x => { x with status := "completed" }) (fun x => rfl) acc.1.enrollments]
      rw [show acc.1.enrollments.find? (fun x => x.id == e.id) = some e from hfind]
      rfl
  · cases hget : msgs.get? (e.currentStep + 1 - 1) with
    | none =>
      simp only [processCampaignStep, if_neg hlen, hget]
      exact ⟨by trivial, e, hfind, rfl, hcur, hord⟩
    | some m =>
      have hget' : msgs.get? e.currentStep = some m := by simpa using hget
      obtain ⟨hlt, hgeteq⟩ := List.get?_eq_some.mp hget'
      have hm_el : msgs[e.currentStep] = m := hgeteq
      have hseq : m.sequenceOrder = e.currentStep + 1 := by
        rw [← hm_el]
        exact hwf.2 e.currentStep hlt
      have hstep : stepOf msgs m.id = some (e.currentStep + 1) := by
        rw [← hm_el]
        exact stepOf_get msgs hwf.1 e.currentStep hlt
      by_cases hdue : shouldSendMessage e m t = true
      · simp only [processCampaignStep, if_neg hlen, hget, if_pos hdue]
        rcases sendCampaignMessage_self acc.1 camp m e t o with hsame |
            ⟨snd, hsends, s1, s2, s3, hbr⟩
        · rw [hsame]
          exact ⟨rfl, e, hfind, rfl, hcur, hord⟩
        · have hordNew : StepOrd msgs (acc.1.sends ++ [snd]) e.id := by
            refine stepOrd_snoc hord ?_
            intro k _ _ k3 k4
            rw [s2, hstep] at k3
            have hk : e.currentStep + 1 = k := by
              injection k3
            have := hcur.2 (by omega)
            rw [show k - 1 = e.currentStep from by omega]
            exact this
          rcases hbr with ⟨hfail, henr⟩ | ⟨hsent, henr⟩
          · refine ⟨?_, e, ?_, rfl, ⟨hcur.1, fun hge => ?_⟩, ?_⟩
            · show (sendCampaignMessage acc.1 camp m e t o).enrollments.map _ = _
              rw [henr]
            · show (sendCampaignMessage acc.1 camp m e t o).enrollments.find?
                (fun x => x.id == e.id) = some e
              rw [henr]
              exact hfind
            · show SentStepIn msgs (sendCampaignMessage acc.1 camp m e t o).sends
                e.id e.currentStep
              rw [hsends]
              exact sentStepIn_append _ (hcur.2 hge)
            · show StepOrd msgs (sendCampaignMessage acc.1 camp m e t o).sends e.id
              rw [hsends]
              exact hordNew
          · refine ⟨?_, ({ e with currentStep := m.sequenceOrder, lastMessageAt := some t, lastMessageId := some m.id } : CampaignEnrollment), ?_, rfl, ?_, ?_⟩
            · show (sendCampaignMessage acc.1 camp m e t o).enrollments.map _ = _
              rw [henr]
              exact enrollIds_update e.id (fun x => { x with currentStep := m.sequenceOrder, lastMessageAt := some t, lastMessageId := some m.id }) (fun x => rfl) acc.1.enrollments
            · show (sendCampaignMessage acc.1 camp m e t o).enrollments.find?
                (fun x => x.id == e.id) = some _
              rw [henr, find_update_eq (fun x : CampaignEnrollment => x.id) e.id (fun x => { x with currentStep := m.sequenceOrder, lastMessageAt := some t, lastMessageId := some m.id }) (fun x => rfl) acc.1.enrollments]
              rw [show acc.1.enrollments.find? (fun x => x.id == e.id) = some e from hfind]
              rfl
            · constructor
              · show m.sequenceOrder ≤ msgs.length
                rw [hseq]
                omega
              · intro _
                show SentStepIn msgs (sendCampaignMessage acc.1 camp m e t o).sends
                  e.id _
                rw [hsends]
                refine ⟨snd, List.mem_append_right _ (by simp), s1, s3, hsent, ?_⟩
                show stepOf msgs snd.campaignMessageId = some m.sequenceOrder
                rw [s2, hstep, hseq]
            · show StepOrd msgs (sendCampaignMessage acc.1 camp m e t o).sends e.id
              rw [hsends]
              exact hordNew
      · simp only [processCampaignStep, if_neg hlen, hget, if_neg hdue]
        exact ⟨by trivial, e, hfind, rfl, hcur, hord⟩

theorem processFold_inv_untouched (camp : Campaign) (msgs₀ : List CampaignMessage)
    (t : Nat) (o : SendOracle) (eid : Nat) (msgs : List CampaignMessage)
    (es : List CampaignEnrollment) (acc : DB × Bool) (hids : ∀ x ∈ es, x.id ≠ eid)
    (e : CampaignEnrollment) (hfe : findEnrollment acc.1 eid = some e)
    (hcur : CurOk msgs acc.1.sends eid e.currentStep)
    (hord : StepOrd msgs acc.1.sends eid) :
    ((es.foldl (processCampaignStep camp msgs₀ t o) acc)).1.enrollments.map
        (fun x => x.id) = acc.1.enrollments.map (fun x => x.id) ∧
    findEnrollment (es.foldl (processCampaignStep camp msgs₀ t o) acc).1 eid = some e ∧
    CurOk msgs (es.foldl (processCampaignStep camp msgs₀ t o) acc).1.sends eid
      e.currentStep ∧
    StepOrd msgs (es.foldl (processCampaignStep camp msgs₀ t o) acc).1.sends eid := by
  have haway := processFold_enrollAway camp msgs₀ t o eid es acc hids
  obtain ⟨app, hsh, hsch, _, _⟩ := processFold_sends camp msgs₀ t o eid 0 es acc
  have hfilter := processFold_sendsFor camp msgs₀ t o eid es acc hids
  have happnil : ∀ s ∈ app, s.enrollmentId ≠ eid := by
    have h1 : ((acc.1.sends ++ app).filter (fun s => s.enrollmentId == eid)) =
        acc.1.sends.filter (fun s => s.enrollmentId == eid) := by
      rw [← hsh]
      exact hfilter
    rw [List.filter_append] at h1
    have h2 : (app.filter (fun s => s.enrollmentId == eid)).length = 0 := by
      have h3 := congrArg List.length h1
      rw [List.length_append] at h3
      omega
    rw [List.length_eq_zero, List.filter_eq_nil_iff] at h2
    intro s hs heq
    exact h2 s hs (by rw [heq]; simp)
  refine ⟨enrollAway_ids haway, enrollAway_find haway hfe, ?_, ?_⟩
  · refine ⟨hcur.1, fun hge => ?_⟩
    rw [hsh]
    exact sentStepIn_append _ (hcur.2 hge)
  · rw [hsh]
    exact stepOrd_append hord (fun s hs => Or.inl (happnil s hs))

theorem stepInvWrap (X d : DB) (eid cid : Nat) (msgs : List CampaignMessage)
    (e' : CampaignEnrollment)
    (hideq : X.enrollments.map (fun x => x.id) = d.enrollments.map (fun x => x.id))
    (hnd' : (d.enrollments.map (fun x => x.id)).Nodup)
    (hf : findEnrollment X eid = some e') (hcmp : e'.campaignId = cid)
    (hc : CurOk msgs X.sends eid e'.currentStep) (ho : StepOrd msgs X.sends eid)
    (c tv : Nat) :
    (enrollmentIdsNodup (completeCampaignInTick X c tv) ∧
      ∃ e'', findEnrollment (completeCampaignInTick X c tv) eid = some e'' ∧
        e''.campaignId = cid ∧
        CurOk msgs (completeCampaignInTick X c tv).sends eid e''.currentStep ∧
        StepOrd msgs (completeCampaignInTick X c tv).sends eid) ∧
    (enrollmentIdsNodup X ∧
      ∃ e'', findEnrollment X eid = some e'' ∧ e''.campaignId = cid ∧
        CurOk msgs X.sends eid e''.currentStep ∧ StepOrd msgs X.sends eid) := by
  have hndX : enrollmentIdsNodup X := by
    show (X.enrollments.map (fun x => x.id)).Nodup
    rw [hideq]
    exact hnd'
  exact ⟨⟨hndX, e', hf, hcmp, hc, ho⟩, ⟨hndX, e', hf, hcmp, hc, ho⟩⟩

/-- One campaign pass preserves the sequential-progression invariant of
any enrollment of any campaign. -/
theorem processCampaign_stepInv (d : DB) (cid₂ t : Nat) (sms : SendOracle)
    (eid cid : Nat) (msgs : List CampaignMessage) (e : CampaignEnrollment)
    (hwf : msgsWellFormed msgs) (hnd : enrollmentIdsNodup d)
    (he : findEnrollment d eid = some e) (hcid : e.campaignId = cid)
    (hmsgs : campaignMessagesSorted d cid = msgs)
    (hcur : CurOk msgs d.sends eid e.currentStep)
    (hord : StepOrd msgs d.sends eid) :
    enrollmentIdsNodup (processCampaign d cid₂ t sms) ∧
    ∃ e', findEnrollment (processCampaign d cid₂ t sms) eid = some e' ∧
      e'.campaignId = cid ∧
      CurOk msgs (processCampaign d cid₂ t sms).sends eid e'.currentStep ∧
      StepOrd msgs (processCampaign d cid₂ t sms).sends eid := by
  have hnd' : (d.enrollments.map (fun x => x.id)).Nodup := hnd
  have heid : e.id = eid := by simpa using List.find?_some he
  cases hfc : findCampaign d cid₂ with
  | none =>
    simp only [processCampaign, hfc]
    exact ⟨hnd, e, he, hcid, hcur, hord⟩
  | some camp =>
    by_cases hst : camp.status ≠ "active"
    · simp only [processCampaign, hfc, if_pos hst]
      exact ⟨hnd, e, he, hcid, hcur, hord⟩
    · by_cases hmsgs0 : (campaignMessagesSorted d cid₂).isEmpty
      · simp only [processCampaign, hfc, if_neg hst, if_pos hmsgs0]
        exact ⟨hnd, e, he, hcid, hcur, hord⟩
      · cases hdue : sendTimeDue (pyOrS camp.defaultSendTime "11:00") t with
        | none =>
          simp only [processCampaign, hfc, if_neg hst, if_neg hmsgs0, hdue]
          exact ⟨hnd, e, he, hcid, hcur, hord⟩
        | some b =>
          cases b with
          | false =>
            simp only [processCampaign, hfc, if_neg hst, if_neg hmsgs0, hdue]
            exact ⟨hnd, e, he, hcid, hcur, hord⟩
          | true =>
            have hshape : processCampaign d cid₂ t sms =
                processCampaignCore d camp (campaignMessagesSorted d cid₂) t sms := by
              simp only [processCampaign, hfc, if_neg hst, if_neg hmsgs0, hdue]
            rw [hshape]
            by_cases hin : e ∈ d.enrollments.filter (fun x => x.campaignId == camp.id &&
                (x.status == "active" || x.status == "engaged"))
            · -- the enrollment is selected by this pass
              have hcampid : camp.id = cid := by
                have hp := (List.mem_filter.mp hin).2
                simp only [Bool.and_eq_true, beq_iff_eq] at hp
                rw [← hp.1, hcid]
              obtain ⟨l₁, l₂, hsplit⟩ := List.append_of_mem hin
              have hnd₂ : ((d.enrollments.filter (fun x => x.campaignId == camp.id &&
                  (x.status == "active" || x.status == "engaged"))).map
                  (fun x => x.id)).Nodup :=
                hnd'.sublist ((List.filter_sublist _).map _)
              rw [hsplit, List.map_append, List.map_cons] at hnd₂
              have hnotin : e.id ∉ l₁.map (fun x => x.id) ++ l₂.map (fun x => x.id) :=
                (List.nodup_cons.mp (List.nodup_middle.mp hnd₂)).1
              have hids₁ : ∀ x ∈ l₁, x.id ≠ eid := by
                intro x hx hxeq
                refine hnotin (List.mem_append_left _ ?_)
                rw [heid, ← hxeq]
                exact List.mem_map_of_mem _ hx
              have hids₂ : ∀ x ∈ l₂, x.id ≠ eid := by
                intro x hx hxeq
                refine hnotin (List.mem_append_right _ ?_)
                rw [heid, ← hxeq]
                exact List.mem_map_of_mem _ hx
              by_cases hemp : (d.enrollments.filter (fun x => x.campaignId == camp.id &&
                  (x.status == "active" || x.status == "engaged"))).isEmpty
              · rw [hsplit] at hemp
                simp [List.isEmpty_iff] at hemp
              · simp only [processCampaignCore, if_neg hemp]
                have hmsgs₂ : campaignMessagesSorted d cid₂ = msgs := by
                  have hc2 : camp.id = cid₂ := by
                    simpa using List.find?_some hfc
                  rw [← hc2, hcampid]
                  exact hmsgs
                rw [hsplit, hmsgs₂, List.foldl_append, List.foldl_cons]
                -- phase 1: fold over l₁ leaves the row alone
                obtain ⟨i1, f1, c1, o1⟩ := processFold_inv_untouched camp msgs t sms eid
                  msgs l₁ (d, true) hids₁ e he hcur hord
                -- phase 2: the iteration on the row itself
                rw [← heid] at f1 c1 o1
                obtain ⟨i2, e', f2, cmp2, c2, o2⟩ := processCampaignStep_self camp msgs
                  t sms (l₁.foldl (processCampaignStep camp msgs t sms) (d, true)) e
                  hwf f1 c1 o1
                -- phase 3: fold over l₂ leaves the new row alone
                rw [heid] at f2 c2 o2
                obtain ⟨i3, f3, c3, o3⟩ := processFold_inv_untouched camp msgs t sms eid
                  msgs l₂ (processCampaignStep camp msgs t sms
                    (l₁.foldl (processCampaignStep camp msgs t sms) (d, true)) e)
                  hids₂ e' f2 c2 o2
                have hidall := i3.trans (i2.trans i1)
                obtain ⟨W1, W2⟩ := stepInvWrap _ d eid cid msgs e' hidall hnd' f3
                  (cmp2.trans hcid) c3 o3 camp.id t
                split
                · exact W1
                · exact W2
            · -- the enrollment is not selected by this pass
              have hids : ∀ x ∈ d.enrollments.filter (fun x => x.campaignId == camp.id &&
                  (x.status == "active" || x.status == "engaged")), x.id ≠ eid := by
                intro x hx hxeq
                have hxe : x = e := List.inj_on_of_nodup_map hnd'
                  (List.mem_filter.mp hx).1 (List.mem_of_find?_eq_some he)
                  (by rw [hxeq, heid])
                rw [hxe] at hx
                exact hin hx
              by_cases hemp : (d.enrollments.filter (fun x => x.campaignId == camp.id &&
                  (x.status == "active" || x.status == "engaged"))).isEmpty
              · simp only [processCampaignCore, if_pos hemp]
                exact ⟨hnd, e, he, hcid, hcur, hord⟩
              · simp only [processCampaignCore, if_neg hemp]
                obtain ⟨i1, f1, c1, o1⟩ := processFold_inv_untouched camp
                  (campaignMessagesSorted d cid₂) t sms eid msgs
                  (d.enrollments.filter (fun x => x.campaignId == camp.id &&
                    (x.status == "active" || x.status == "engaged"))) (d, true)
                  hids e he hcur hord
                obtain ⟨W1, W2⟩ := stepInvWrap _ d eid cid msgs e i1 hnd' f1 hcid c1 o1
                  camp.id t
                split
                · exact W1
                · exact W2

/-- One follow-up pass preserves the sequential-progression invariant: it
never writes enrollment rows and appends only `followup` sends. -/
theorem processFollowups_stepInv (d : DB) (cid₂ t : Nat) (sms : SendOracle)
    (eid cid : Nat) (msgs : List CampaignMessage) (e : CampaignEnrollment)
    (hnd : enrollmentIdsNodup d) (he : findEnrollment d eid = some e)
    (hcid : e.campaignId = cid)
    (hcur : CurOk msgs d.sends eid e.currentStep)
    (hord : StepOrd msgs d.sends eid) :
    enrollmentIdsNodup (processFollowups d cid₂ t sms) ∧
    ∃ e', findEnrollment (processFollowups d cid₂ t sms) eid = some e' ∧
      e'.campaignId = cid ∧
      CurOk msgs (processFollowups d cid₂ t sms).sends eid e'.currentStep ∧
      StepOrd msgs (processFollowups d cid₂ t sms).sends eid := by
  have hpe := processFollowups_enrollments d cid₂ t sms
  obtain ⟨app, ha, hb, _, _⟩ := processFollowups_sends d cid₂ t sms eid 0
  refine ⟨?_, e, ?_, hcid, ⟨hcur.1, fun hge => ?_⟩, ?_⟩
  · show ((processFollowups d cid₂ t sms).enrollments.map (fun x => x.id)).Nodup
    rw [hpe]
    exact hnd
  · show (processFollowups d cid₂ t sms).enrollments.find?
      (fun x => x.id == eid) = some e
    rw [hpe]
    exact he
  · show SentStepIn msgs (processFollowups d cid₂ t sms).sends eid e.currentStep
    rw [ha]
    exact sentStepIn_append _ (hcur.2 hge)
  · show StepOrd msgs (processFollowups d cid₂ t sms).sends eid
    rw [ha]
    refine stepOrd_append hord (fun s hs => Or.inr ?_)
    rw [hb s hs]
    decide

theorem tame_respBranch (c : Prop) [Decidable c] (db : DB) (key : Nat)
    (f1 f2 : CampaignEnrollment → CampaignEnrollment)
    (h1 : ∀ x, (f1 x).id = x.id ∧ (f1 x).campaignId = x.campaignId ∧
      (f1 x).currentStep = x.currentStep)
    (h2 : ∀ x, (f2 x).id = x.id ∧ (f2 x).campaignId = x.campaignId ∧
      (f2 x).currentStep = x.currentStep) :
    ∃ g, (∀ x, (g x).id = x.id ∧ (g x).campaignId = x.campaignId ∧
        (g x).currentStep = x.currentStep) ∧
      (if c then updateEnrollment db key f1
        else updateEnrollment db key f2).enrollments = db.enrollments.map g := by
  split
  · refine ⟨fun x => if x.id == key then f1 x else x, ?_, rfl⟩
    intro x
    dsimp only
    split
    · exact h1 x
    · exact ⟨rfl, rfl, rfl⟩
  · refine ⟨fun x => if x.id == key then f2 x else x, ?_, rfl⟩
    intro x
    dsimp only
    split
    · exact h2 x
    · exact ⟨rfl, rfl, rfl⟩

/-- One `record_response` target update rewrites the enrollment table by a
per-row map that keeps ids, campaigns and `current_step`. -/
theorem recordResponseStep_enrollTame (now : Nat) (isOpt : Bool) (body : String)
    (db : DB) (e : CampaignEnrollment) :
    ∃ g, (∀ x, (g x).id = x.id ∧ (g x).campaignId = x.campaignId ∧
        (g x).currentStep = x.currentStep) ∧
      (recordResponseStep now isOpt body db e).enrollments =
        db.enrollments.map g := by
  have hfopt : ∀ x : CampaignEnrollment,
      ((fun x : CampaignEnrollment => { x with status := "opted_out", optedOutAt := some now, optedOutKeyword := some (String.mk (body.data.take 50)) }) x).id = x.id ∧
      ((fun x : CampaignEnrollment => { x with status := "opted_out", optedOutAt := some now, optedOutKeyword := some (String.mk (body.data.take 50)) }) x).campaignId = x.campaignId ∧
      ((fun x : CampaignEnrollment => { x with status := "opted_out", optedOutAt := some now, optedOutKeyword := some (String.mk (body.data.take 50)) }) x).currentStep = x.currentStep :=
    fun x => ⟨rfl, rfl, rfl⟩
  have hfeng : ∀ x : CampaignEnrollment,
      ((fun x : CampaignEnrollment =>
        let x' :=
          if x.firstResponseAt.isNone then
            { x with firstResponseAt := some now,
                     firstResponseMessageId := x.lastMessageId }
          else x
        { x' with status := "engaged", responseCount := x'.responseCount + 1 }) x).id
        = x.id ∧
      ((fun x : CampaignEnrollment =>
        let x' :=
          if x.firstResponseAt.isNone then
            { x with firstResponseAt := some now,
                     firstResponseMessageId := x.lastMessageId }
          else x
        { x' with status := "engaged",
                  responseCount := x'.responseCount + 1 }) x).campaignId = x.campaignId ∧
      ((fun x : CampaignEnrollment =>
        let x' :=
          if x.firstResponseAt.isNone then
            { x with firstResponseAt := some now,
                     firstResponseMessageId := x.lastMessageId }
          else x
        { x' with status := "engaged",
                  responseCount := x'.responseCount + 1 }) x).currentStep = x.currentStep := by
    intro x
    dsimp only
    split
    · exact ⟨rfl, rfl, rfl⟩
    · exact ⟨rfl, rfl, rfl⟩
  cases hlm : e.lastMessageId with
  | none =>
    simp only [recordResponseStep, hlm]
    exact tame_respBranch _ db e.id _ _ hfopt hfeng
  | some lmid =>
    simp only [recordResponseStep, hlm]
    split
    · exact tame_respBranch _ db e.id _ _ hfopt hfeng
    · exact tame_respBranch _ db e.id _ _ hfopt hfeng

theorem recordResponseFold_enrollTame (now : Nat) (isOpt : Bool) (body : String) :
    ∀ (ts : List CampaignEnrollment) (db : DB),
    ∃ g, (∀ x, (g x).id = x.id ∧ (g x).campaignId = x.campaignId ∧
        (g x).currentStep = x.currentStep) ∧
      ((ts.foldl (recordResponseStep now isOpt body) db)).enrollments =
        db.enrollments.map g := by
  intro ts
  induction ts with
  | nil =>
    intro db
    exact ⟨id, fun x => ⟨rfl, rfl, rfl⟩, (List.map_id _).symm⟩
  | cons e ts ih =>
    intro db
    obtain ⟨g1, hg1, h1⟩ := recordResponseStep_enrollTame now isOpt body db e
    obtain ⟨g2, hg2, h2⟩ := ih (recordResponseStep now isOpt body db e)
    refine ⟨g2 ∘ g1, ?_, ?_⟩
    · intro x
      obtain ⟨a1, a2, a3⟩ := hg1 x
      obtain ⟨b1, b2, b3⟩ := hg2 (g1 x)
      exact ⟨b1.trans a1, b2.trans a2, b3.trans a3⟩
    · rw [List.foldl_cons, h2, h1, List.map_map]

theorem recordResponse_enrollTame (db : DB) (p b : String) (now : Nat) :
    ∃ g, (∀ x, (g x).id = x.id ∧ (g x).campaignId = x.campaignId ∧
        (g x).currentStep = x.currentStep) ∧
      (recordResponse db p b now).enrollments = db.enrollments.map g :=
  recordResponseFold_enrollTame now (isOptOutBody b) b _ db

/-- One inbound message preserves the sequential-progression invariant:
it never moves `current_step` and rewrites send rows benignly. -/
theorem recordResponse_stepInv (d : DB) (p b : String) (t : Nat)
    (eid cid : Nat) (msgs : List CampaignMessage) (e : CampaignEnrollment)
    (hnd : enrollmentIdsNodup d) (he : findEnrollment d eid = some e)
    (hcid : e.campaignId = cid)
    (hcur : CurOk msgs d.sends eid e.currentStep)
    (hord : StepOrd msgs d.sends eid) :
    enrollmentIdsNodup (recordResponse d p b t) ∧
    ∃ e', findEnrollment (recordResponse d p b t) eid = some e' ∧
      e'.campaignId = cid ∧
      CurOk msgs (recordResponse d p b t).sends eid e'.currentStep ∧
      StepOrd msgs (recordResponse d p b t).sends eid := by
  obtain ⟨g, hg, hgs⟩ := recordResponse_enrollTame d p b t
  obtain ⟨gs, hgsb, hgss⟩ := recordResponse_sends d p b t
  have hfun : ((fun x : CampaignEnrollment => x.id) ∘ g) =
      fun x : CampaignEnrollment => x.id := funext (fun x => (hg x).1)
  refine ⟨?_, g e, ?_, ?_, ?_, ?_⟩
  · show ((recordResponse d p b t).enrollments.map (fun x => x.id)).Nodup
    rw [hgs, List.map_map, hfun]
    exact hnd
  · show (recordResponse d p b t).enrollments.find? (fun x => x.id == eid) = some (g e)
    rw [hgs, find_map_pred (fun x => x.id == eid) g
      (fun x => by dsimp only; rw [(hg x).1]) d.enrollments]
    rw [show d.enrollments.find? (fun x => x.id == eid) = some e from he]
    rfl
  · rw [(hg e).2.1]
    exact hcid
  · rw [(hg e).2.2]
    refine ⟨hcur.1, fun hge => ?_⟩
    show SentStepIn msgs (recordResponse d p b t).sends eid e.currentStep
    rw [hgss]
    exact sentStepIn_map_benign hgsb (hcur.2 hge)
  · show StepOrd msgs (recordResponse d p b t).sends eid
    rw [hgss]
    exact stepOrd_map_benign hgsb hord

theorem applyOp_stepInv (d : DB) (op : Op) (eid cid : Nat)
    (msgs : List CampaignMessage) (e : CampaignEnrollment)
    (hwf : msgsWellFormed msgs) (hnd : enrollmentIdsNodup d)
    (he : findEnrollment d eid = some e) (hcid : e.campaignId = cid)
    (hmsgs : campaignMessagesSorted d cid = msgs)
    (hcur : CurOk msgs d.sends eid e.currentStep)
    (hord : StepOrd msgs d.sends eid) :
    enrollmentIdsNodup (applyOp d op) ∧
    ∃ e', findEnrollment (applyOp d op) eid = some e' ∧ e'.campaignId = cid ∧
      CurOk msgs (applyOp d op).sends eid e'.currentStep ∧
      StepOrd msgs (applyOp d op).sends eid := by
  cases op with
  | tick cid₂ t sms =>
    exact processCampaign_stepInv d cid₂ t sms eid cid msgs e hwf hnd he hcid
      hmsgs hcur hord
  | followupTick cid₂ t sms =>
    exact processFollowups_stepInv d cid₂ t sms eid cid msgs e hnd he hcid hcur hord
  | inbound p b t =>
    exact recordResponse_stepInv d p b t eid cid msgs e hnd he hcid hcur hord

/-- C4: sequential progression.  Starting an enrollment fresh
(`current_step = 0`, empty send table), after any sequence of automated
operations the enrollment's `scheduled` sends are creation-ordered — a
row at step N is always strictly preceded by a successfully sent row at
step N − 1 — and its `current_step` stays consistent: whenever positive,
the step it denotes has a sent row.  Moreover the processing pass only
ever selects the message at position `current_step + 1`, and
`current_step` moves only when a `sent` send of that message is
recorded. -/
theorem c4_sequential_progression (db : DB) (cid eid : Nat)
    (msgs : List CampaignMessage) (ops : List Op) (e : CampaignEnrollment)
    (hwf : msgsWellFormed msgs) (hmsgs : campaignMessagesSorted db cid = msgs)
    (hnd : enrollmentIdsNodup db) (he : findEnrollment db eid = some e)
    (hcid : e.campaignId = cid) (hsends0 : db.sends = [])
    (hstep0 : e.currentStep = 0) :
    StepOrd msgs (runOps db ops).sends eid ∧
    (∃ e', findEnrollment (runOps db ops) eid = some e' ∧ e'.campaignId = cid ∧
      CurOk msgs (runOps db ops).sends eid e'.currentStep) ∧
    (∀ (camp : Campaign) (t : Nat) (o : SendOracle) (acc : DB × Bool)
        (e₁ : CampaignEnrollment),
      (processCampaignStep camp msgs t o acc e₁).1.sends = acc.1.sends ∨
      ∃ snd, (processCampaignStep camp msgs t o acc e₁).1.sends =
          acc.1.sends ++ [snd] ∧ snd.enrollmentId = e₁.id ∧
        snd.campaignMessageId = (msgs.get? e₁.currentStep).elim 0 CampaignMessage.id ∧
        snd.messageType = "scheduled") ∧
    (∀ (d₂ : DB) (camp : Campaign) (m : CampaignMessage)
        (e₁ : CampaignEnrollment) (t : Nat) (o : SendOracle),
      sendCampaignMessage d₂ camp m e₁ t o = d₂ ∨
      ∃ snd, (sendCampaignMessage d₂ camp m e₁ t o).sends = d₂.sends ++ [snd] ∧
        ((snd.status = "failed" ∧
            (sendCampaignMessage d₂ camp m e₁ t o).enrollments = d₂.enrollments) ∨
          (snd.status = "sent" ∧
            (sendCampaignMessage d₂ camp m e₁ t o).enrollments =
              d₂.enrollments.map (fun x => if x.id == e₁.id then
                { x with currentStep := m.sequenceOrder, lastMessageAt := some t,
                         lastMessageId := some m.id } else x)))) := by
  have hcur₀ : CurOk msgs db.sends eid e.currentStep := by
    refine ⟨by rw [hstep0]; exact Nat.zero_le _, fun hge => ?_⟩
    rw [hstep0] at hge
    omega
  have hord₀ : StepOrd msgs db.sends eid := by
    intro i hi
    rw [hsends0] at hi
    simp at hi
  have main : ∀ (l : List Op) (d : DB) (e₀ : CampaignEnrollment),
      enrollmentIdsNodup d → findEnrollment d eid = some e₀ →
      e₀.campaignId = cid → campaignMessagesSorted d cid = msgs →
      CurOk msgs d.sends eid e₀.currentStep → StepOrd msgs d.sends eid →
      enrollmentIdsNodup (runOps d l) ∧
      ∃ e', findEnrollment (runOps d l) eid = some e' ∧ e'.campaignId = cid ∧
        CurOk msgs (runOps d l).sends eid e'.currentStep ∧
        StepOrd msgs (runOps d l).sends eid := by
    intro l
    induction l with
    | nil =>
      intro d e₀ h1 h2 h3 _ h5 h6
      exact ⟨h1, e₀, h2, h3, h5, h6⟩
    | cons op l ih =>
      intro d e₀ h1 h2 h3 h4 h5 h6
      obtain ⟨p1, e₁, p2, p3, p4, p5⟩ := applyOp_stepInv d op eid cid msgs e₀ hwf
        h1 h2 h3 h4 h5 h6
      have h4' : campaignMessagesSorted (applyOp d op) cid = msgs := by
        rw [applyOp_campaignMessagesSorted]
        exact h4
      exact ih (applyOp d op) e₁ p1 p2 p3 h4' p4 p5
  obtain ⟨_, e', q2, q3, q4, q5⟩ := main ops db e hnd he hcid hmsgs hcur₀ hord₀
  refine ⟨q5, ⟨e', q2, q3, q4⟩, ?_, ?_⟩
  · intro camp t o acc e₁
    rcases processCampaignStep_sends camp msgs t o acc e₁ with h |
        ⟨_, snd, hs, h1, h2, h3, _⟩
    · exact Or.inl h
    · exact Or.inr ⟨snd, hs, h1, h2, h3⟩
  · intro d₂ camp m e₁ t o
    rcases sendCampaignMessage_self d₂ camp m e₁ t o with h |
        ⟨snd, hs, _, _, _, hbr⟩
    · exact Or.inl h
    · exact Or.inr ⟨snd, hs, hbr⟩

/-- Witness for C4 at a concrete input: a fresh enrollment and two
campaign passes. -/
theorem c4_sequential_progression_witness :
    StepOrd (campaignMessagesSorted dbOneCampaign 1)
      (runOps dbOneCampaign [Op.tick 1 tEveningUtc smsAlwaysOk,
        Op.tick 1 tAfterUtcMidnight smsAlwaysOk]).sends 1 ∧
    (∃ e', findEnrollment (runOps dbOneCampaign [Op.tick 1 tEveningUtc smsAlwaysOk,
        Op.tick 1 tAfterUtcMidnight smsAlwaysOk]) 1 = some e' ∧
      e'.campaignId = 1 ∧
      CurOk (campaignMessagesSorted dbOneCampaign 1)
        (runOps dbOneCampaign [Op.tick 1 tEveningUtc smsAlwaysOk,
          Op.tick 1 tAfterUtcMidnight smsAlwaysOk]).sends 1 e'.currentStep) ∧
    (∀ (camp : Campaign) (t : Nat) (o : SendOracle) (acc : DB × Bool)
        (e₁ : CampaignEnrollment),
      (processCampaignStep camp (campaignMessagesSorted dbOneCampaign 1) t o
          acc e₁).1.sends = acc.1.sends ∨
      ∃ snd, (processCampaignStep camp (campaignMessagesSorted dbOneCampaign 1) t o
          acc e₁).1.sends = acc.1.sends ++ [snd] ∧ snd.enrollmentId = e₁.id ∧
        snd.campaignMessageId = ((campaignMessagesSorted dbOneCampaign 1).get?
          e₁.currentStep).elim 0 CampaignMessage.id ∧
        snd.messageType = "scheduled") ∧
    (∀ (d₂ : DB) (camp : Campaign) (m : CampaignMessage)
        (e₁ : CampaignEnrollment) (t : Nat) (o : SendOracle),
      sendCampaignMessage d₂ camp m e₁ t o = d₂ ∨
      ∃ snd, (sendCampaignMessage d₂ camp m e₁ t o).sends = d₂.sends ++ [snd] ∧
        ((snd.status = "failed" ∧
            (sendCampaignMessage d₂ camp m e₁ t o).enrollments = d₂.enrollments) ∨
          (snd.status = "sent" ∧
            (sendCampaignMessage d₂ camp m e₁ t o).enrollments =
              d₂.enrollments.map (fun x => if x.id == e₁.id then
                { x with currentStep := m.sequenceOrder, lastMessageAt := some t,
                         lastMessageId := some m.id } else x)))) :=
  c4_sequential_progression dbOneCampaign 1 1 (campaignMessagesSorted dbOneCampaign 1)
    [Op.tick 1 tEveningUtc smsAlwaysOk, Op.tick 1 tAfterUtcMidnight smsAlwaysOk]
    { id := 1, campaignId := 1, phoneNumber := "+15551234567",
      contactName := some "Ann", currentStep := 0, status := "active" }
    ⟨by decide, by
      intro i h
      have hlen : (campaignMessagesSorted dbOneCampaign 1).length = 1 := rfl
      rw [hlen] at h
      have hi0 : i = 0 := by omega
      subst hi0
      rfl⟩
    rfl (by unfold enrollmentIdsNodup; decide) rfl rfl rfl rfl

end SINY
